import Mathlib

/-! # GCIF context-model encoder: a verification development

Shallow embedding of the parts of `ImageFilterWriter.cpp`, `ImageCMWriter.cpp`
and `decoder/SmallPaletteReader.cpp` that the specification talks about,
followed by the theorems that settle the specification's claims against that
code.

Conventions.
* C `int` values are `Int`; bytes (`u8`) are integers kept in `[0, 256)` by an
  explicit `% 256`; `char`/`s8` casts are `toS8`.
* `x >> k` on an `int` is the arithmetic shift, written `x / 2 ^ k`
  (`Int` division rounds towards minus infinity for a positive divisor).
* C `/` on `int` truncates towards zero: `Int.tdiv`.
* Pointers into the RGBA raster are byte offsets into a memory `Nat → Nat`.
* Unsigned counters (`u32`) and the bytes, indices and `u32` pixels of the
  small-palette reader are `Nat`, reduced by an explicit `% 2 ^ w` where the C
  type wraps or truncates.
-/

namespace GCIF

/-! ## Machine integer casts -/

/-- C cast `static_cast<u8>(x)` of an `int`. -/
def toU8 (x : Int) : Int := x % 256

/-- C cast `(char)x` / `(s8)x` of an `int` (two's complement, signed `char`). -/
def toS8 (x : Int) : Int := (x + 128) % 256 - 128

/-- C cast `static_cast<s16>(x)` of an `int`. -/
def toS16 (x : Int) : Int := (x + 32768) % 65536 - 32768

/-! ## Colour filters (`ImageFilterWriter.cpp`, `convertRGBtoYUV` / `convertYUVtoRGB`) -/

/-- The enumerators that the `switch (cf)` of `convertRGBtoYUV` and
`convertYUVtoRGB` dispatch on, in the order of the `case` labels.  The
enumeration itself (numbering and `CF_COUNT`) is declared in
`ImageFilterWriter.hpp`; the `default:` label shares the `CF_RGB` branch. -/
inductive ColorFilter
  | CF_YUVr | CF_E2 | CF_E1 | CF_E4
  | CF_D8 | CF_D9 | CF_D14
  | CF_D10 | CF_D11 | CF_D12 | CF_D18
  | CF_YCgCo_R
  | CF_A3
  | CF_GB_RG | CF_GB_RB | CF_GR_BR | CF_GR_BG | CF_BG_RG
  | CF_RGB
  | CF_C7 | CF_E5 | CF_E8 | CF_E11 | CF_F1 | CF_F2
  deriving DecidableEq, Repr

/-- The struct `YUV899`: `u8 y; s16 u, v;`. -/
structure YUV899 where
  y : Int
  u : Int
  v : Int
  deriving DecidableEq, Repr

open ColorFilter in
/-- Forward colour transform `convertRGBtoYUV(cf, rgb, out)`; `R G B` are the
three bytes `rgb[0..2]` read into `int`s. -/
def convertRGBtoYUV (cf : ColorFilter) (R G B : Int) : YUV899 :=
  let yuv : Int × Int × Int :=
    match cf with
    | CF_YUVr =>
        let U := B - G
        let V := R - G
        let Y := G + toS8 (U + V) / 4
        (Y, U, V)
    | CF_E2 => (G / 2 + (R + B) / 4, B - (R + G) / 2, R - G)
    | CF_E1 => (G / 2 + (R + B) / 4, B - (R + G * 3) / 4, R - G)
    | CF_E4 => (G / 2 + (R + B) / 4, R - (B + G * 3) / 4, B - G)
    | CF_D8 => (R, B - (R + G) / 2, G - R)
    | CF_D9 => (R, B - (R + G * 3) / 4, G - R)
    | CF_D14 => (R, G - (R + B) / 2, B - R)
    | CF_D10 => (B, G - (R + B * 3) / 4, R - B)
    | CF_D11 => (B, G - (R + B) / 2, R - B)
    | CF_D12 => (B, G - (R * 3 + B) / 4, R - B)
    | CF_D18 => (B, R - (G * 3 + B) / 4, G - B)
    | CF_YCgCo_R =>
        let Co := toS8 (R - B)
        let t := B + Co / 2
        let Cg := toS8 (G - t)
        let Y := t + Cg / 2
        (Y, Cg, Co)
    | CF_A3 => (Int.tdiv (R + G + B) 3, B - G, R - G)
    | CF_GB_RG => (G, G - B, R - G)
    | CF_GB_RB => (G - B, B, R - B)
    | CF_GR_BR => (G - R, B - R, R)
    | CF_GR_BG => (G - R, B - G, R)
    | CF_BG_RG => (G, B - G, R - G)
    | CF_RGB => (G, B, R)
    | CF_C7 => (B, B - (R + G) / 2, R - G)
    | CF_E5 => (G / 2 + (R + B) / 4, R - (G + B) / 2, G - B)
    | CF_E8 => (R / 2 + (G + B) / 4, B - (R + G) / 2, G - R)
    | CF_E11 => (B / 2 + (R + G) / 4, G - (R + B) / 2, R - B)
    | CF_F1 => (Int.tdiv (R + G + B) 3, B - (R + 3 * G) / 4, R - G)
    | CF_F2 => (Int.tdiv (R + G + B) 3, R - (B + 3 * G) / 4, B - G)
  { y := toU8 yuv.1, u := toS16 yuv.2.1, v := toS16 yuv.2.2 }

open ColorFilter in
/-- Inverse colour transform `convertYUVtoRGB(cf, yuv, out)`, returning
`out[0..2]`.  The branches of `CF_E4`, `CF_E5`, `CF_E8`, `CF_E11`, `CF_F1` and
`CF_F2` contain only a commented-out copy of the forward transform, so `R`,
`G`, `B` are never assigned there and `out` is indeterminate: `none`. -/
def convertYUVtoRGB (cf : ColorFilter) (yuv : YUV899) : Option (Int × Int × Int) :=
  let Y := yuv.y
  let U := yuv.u
  let V := yuv.v
  let rgb : Option (Int × Int × Int) :=
    match cf with
    | CF_YUVr =>
        let G := Y - toS8 (U + V) / 4
        let R := V + G
        let B := U + G
        some (R, G, B)
    | CF_E2 =>
        let R := Y - Int.tdiv U 4 + Int.tdiv (V * 5) 8
        let G := Y - Int.tdiv U 4 - Int.tdiv (V * 3) 8
        let B := Y + Int.tdiv (U * 3) 4 + Int.tdiv V 8
        some (R, G, B)
    | CF_E1 =>
        let py := V
        let pu := U
        let pv := Y
        let ly := py
        let lu := Int.tdiv py 4 + pu
        let lv := pv + Int.tdiv (pu * 3) 4 - Int.tdiv py 16
        let uy := ly - lu + lv
        let uu := lv - lu
        let uv := lv
        some (uy, uu, uv)
    | CF_E4 => none
    | CF_D8 =>
        let R := Y
        let G := V + R
        let B := U + (toU8 R + toU8 G) / 2
        some (R, G, B)
    | CF_D9 =>
        let R := Y
        let G := V + R
        let B := U + (toU8 R + toU8 G * 3) / 4
        some (R, G, B)
    | CF_D14 =>
        let R := Y
        let B := V + R
        let G := U + (toU8 R + toU8 B) / 2
        some (R, G, B)
    | CF_D10 =>
        let B := Y
        let R := V + B
        let G := U + (toU8 R + toU8 B * 3) / 4
        some (R, G, B)
    | CF_D11 =>
        let B := Y
        let R := V + B
        let G := U + (toU8 R + toU8 B) / 2
        some (R, G, B)
    | CF_D12 =>
        let B := Y
        let R := B + V
        let G := U + (toU8 R * 3 + toU8 B) / 4
        some (R, G, B)
    | CF_D18 =>
        let B := Y
        let G := V + B
        let R := U + (toU8 G * 3 + toU8 B) / 4
        some (R, G, B)
    | CF_YCgCo_R =>
        let s := Y - U / 2
        let G := U + s
        let B := s - V / 2
        let R := B + V
        some (R, G, B)
    | CF_A3 =>
        let G := Int.tdiv (Y * 3 - U - V) 3
        let R := V + G
        let B := U + G
        some (R, G, B)
    | CF_GB_RG =>
        let G := Y
        let R := V + G
        let B := G - U
        some (R, G, B)
    | CF_GB_RB =>
        let B := U
        let G := Y + B
        let R := V + B
        some (R, G, B)
    | CF_GR_BR =>
        let R := V
        let G := Y + R
        let B := U + R
        some (R, G, B)
    | CF_GR_BG =>
        let R := V
        let G := Y + R
        let B := U + G
        some (R, G, B)
    | CF_BG_RG =>
        let G := Y
        let B := U + G
        let R := V + G
        some (R, G, B)
    | CF_RGB => some (V, Y, U)
    | CF_C7 =>
        let B := Y
        let s := (B - U) * 2
        let R := (s + V + 1) / 2
        let G := R - V
        some (R, G, B)
    | CF_E5 => none
    | CF_E8 => none
    | CF_E11 => none
    | CF_F1 => none
    | CF_F2 => none
  rgb.map fun t => (toU8 t.1, toU8 t.2.1, toU8 t.2.2)

/-- The YUV888 phase of `testColorFilters`: `yuv.u = (s8)yuv.u; yuv.v = (s8)yuv.v;`. -/
def truncYUV888 (yuv : YUV899) : YUV899 :=
  { y := yuv.y, u := toS8 yuv.u, v := toS8 yuv.v }

/-- One probe of the YUV899 loop of `testColorFilters`: forward, inverse, and
the comparison `rgb2[i] != rgb[i]` negated. -/
def testColorFilters899 (cf : ColorFilter) (r g b : Int) : Bool :=
  decide (convertYUVtoRGB cf (convertRGBtoYUV cf r g b) = some (r, g, b))

/-- One probe of the YUV888 loop of `testColorFilters`. -/
def testColorFilters888 (cf : ColorFilter) (r g b : Int) : Bool :=
  decide (convertYUVtoRGB cf (truncYUV888 (convertRGBtoYUV cf r g b)) = some (r, g, b))

/-- The filters whose inverse round-trips with the full `s16` chroma (YUV899). -/
def reversible899 : List ColorFilter :=
  [.CF_YUVr, .CF_YCgCo_R, .CF_D8, .CF_D9, .CF_D14, .CF_D10, .CF_D11, .CF_D12, .CF_D18,
   .CF_GB_RG, .CF_GB_RB, .CF_GR_BR, .CF_GR_BG, .CF_BG_RG, .CF_RGB, .CF_C7]

/-- The filters named by the YUV888 reversibility claim. -/
def reversible888 : List ColorFilter :=
  [.CF_YUVr, .CF_YCgCo_R, .CF_D8, .CF_D9, .CF_D14, .CF_D10, .CF_D11, .CF_D12, .CF_D18,
   .CF_GB_RG, .CF_GB_RB, .CF_GR_BR, .CF_GR_BG, .CF_BG_RG, .CF_RGB]
/-! ## Spatial filters (`ImageFilterWriter.cpp`, `filterPixel` and its helpers) -/

/-- The helper `predLevel(a, b, c)`, returning `u8`. -/
def predLevel (a b c : Int) : Int :=
  if c ≥ a ∧ c ≥ b then
    if a > b then toU8 b else toU8 a
  else if c ≤ a ∧ c ≤ b then
    if a > b then toU8 a else toU8 b
  else toU8 (b + a - c)

/-- The helper `abcClamp(a, b, c)`, returning `u8`. -/
def abcClamp (a b c : Int) : Int :=
  let sum := a + b - c
  if sum < 0 then 0 else if sum > 255 then 255 else toU8 sum

/-- The helper `paeth(a, b, c)`, returning `u8`. -/
def paeth (a b c : Int) : Int :=
  let pabc := a + b - c
  let pa := |pabc - a|
  let pb := |pabc - b|
  let pc := |pabc - c|
  if pa ≤ pb ∧ pa ≤ pc then toU8 a
  else if pb ≤ pc then toU8 b
  else toU8 c

/-- The helper `abc_paeth(a, b, c)`, returning `u8`. -/
def abc_paeth (a b c : Int) : Int :=
  let pabc := a + b - c
  if a ≤ c ∧ c ≤ b then toU8 pabc
  else
    let pa := |pabc - a|
    let pb := |pabc - b|
    let pc := |pabc - c|
    if pa ≤ pb ∧ pa ≤ pc then toU8 a
    else if pb ≤ pc then toU8 b
    else toU8 c

/-- The helper `predTest(e, c, a)`, returning `u8`. -/
def predTest (e c _a : Int) : Int := toU8 (c + (c - e))

/-- The enumerators that the `switch (sf)` of `filterPixel` dispatches on; the
`default:` label shares the `SF_Z` branch. -/
inductive SpatialFilter
  | SF_Z | SF_TEST | SF_A | SF_B | SF_C | SF_D | SF_AB | SF_AD | SF_BD
  | SF_A_BC | SF_B_AC | SF_ABCD | SF_ABC_CLAMP | SF_PAETH | SF_ABC_PAETH
  | SF_PL | SF_PLO
  deriving DecidableEq, Repr

/-- Byte `q[c]` of the raster memory, `q` a byte offset. -/
def rd (mem : Int → Int) (q c : Int) : Int := mem (q + c)

/-- The three bytes `fp[0..2]` when `fp` points into the raster at offset `q`. -/
def read3 (mem : Int → Int) (q : Int) : Int × Int × Int :=
  (rd mem q 0, rd mem q 1, rd mem q 2)

/-- The three bytes of `fpt` after `fpt[i] = f(i)` for `i = 0, 1, 2`, each
assignment truncating to `u8`. -/
def fpt3 (f : Int → Int) : Int × Int × Int :=
  (toU8 (f 0), toU8 (f 1), toU8 (f 2))

open SpatialFilter in
/-- The function `filterPixel(p, sf, x, y, width)`: the predicted RGB bytes
`fp[0..2]`.  `p` is the byte offset of the current pixel in `mem`. -/
def filterPixel (mem : Int → Int) (p : Int) (sf : SpatialFilter) (x y width : Int) :
    Int × Int × Int :=
  let FPZ : Int × Int × Int := (0, 0, 0)
  let pA := p - 4
  let pB := p - width * 4
  match sf with
  | SF_Z => FPZ
  | SF_TEST =>
      if x > 1 ∧ y > 1 then
        let c := p - 4 - width * 4
        let e := c - 4 - width * 4
        let a := p - 4
        fpt3 fun i => predTest (rd mem e i) (rd mem c i) (rd mem a i)
      else if x > 0 then read3 mem pA
      else if y > 0 then read3 mem pB
      else FPZ
  | SF_A =>
      if x > 0 then read3 mem pA
      else if y > 0 then read3 mem pB
      else FPZ
  | SF_B =>
      if y > 0 then read3 mem pB
      else if x > 0 then read3 mem pA
      else FPZ
  | SF_C =>
      if x > 0 then
        if y > 0 then read3 mem (p - width * 4 - 4) else read3 mem pA
      else if y > 0 then read3 mem pB
      else FPZ
  | SF_D =>
      if y > 0 then
        let fp := p - width * 4
        if x < width - 1 then read3 mem (fp + 4) else read3 mem fp
      else if x > 0 then read3 mem pA
      else FPZ
  | SF_AB =>
      if x > 0 then
        let a := p - 4
        if y > 0 then
          let b := p - width * 4
          fpt3 fun i => (rd mem a i + rd mem b i) / 2
        else read3 mem a
      else if y > 0 then read3 mem pB
      else FPZ
  | SF_AD =>
      if y > 0 then
        if x > 0 then
          let a := p - 4
          let src := if x < width - 1 then p - width * 4 + 4 else p - width * 4
          fpt3 fun i => (rd mem a i + rd mem src i) / 2
        else read3 mem (p - width * 4 + 4)
      else if x > 0 then read3 mem pA
      else FPZ
  | SF_BD =>
      if y > 0 then
        let b := p - width * 4
        let src := if x < width - 1 then b + 4 else b
        fpt3 fun i => (rd mem b i + rd mem src i) / 2
      else if x > 0 then read3 mem pA
      else FPZ
  | SF_A_BC =>
      if x > 0 then
        let a := p - 4
        if y > 0 then
          let b := p - width * 4
          let c := b - 4
          fpt3 fun i => (rd mem a i + (rd mem b i - rd mem c i)) / 2
        else read3 mem a
      else if y > 0 then read3 mem pB
      else FPZ
  | SF_B_AC =>
      if x > 0 then
        let a := p - 4
        if y > 0 then
          let b := p - width * 4
          let c := b - 4
          fpt3 fun i => (rd mem b i + (rd mem a i - rd mem c i)) / 2
        else read3 mem a
      else if y > 0 then read3 mem pB
      else FPZ
  | SF_ABCD =>
      if x > 0 then
        let a := p - 4
        if y > 0 then
          let b := p - width * 4
          let c := b - 4
          let src := if x < width - 1 then b + 4 else b
          fpt3 fun i => (rd mem a i + rd mem b i + rd mem c i + rd mem src i + 1) / 4
        else read3 mem a
      else if y > 0 then
        let b := p - width * 4
        let d := b + 4
        fpt3 fun i => (rd mem b i + rd mem d i) / 2
      else FPZ
  | SF_ABC_CLAMP =>
      if x > 0 then
        let a := p - 4
        if y > 0 then
          let b := p - width * 4
          let c := b - 4
          fpt3 fun i => abcClamp (rd mem a i) (rd mem b i) (rd mem c i)
        else read3 mem a
      else if y > 0 then read3 mem pB
      else FPZ
  | SF_PAETH =>
      if x > 0 then
        let a := p - 4
        if y > 0 then
          let b := p - width * 4
          let c := b - 4
          fpt3 fun i => paeth (rd mem a i) (rd mem b i) (rd mem c i)
        else read3 mem a
      else if y > 0 then read3 mem pB
      else FPZ
  | SF_ABC_PAETH =>
      if x > 0 then
        let a := p - 4
        if y > 0 then
          let b := p - width * 4
          let c := b - 4
          fpt3 fun i => abc_paeth (rd mem a i) (rd mem b i) (rd mem c i)
        else read3 mem a
      else if y > 0 then read3 mem pB
      else FPZ
  | SF_PL =>
      if x > 0 then
        let a := p - 4
        if y > 0 then
          let b := p - width * 4
          let c := b - 4
          fpt3 fun i => predLevel (rd mem a i) (rd mem b i) (rd mem c i)
        else read3 mem a
      else if y > 0 then read3 mem pB
      else FPZ
  | SF_PLO =>
      if x > 0 then
        let a := p - 4
        if y > 0 then
          let b := p - width * 4
          let src := if x < width - 1 then b + 4 else b
          fpt3 fun i => predLevel (rd mem a i) (rd mem src i) (rd mem b i)
        else read3 mem a
      else if y > 0 then read3 mem pB
      else FPZ

/-- Byte offset of pixel `(x, y)` as the callers compute it:
`rgba + (px + py * width) * 4`. -/
def pixelOffset (x y width : Int) : Int := (x + y * width) * 4

/-- Two rasters agree on every byte of every pixel that precedes `(x, y)` in
scan order (`y' < y`, or `y' = y` and `x' < x`). -/
def AgreeBefore (m1 m2 : Int → Int) (x y width : Int) : Prop :=
  ∀ x' y' c : Int, 0 ≤ x' → x' < width → 0 ≤ y' → 0 ≤ c → c < 4 →
    (y' < y ∨ (y' = y ∧ x' < x)) →
    m1 (pixelOffset x' y' width + c) = m2 (pixelOffset x' y' width + c)


/-! ## Chaos metric (`ImageFilterWriter.cpp`) -/

/-- The function `chaosScore(u8 p)`. -/
def chaosScore (p : Int) : Int :=
  if p < 128 then p else 256 - p

/-- The function `score(u8 p)` of `ImageFilterWriter.cpp`. -/
def score (p : Int) : Int :=
  if p < 128 then p else 256 - p

/-- The function `score(u8 p)` of `ImageCMWriter.cpp`. -/
def ImageCMWriter_score (p : Int) : Int :=
  if p < 128 then p else 256 - p

/-- The constant `static const u8 CHAOS_TABLE[512]`, row by row as in the source. -/
def CHAOS_TABLE_data : List Nat := [
  0,1,2,2,3,3,3,3,4,4,4,4,4,4,4,4,5,5,5,5,5,5,5,5,5,5,5,5,5,5,5,5,
  6,6,6,6,6,6,6,6,6,6,6,6,6,6,6,6,6,6,6,6,6,6,6,6,6,6,6,6,6,6,6,6,
  7,7,7,7,7,7,7,7,7,7,7,7,7,7,7,7,7,7,7,7,7,7,7,7,7,7,7,7,7,7,7,7,
  7,7,7,7,7,7,7,7,7,7,7,7,7,7,7,7,7,7,7,7,7,7,7,7,7,7,7,7,7,7,7,7,
  7,7,7,7,7,7,7,7,7,7,7,7,7,7,7,7,7,7,7,7,7,7,7,7,7,7,7,7,7,7,7,7,
  7,7,7,7,7,7,7,7,7,7,7,7,7,7,7,7,7,7,7,7,7,7,7,7,7,7,7,7,7,7,7,7,
  7,7,7,7,7,7,7,7,7,7,7,7,7,7,7,7,7,7,7,7,7,7,7,7,7,7,7,7,7,7,7,7,
  7,7,7,7,7,7,7,7,7,7,7,7,7,7,7,7,7,7,7,7,7,7,7,7,7,7,7,7,7,7,7,7,
  7,7,7,7,7,7,7,7,7,7,7,7,7,7,7,7,7,7,7,7,7,7,7,7,7,7,7,7,7,7,7,7,
  7,7,7,7,7,7,7,7,7,7,7,7,7,7,7,7,7,7,7,7,7,7,7,7,7,7,7,7,7,7,7,7,
  7,7,7,7,7,7,7,7,7,7,7,7,7,7,7,7,7,7,7,7,7,7,7,7,7,7,7,7,7,7,7,7,
  7,7,7,7,7,7,7,7,7,7,7,7,7,7,7,7,7,7,7,7,7,7,7,7,7,7,7,7,7,7,7,7,
  7,7,7,7,7,7,7,7,7,7,7,7,7,7,7,7,7,7,7,7,7,7,7,7,7,7,7,7,7,7,7,7,
  7,7,7,7,7,7,7,7,7,7,7,7,7,7,7,7,7,7,7,7,7,7,7,7,7,7,7,7,7,7,7,7,
  7,7,7,7,7,7,7,7,7,7,7,7,7,7,7,7,7,7,7,7,7,7,7,7,7,7,7,7,7,7,7,7,
  7,7,7,7,7,7,7,7,7,7,7,7,7,7,7,7,7,7,7,7,7,7,7,7,7,7,7,7,7,7,7,7]

/-- The lookup `CHAOS_TABLE[sum]`. -/
def CHAOS_TABLE (sum : Nat) : Nat := CHAOS_TABLE_data.getD sum 0

/-- Modelled from the spec: `BSR32` (bit scan reverse) is declared in
`BitMath.hpp`, which is not part of the sources; the spec's logarithmic
quantiser fixes it as the index of the highest set bit of a 32-bit word,
found here by scanning bits 0 to 31. -/
def BSR32 (x : Nat) : Nat :=
  (List.range 32).foldl (fun best i => if x.testBit i then i else best) 0

/-- The generator `CalculateChaos(int sum)` (compiled only under
`GENERATE_CHAOS_TABLE`). -/
def CalculateChaos (sum : Int) : Int :=
  if sum ≤ 0 then 0
  else
    let chaos : Int := BSR32 (sum - 1).toNat + 1
    if chaos > 7 then 7 else chaos

/-- The spec's quantiser: `0` at `sum = 0`, otherwise `⌈log2(sum)⌉` clipped to 7. -/
def chaosQuantSpec (sum : Nat) : Nat :=
  if sum = 0 then 0 else min 7 (Nat.clog 2 sum)

/-! ## The context-model writer (`ImageCMWriter.cpp`) -/

/-- The enum `WriteErrors` of `ImageWriter.hpp`. -/
inductive WriteErrors
  | WE_OK | WE_BAD_DIMS | WE_FILE
  deriving DecidableEq, Repr

/-- Modelled from the spec: `FILTER_ZONE_SIZE` is declared in a header that is
not part of the sources; the spec fixes the zone as "a fixed 8×8 tile". -/
def FILTER_ZONE_SIZE : Int := 8

/-- Modelled from the spec: `FILTER_ZONE_SIZE_SHIFT` is declared in a header
that is not part of the sources; the spec gives zone coordinates as
`(x>>3, y>>3)`. -/
def FILTER_ZONE_SIZE_SHIFT : Nat := 3

/-- Modelled from the spec: `FILTER_ZONE_SIZE_MASK` is declared in a header that
is not part of the sources; it is the low-bit mask `FILTER_ZONE_SIZE - 1` of
the 8-pixel zone. -/
def FILTER_ZONE_SIZE_MASK : Int := 7

/-- The constant `COLOR_PLANES` (`ImageCMReader::PLANES = 4`: Y, U, V, A). -/
def COLOR_PLANES : Nat := 4

/-- The constant `CHAOS_LEVELS_MAX` (`ImageCMReader.hpp`, and enforced to be 8
in `chaosStats`). -/
def CHAOS_LEVELS_MAX : Int := 8

/-- The members that `ImageCMWriter::init` assigns. -/
structure CMDims where
  _width : Int
  _height : Int
  _w : Int
  _h : Int
  _chaos_size : Int
  deriving DecidableEq, Repr

/-- The method `ImageCMWriter::init(width, height)`: the returned code and,
when it gets that far, the members it has set. -/
def ImageCMWriter_init (width height : Int) : WriteErrors × Option CMDims :=
  if width < FILTER_ZONE_SIZE ∨ height < FILTER_ZONE_SIZE then
    (.WE_BAD_DIMS, none)
  else if Int.land width FILTER_ZONE_SIZE_MASK ≠ 0 ∨ Int.land height FILTER_ZONE_SIZE_MASK ≠ 0 then
    (.WE_BAD_DIMS, none)
  else
    (.WE_OK, some
      { _width := width
        _height := height
        _w := width >>> FILTER_ZONE_SIZE_SHIFT
        _h := height >>> FILTER_ZONE_SIZE_SHIFT
        _chaos_size := (width + 1) * COLOR_PLANES })

/-- The method `ImageFilterWriter::init(width, height)` of
`ImageFilterWriter.cpp`: the returned `bool` and the zone grid `(_w, _h)`. -/
def ImageFilterWriter_init (width height : Int) : Bool × Option (Int × Int) :=
  if width < FILTER_ZONE_SIZE ∨ height < FILTER_ZONE_SIZE then
    (false, none)
  else if Int.tmod width FILTER_ZONE_SIZE ≠ 0 ∨ Int.tmod height FILTER_ZONE_SIZE ≠ 0 then
    (false, none)
  else
    (true, some (Int.tdiv width FILTER_ZONE_SIZE, Int.tdiv height FILTER_ZONE_SIZE))

/-- The writer object as `maskFilters`, `chaosStats` and `writeChaos` see it:
its members after `init` and `initFromRGBA`, its collaborators, and the
constants and tables of headers that are not part of the sources (these are
parameters). -/
structure CMEnv where
  /-- Member `_width`. -/
  width : Nat
  /-- Member `_height`. -/
  height : Nat
  /-- Member `_w`, the number of zone columns. -/
  w : Nat
  /-- The raster `_rgba`, a byte per offset. -/
  rgba : Nat → Int
  /-- Collaborator `_lz->visited(x, y)`. -/
  visited : Nat → Nat → Bool
  /-- Collaborator `_mask->hasRGB(x, y)`.  `ImageMaskReader::hasRGB` returns bit
  `x` of row `y` of the mask bitmap `_mask`, and where that mask is set the
  decoder emits the transparent pixel (`ImageCMReader.hpp`): `true` is a pixel
  the mask covers. -/
  hasRGB : Nat → Nat → Bool
  /-- Collaborator `_lz->findExtent(x, y, w, h)`: `some (w, h)` when it
  returns true. -/
  findExtent : Nat → Nat → Option (Int × Int)
  /-- The table `SPATIAL_FILTERS[sf](p, x, y, width)` of `Filters.hpp`, giving
  `pred[0..2]`; `p` is a byte offset into the raster. -/
  SPATIAL_FILTERS : Int → (Nat → Int) → Nat → Nat → Nat → Nat → Int × Int × Int
  /-- The table `RGB2YUV_FILTERS[cf](temp, yuv)` of `Filters.hpp`, giving
  `yuv[0..2]`. -/
  RGB2YUV_FILTERS : Int → Int × Int × Int → Int × Int × Int
  /-- The sentinel `UNUSED_FILTER`. -/
  UNUSED_FILTER : Int
  /-- The sentinel `TODO_FILTER`. -/
  TODO_FILTER : Int
  /-- The threshold `CHAOS_THRESH`. -/
  CHAOS_THRESH : Int
  /-- The table `CHAOS_TABLE_8`. -/
  CHAOS_TABLE_8 : Int → Int
  /-- The table `CHAOS_TABLE_1`. -/
  CHAOS_TABLE_1 : Int → Int

/-- Modelled from the spec: the accessor `getFilter(x, y)` is declared in
`ImageCMWriter.hpp`, which is not part of the sources; the spec gives the
zone of a pixel as `(x>>3, y>>3)`, and `_matrix` has `_w * _h` entries, one
row of `_w` zones after the other. -/
def getFilter (e : CMEnv) (matrix : Nat → Int) (x y : Nat) : Int :=
  matrix ((x >>> FILTER_ZONE_SIZE_SHIFT) + (y >>> FILTER_ZONE_SIZE_SHIFT) * e.w)

/-- Modelled from the spec: the accessor `setFilter(x, y, filter)` is declared
in `ImageCMWriter.hpp`, which is not part of the sources; it stores into the
entry that `getFilter(x, y)` reads. -/
def setFilter (e : CMEnv) (matrix : Nat → Int) (x y : Nat) (filter : Int) : Nat → Int :=
  fun i =>
    if i = (x >>> FILTER_ZONE_SIZE_SHIFT) + (y >>> FILTER_ZONE_SIZE_SHIFT) * e.w then filter
    else matrix i

/-- The loop `for (i = 0; i < n; i += FILTER_ZONE_SIZE)`: the values `i` takes. -/
def zoneStarts (n : Nat) : List Nat :=
  (List.range ((n + 7) / 8)).map fun k => k * 8

/-- The inner search of `maskFilters`: `on` after the two nested loops over
`ii`, `jj` in `[0, FILTER_ZONE_SIZE)`, which clear `on` and leave both loops at
the first pixel with `!hasRGB(x + ii, y + jj)`. -/
def maskFiltersScan (e : CMEnv) (x y : Nat) : Bool :=
  (List.range 8).all fun ii => (List.range 8).all fun jj => e.hasRGB (x + ii) (y + jj)

/-- The value of `on` for the zone at `(x, y)` in `maskFilters`. -/
def maskFiltersOn (e : CMEnv) (x y : Nat) : Bool :=
  match e.findExtent x y with
  | none => maskFiltersScan e x y
  | some (w, h) =>
      if w < FILTER_ZONE_SIZE ∨ h < FILTER_ZONE_SIZE then maskFiltersScan e x y
      else true

/-- The method `ImageCMWriter::maskFilters()`: the filter matrix it leaves. -/
def maskFilters (e : CMEnv) (matrix : Nat → Int) : Nat → Int :=
  (zoneStarts e.height).foldl
    (fun m y =>
      (zoneStarts e.width).foldl
        (fun m x =>
          if maskFiltersOn e x y then setFilter e m x y e.UNUSED_FILTER
          else setFilter e m x y e.TODO_FILTER)
        m)
    matrix

/-- One call `encoder[chaos].add(sym)` / `encoder[chaos].write(sym, writer)` on
the encoder array of plane `plane` (0 = Y, 1 = U, 2 = V, 3 = A). -/
structure PlaneSym where
  plane : Nat
  chaos : Int
  sym : Int
  deriving DecidableEq, Repr

/-- What `writeChaos` sends to the writer, in order. -/
inductive Emit
  /-- The call `writer.writeBits(code, len)`. -/
  | bits (code : Int) (len : Nat)
  /-- The call `encoder[level].writeTables(writer)` of plane `plane`. -/
  | tables (plane : Nat) (level : Nat)
  /-- The call `_sf_encoder.writeSymbol(sf, writer)`. -/
  | sf (sym : Int)
  /-- The call `_cf_encoder.writeSymbol(cf, writer)`. -/
  | cf (sym : Int)
  /-- The call `encoder[chaos].write(sym, writer)` of a residual plane. -/
  | residual (s : PlaneSym)
  deriving DecidableEq, Repr

/-- The loop state of the two scanline passes: the row buffer `_chaos`, the
cursor `last` (an index into `_chaos`) and the cursor `p` (a byte offset into
`_rgba`). -/
structure ScanState where
  chaos : Nat → Int
  last : Nat
  p : Nat

/-- Assignment `buf[i] = v`. -/
def setByte (buf : Nat → Int) (i : Nat) (v : Int) : Nat → Int :=
  fun j => if j = i then v else buf j

/-- Loop `for` over the values `xs`, threading the state and appending what
each iteration emits. -/
def loopOver {σ ε : Type} (body : Nat → σ → σ × List ε) : List Nat → σ → σ × List ε
  | [], s => (s, [])
  | x :: xs, s =>
      let r := body x s
      let r' := loopOver body xs r.1
      (r'.1, r.2 ++ r'.2)

/-- Which of the two chaos tables `chaosStats` selected. -/
inductive ChaosTableId
  | CHAOS_TABLE_8 | CHAOS_TABLE_1
  deriving DecidableEq, Repr

/-- The table behind `_chaos_table`. -/
def chaosTableOf (e : CMEnv) : ChaosTableId → Int → Int
  | .CHAOS_TABLE_8 => e.CHAOS_TABLE_8
  | .CHAOS_TABLE_1 => e.CHAOS_TABLE_1

/-- The first loop nest of `chaosStats`: `chaos_count`, the number of pixels
with `!_lz->visited(x, y) && !_mask->hasRGB(x, y)`. -/
def chaosCount (e : CMEnv) : Int :=
  (List.range e.height).foldl
    (fun count y =>
      (List.range e.width).foldl
        (fun count x => if !e.visited x y && !e.hasRGB x y then count + 1 else count)
        count)
    0

/-- The members `_chaos_levels` and `_chaos_table` as `chaosStats` sets them. -/
def chaosLevels (e : CMEnv) : Int × ChaosTableId :=
  if chaosCount e ≥ e.CHAOS_THRESH then (CHAOS_LEVELS_MAX, .CHAOS_TABLE_8)
  else (1, .CHAOS_TABLE_1)

/-- Body of the pixel loop of `chaosStats` at `(x, y)`: the new state and the
`add` calls made. -/
def chaosStatsPixel (e : CMEnv) (matrix : Nat → Int) (CHAOS_TABLE : Int → Int)
    (y x : Nat) (s : ScanState) : ScanState × List PlaneSym :=
  let last := s.last
  let p := s.p
  let r : (Nat → Int) × List PlaneSym :=
    if !e.visited x y && !e.hasRGB x y then
      let filter := getFilter e matrix x y
      let cf := toU8 filter
      let sf := toU8 (filter >>> 8)
      let pred := e.SPATIAL_FILTERS sf e.rgba p x y e.width
      let temp : Int × Int × Int :=
        (toU8 (e.rgba p - pred.1), toU8 (e.rgba (p + 1) - pred.2.1),
         toU8 (e.rgba (p + 2) - pred.2.2))
      let yuv := e.RGB2YUV_FILTERS cf temp
      let yuv3 : Int :=
        if x > 0 then toU8 (e.rgba (p - 1) - e.rgba (p + 3))
        else toU8 (255 - e.rgba (p + 3))
      let chaos0 := toU8 (CHAOS_TABLE (chaosScore (s.chaos (last + 0 - 4)) + chaosScore (s.chaos (last + 0))))
      let chaos1 := toU8 (CHAOS_TABLE (chaosScore (s.chaos (last + 1 - 4)) + chaosScore (s.chaos (last + 1))))
      let chaos2 := toU8 (CHAOS_TABLE (chaosScore (s.chaos (last + 2 - 4)) + chaosScore (s.chaos (last + 2))))
      let chaos3 := toU8 (CHAOS_TABLE (chaosScore (s.chaos (last + 3 - 4)) + chaosScore (s.chaos (last + 3))))
      let c1 := setByte s.chaos (last + 0) yuv.1
      let c2 := setByte c1 (last + 1) yuv.2.1
      let c3 := setByte c2 (last + 2) yuv.2.2
      let c4 := setByte c3 (last + 3) yuv3
      (c4, [⟨0, chaos0, yuv.1⟩, ⟨1, chaos1, yuv.2.1⟩, ⟨2, chaos2, yuv.2.2⟩, ⟨3, chaos3, yuv3⟩])
    else
      let c1 := setByte s.chaos (last + 0) 0
      let c2 := setByte c1 (last + 1) 0
      let c3 := setByte c2 (last + 2) 0
      let c4 := setByte c3 (last + 3) 0
      (c4, [])
  ({ chaos := r.1, last := last + COLOR_PLANES, p := p + 4 }, r.2)

/-- What `chaosStats` leaves behind. -/
structure ChaosStats where
  /-- Member `_chaos_levels`. -/
  chaos_levels : Int
  /-- Member `_chaos_table`. -/
  chaos_table : ChaosTableId
  /-- The `add` calls on the plane encoders, in order. -/
  adds : List PlaneSym
  deriving DecidableEq, Repr

/-- The method `ImageCMWriter::chaosStats()` (up to the `finalize` calls). -/
def chaosStats (e : CMEnv) (matrix : Nat → Int) : ChaosStats :=
  let lv := chaosLevels e
  let CHAOS_TABLE := chaosTableOf e lv.2
  let lastStart := COLOR_PLANES
  let s0 : ScanState := { chaos := fun _ => 0, last := lastStart, p := 0 }
  let r := loopOver
    (fun y s =>
      loopOver (fun x s => chaosStatsPixel e matrix CHAOS_TABLE y x s) (List.range e.width)
        { s with last := lastStart })
    (List.range e.height) s0
  { chaos_levels := lv.1, chaos_table := lv.2, adds := r.2 }

/-- Body of the pixel loop of `writeChaos` at `(x, y)`: the new state and what
is written. -/
def writeChaosPixel (e : CMEnv) (matrix : Nat → Int) (CHAOS_TABLE : Int → Int)
    (y x : Nat) (s : ScanState) : ScanState × List Emit :=
  let last := s.last
  let p := s.p
  let filterSyms : List Emit :=
    if x &&& 7 = 0 ∧ y &&& 7 = 0 then
      let filter := getFilter e matrix x y
      if filter ≠ e.UNUSED_FILTER then
        let sf := toU8 (filter >>> 8)
        let cf := toU8 filter
        [Emit.sf sf, Emit.cf cf]
      else []
    else []
  let r : (Nat → Int) × List Emit :=
    if !e.visited x y && !e.hasRGB x y then
      let filter := getFilter e matrix x y
      let cf := toU8 filter
      let sf := toU8 (filter >>> 8)
      let pred := e.SPATIAL_FILTERS sf e.rgba p x y e.width
      let temp : Int × Int × Int :=
        (toU8 (e.rgba p - pred.1), toU8 (e.rgba (p + 1) - pred.2.1),
         toU8 (e.rgba (p + 2) - pred.2.2))
      let YUV := e.RGB2YUV_FILTERS cf temp
      let YUVA3 : Int :=
        if x > 0 then toU8 (e.rgba (p - 1) - e.rgba (p + 3))
        else toU8 (255 - e.rgba (p + 3))
      let chaos0 := toU8 (CHAOS_TABLE (chaosScore (s.chaos (last + 0 - 4)) + chaosScore (s.chaos (last + 0))))
      let chaos1 := toU8 (CHAOS_TABLE (chaosScore (s.chaos (last + 1 - 4)) + chaosScore (s.chaos (last + 1))))
      let chaos2 := toU8 (CHAOS_TABLE (chaosScore (s.chaos (last + 2 - 4)) + chaosScore (s.chaos (last + 2))))
      let chaos3 := toU8 (CHAOS_TABLE (chaosScore (s.chaos (last + 3 - 4)) + chaosScore (s.chaos (last + 3))))
      let c1 := setByte s.chaos (last + 0) YUV.1
      let c2 := setByte c1 (last + 1) YUV.2.1
      let c3 := setByte c2 (last + 2) YUV.2.2
      let c4 := setByte c3 (last + 3) YUVA3
      (c4, [Emit.residual ⟨0, chaos0, YUV.1⟩, Emit.residual ⟨1, chaos1, YUV.2.1⟩,
            Emit.residual ⟨2, chaos2, YUV.2.2⟩, Emit.residual ⟨3, chaos3, YUVA3⟩])
    else
      let c1 := setByte s.chaos (last + 0) 0
      let c2 := setByte c1 (last + 1) 0
      let c3 := setByte c2 (last + 2) 0
      let c4 := setByte c3 (last + 3) 0
      (c4, [])
  ({ chaos := r.1, last := last + COLOR_PLANES, p := p + 4 }, filterSyms ++ r.2)

/-- The table-writing loop at the head of `writeChaos`:
`for jj < _chaos_levels` the four `writeTables` calls. -/
def writeChaosTables (chaos_levels : Int) : List Emit :=
  (List.range chaos_levels.toNat).flatMap fun jj =>
    [Emit.tables 0 jj, Emit.tables 1 jj, Emit.tables 2 jj, Emit.tables 3 jj]

/-- The scanline loops of `writeChaos`: everything written after the tables. -/
def writeChaosPixels (e : CMEnv) (matrix : Nat → Int) (chaos_table : ChaosTableId) :
    List Emit :=
  let CHAOS_TABLE := chaosTableOf e chaos_table
  let lastStart := COLOR_PLANES
  let s0 : ScanState := { chaos := fun _ => 0, last := lastStart, p := 0 }
  (loopOver
    (fun y s =>
      loopOver (fun x s => writeChaosPixel e matrix CHAOS_TABLE y x s) (List.range e.width)
        { s with last := lastStart })
    (List.range e.height) s0).2

/-- The method `ImageCMWriter::writeChaos(writer)`: the sequence of writer
calls, given the members `_chaos_levels` and `_chaos_table`. -/
def writeChaos (e : CMEnv) (matrix : Nat → Int) (chaos_levels : Int)
    (chaos_table : ChaosTableId) : List Emit :=
  Emit.bits (chaos_levels - 1) 3 :: writeChaosTables chaos_levels
    ++ writeChaosPixels e matrix chaos_table

/-! ## Specification-side vocabulary for the scanline passes -/

/-- The pixels of the raster in scan order, as `(x, y)`. -/
def scanOrder (e : CMEnv) : List (Nat × Nat) :=
  (List.range e.height).flatMap fun y => (List.range e.width).map fun x => (x, y)

/-- The guard of both scanline passes: `!_lz->visited(x, y) && !_mask->hasRGB(x, y)`. -/
def isEncoded (e : CMEnv) (xy : Nat × Nat) : Bool :=
  !e.visited xy.1 xy.2 && !e.hasRGB xy.1 xy.2

/-- The pixels that pass the guard, in scan order. -/
def encodedPixels (e : CMEnv) : List (Nat × Nat) :=
  (scanOrder e).filter (isEncoded e)

/-- Alpha byte `A(x, y)` of the raster: byte 3 of pixel `(x, y)`. -/
def alphaAt (e : CMEnv) (x y : Nat) : Int :=
  e.rgba ((x + y * e.width) * 4 + 3)

/-- The alpha residual as the spec states it: `A(x,y) − A(x−1,y)` modulo 256 on
the interior and `255 − A(0,y)` at the left edge. -/
def alphaResidualSpec (e : CMEnv) (xy : Nat × Nat) : Int :=
  if xy.1 > 0 then toU8 (alphaAt e xy.1 xy.2 - alphaAt e (xy.1 - 1) xy.2)
  else toU8 (255 - alphaAt e 0 xy.2)

/-- The alpha residual with the operands of the interior case exchanged:
`A(x−1,y) − A(x,y)` modulo 256 on the interior and `255 − A(0,y)` at the left
edge. -/
def alphaResidualLeftMinusCur (e : CMEnv) (xy : Nat × Nat) : Int :=
  if xy.1 > 0 then toU8 (alphaAt e (xy.1 - 1) xy.2 - alphaAt e xy.1 xy.2)
  else toU8 (255 - alphaAt e 0 xy.2)

/-- The symbol of an alpha-plane call, nothing for the other planes. -/
def alphaSymOf (s : PlaneSym) : Option Int :=
  if s.plane = 3 then some s.sym else none

/-- The residual call behind a writer event, if it is one. -/
def residualOf : Emit → Option PlaneSym
  | .residual s => some s
  | _ => none

/-- The two rasters hold the same three colour bytes at offset `q`. -/
def Same3 (m1 m2 : Int → Int) (q : Int) : Prop :=
  rd m1 q 0 = rd m2 q 0 ∧ rd m1 q 1 = rd m2 q 1 ∧ rd m1 q 2 = rd m2 q 2

/-- Raster that is zero everywhere. -/
def rasterZero : Int → Int := fun _ => 0

/-- Raster that is zero except for byte 4, the red byte of pixel `(0,1)` when
the width is 1. -/
def rasterOneAt4 : Int → Int := fun i => if i = 4 then 1 else 0

/-- An 8×8 writer whose pixels are all opaque white except that pixel `(1,0)`
has alpha 254; nothing is masked or LZ-visited; the spatial predictor is zero
and the colour transform the identity. -/
def envAlpha : CMEnv where
  width := 8
  height := 8
  w := 1
  rgba := fun i => if i = 7 then 254 else 255
  visited := fun _ _ => false
  hasRGB := fun _ _ => false
  findExtent := fun _ _ => none
  SPATIAL_FILTERS := fun _ _ _ _ _ _ => (0, 0, 0)
  RGB2YUV_FILTERS := fun _ t => t
  UNUSED_FILTER := 0xffff
  TODO_FILTER := 0
  CHAOS_THRESH := 4000
  CHAOS_TABLE_8 := fun i => CHAOS_TABLE i.toNat
  CHAOS_TABLE_1 := fun _ => 0

/-- An 8×8 writer in which `hasRGB` is true at every pixel and nothing is
LZ-visited. -/
def envAllHasRGB : CMEnv :=
  { envAlpha with hasRGB := fun _ _ => true }

/-- Every pixel of the 8×8 zone with top-left `(x, y)` is mask-covered: its
mask bit, which `hasRGB` returns, is set. -/
def zoneMaskCovered (e : CMEnv) (x y : Nat) : Prop :=
  ∀ ii jj : Nat, ii < 8 → jj < 8 → e.hasRGB (x + ii) (y + jj) = true

/-- The collaborator `findExtent` reports an LZ match at `(x, y)` that is at
least 8 wide and 8 high. -/
def lzCoversZone (e : CMEnv) (x y : Nat) : Prop :=
  ∃ w h : Int, e.findExtent x y = some (w, h) ∧ 8 ≤ w ∧ 8 ≤ h

/-- A 16×8 writer (two zones): the left zone is wholly mask-covered, the right
zone has one pixel, `(8,0)`, that is not; no LZ match. -/
def envTwoZones : CMEnv :=
  { envAlpha with
    width := 16
    w := 2
    hasRGB := fun x y => !(x == 8 && y == 0) }

/-! ## `applyFilters` and the stored residuals -/

/-- One call on the two filter histograms of `applyFilters`. -/
inductive HistAdd
  /-- The call `sf_hist.add(sf)`. -/
  | sf_hist (sym : Int)
  /-- The call `cf_hist.add(cf)`. -/
  | cf_hist (sym : Int)
  deriving DecidableEq, Repr

/-- The zone loops of `ImageCMWriter::applyFilters()`: the `add` calls on
`sf_hist` and `cf_hist`, in order (the Huffman initialisation that follows is
not part of the sources). -/
def applyFilters (e : CMEnv) (matrix : Nat → Int) : List HistAdd :=
  (loopOver
    (fun y (s : Unit) =>
      loopOver
        (fun x (s : Unit) =>
          let filter := getFilter e matrix x y
          if filter ≠ e.UNUSED_FILTER then
            let cf := toU8 filter
            let sf := toU8 (filter >>> 8)
            (s, [HistAdd.sf_hist sf, HistAdd.cf_hist cf])
          else (s, []))
        (zoneStarts e.width) s)
    (zoneStarts e.height) ()).2

/-- The symbol of a call on `sf_hist`. -/
def sfHistOf : HistAdd → Option Int
  | .sf_hist v => some v
  | _ => none

/-- The symbol of a call on `cf_hist`. -/
def cfHistOf : HistAdd → Option Int
  | .cf_hist v => some v
  | _ => none

/-- The symbol of a `_sf_encoder.writeSymbol` call. -/
def sfSymOf : Emit → Option Int
  | .sf v => some v
  | _ => none

/-- The symbol of a `_cf_encoder.writeSymbol` call. -/
def cfSymOf : Emit → Option Int
  | .cf v => some v
  | _ => none

/-- A writer event is one of the two filter symbols. -/
def isFilterSym : Emit → Bool
  | .sf _ => true
  | .cf _ => true
  | _ => false

/-- The four entries `last[0..3]` of the row buffer at cursor `last`. -/
def stored4 (chaos : Nat → Int) (last : Nat) : List Int :=
  [chaos (last + 0), chaos (last + 1), chaos (last + 2), chaos (last + 3)]

/-! ## `EntropyEncoder` (`ImageFilterWriter.cpp`, built with `USE_AZ`) -/

/-- Increment `++x` of a `u32`. -/
def u32inc (x : Nat) : Nat := (x + 1) % 2 ^ 32

/-- The statement `hist[i]++` on a `u32` histogram. -/
def histInc (hist : Nat → Nat) (i : Nat) : Nat → Nat :=
  fun j => if j = i then u32inc (hist j) else hist j

/-- The members of `EntropyEncoder` that `reset`, `push` and `endSymbols` touch:
the histograms `histBZ[BZ_SYMS]`, `histAZ[AZ_SYMS]` and the counter `zeroRun`. -/
structure EntropyEncoder where
  histBZ : Nat → Nat
  histAZ : Nat → Nat
  zeroRun : Nat

namespace EntropyEncoder

/-- The constant `BZ_SYMS = 256 + FILTER_RLE_SYMS`; `FILTER_RLE_SYMS` is declared
in a header that is not part of the sources and is a parameter. -/
def BZ_SYMS (FILTER_RLE_SYMS : Nat) : Nat := 256 + FILTER_RLE_SYMS

/-- The constant `AZ_SYMS`. -/
def AZ_SYMS : Nat := 256

/-- The method `reset()`. -/
def reset : EntropyEncoder :=
  { histBZ := fun _ => 0, histAZ := fun _ => 0, zeroRun := 0 }

/-- The method `endSymbols()`. -/
def endSymbols (FILTER_RLE_SYMS : Nat) (s : EntropyEncoder) : EntropyEncoder :=
  if s.zeroRun > 0 then
    if s.zeroRun < FILTER_RLE_SYMS then
      { s with histBZ := histInc s.histBZ (255 + s.zeroRun), zeroRun := 0 }
    else
      { s with histBZ := histInc s.histBZ (BZ_SYMS FILTER_RLE_SYMS - 1), zeroRun := 0 }
  else s

/-- The method `push(u8 symbol)`. -/
def push (FILTER_RLE_SYMS : Nat) (symbol : Nat) (s : EntropyEncoder) : EntropyEncoder :=
  if symbol = 0 then
    { s with zeroRun := u32inc s.zeroRun }
  else if s.zeroRun > 0 then
    if s.zeroRun < FILTER_RLE_SYMS then
      { histBZ := histInc s.histBZ (255 + s.zeroRun), zeroRun := 0,
        histAZ := histInc s.histAZ symbol }
    else
      { histBZ := histInc s.histBZ (BZ_SYMS FILTER_RLE_SYMS - 1), zeroRun := 0,
        histAZ := histInc s.histAZ symbol }
  else
    { s with histBZ := histInc s.histBZ symbol }

/-- A sequence of `push` calls, first byte first. -/
def pushAll (FILTER_RLE_SYMS : Nat) (l : List Nat) (s : EntropyEncoder) : EntropyEncoder :=
  l.foldl (fun s b => push FILTER_RLE_SYMS b s) s

/-- Total of all histogram counts: the entries of `histBZ[0..BZ_SYMS)` plus the
entries of `histAZ[0..AZ_SYMS)`. -/
def total (FILTER_RLE_SYMS : Nat) (s : EntropyEncoder) : Nat :=
  ((List.range (BZ_SYMS FILTER_RLE_SYMS)).map s.histBZ).sum
    + ((List.range AZ_SYMS).map s.histAZ).sum

end EntropyEncoder

/-- Number of non-zero bytes of a sequence. -/
def nonZeroCount (l : List Nat) : Nat :=
  l.countP fun b => b != 0

/-- Number of maximal runs of zeros of a sequence: the positions that hold a
zero followed by a non-zero byte or by the end. -/
def zeroRuns : List Nat → Nat
  | [] => 0
  | [a] => if a = 0 then 1 else 0
  | a :: b :: t => (if a = 0 ∧ b ≠ 0 then 1 else 0) + zeroRuns (b :: t)

/-- The BZ symbol that stands for a zero run of length `n`. -/
def runSymbol (FILTER_RLE_SYMS n : Nat) : Nat :=
  if n < FILTER_RLE_SYMS then 255 + n else 256 + FILTER_RLE_SYMS - 1

/-! ## Small-palette reader (`decoder/SmallPaletteReader.cpp`) -/

/-- Modelled from the spec: the success code `GCIF_RE_OK` is declared in a
header that is not part of the sources; it is the "no error" code, the value
zero that callers test with `if ((err = ...))`. -/
def GCIF_RE_OK : Int := 0

/-- Modelled from the spec: `ImageReader` is not part of the sources; the
spec's reader exposes `readBits(len)`, which returns the next `len` bits (a
value below `2^len`), and `readWord`.  `R` is the reader's state. -/
structure ReaderOps (R : Type) where
  readBits : Nat → R → Nat × R
  readWord : R → Nat × R
  readBits_lt : ∀ len r, (readBits len r).1 < 2 ^ len

/-- The members of `SmallPaletteReader` that the functions below read or
write.  `_rgba` is the output raster seen as `u32` pixels, `_image` the packed
raster of `_pack_x * _pack_y` bytes. -/
structure SmallPaletteReader where
  _size_x : Nat
  _size_y : Nat
  _palette_size : Nat
  _palette : Nat → Nat
  _pack_x : Nat
  _pack_y : Nat
  _rgba : Nat → Nat
  _mask_palette : Nat
  _pack_palette_size : Nat
  _pack_palette : Nat → Nat
  _image : Nat → Nat

/-- Store `buf[i] = v` into a raster or table. -/
def store (buf : Nat → Nat) (i v : Nat) : Nat → Nat :=
  fun j => if j = i then v else buf j

/-- The palette loop of `readSmallPalette`:
`for (ii < _palette_size) _palette[ii] = getLE(reader.readWord())`. -/
def readPaletteWords {R : Type} (ops : ReaderOps R) (n : Nat) (palette : Nat → Nat) (r : R) :
    (Nat → Nat) × R :=
  (List.range n).foldl
    (fun (s : (Nat → Nat) × R) ii =>
      let w := ops.readWord s.2
      (store s.1 ii w.1, w.2))
    (palette, r)

/-- The single-colour fill of `readSmallPalette`: `*rgba++ = color` for every
`y < _size_y`, `x < _size_x`; the state is the raster and the cursor `rgba`. -/
def fillSingleColor (size_x size_y color : Nat) (rgba : Nat → Nat) : (Nat → Nat) × Nat :=
  (List.range size_y).foldl
    (fun (s : (Nat → Nat) × Nat) _ =>
      (List.range size_x).foldl
        (fun (s : (Nat → Nat) × Nat) _ => (store s.1 s.2 color, s.2 + 1))
        s)
    (rgba, 0)

/-- The method `SmallPaletteReader::readSmallPalette(reader)`: the returned
code, the object afterwards and the reader afterwards. -/
def readSmallPalette {R : Type} (ops : ReaderOps R) (st : SmallPaletteReader) (reader : R) :
    Int × SmallPaletteReader × R :=
  let b := ops.readBits 4 reader
  let _palette_size := b.1 + 1
  let pal := readPaletteWords ops _palette_size st._palette b.2
  let st1 := { st with _palette_size := _palette_size, _palette := pal.1 }
  let st2 : SmallPaletteReader :=
    if _palette_size > 4 then
      { st1 with _pack_x := (st._size_x + 1) >>> 1, _pack_y := st._size_y }
    else if _palette_size > 2 then
      { st1 with _pack_x := (st._size_x + 1) >>> 1, _pack_y := (st._size_y + 1) >>> 1 }
    else if _palette_size > 1 then
      { st1 with _pack_x := (st._size_x + 3) >>> 2, _pack_y := (st._size_y + 1) >>> 1 }
    else
      let color := pal.1 0
      { st1 with _rgba := (fillSingleColor st._size_x st._size_y color st._rgba).1 }
  (GCIF_RE_OK, st2, pal.2)

/-- The quotient `⌈a / b⌉`. -/
def ceilDiv (a b : Nat) : Nat := (a + b - 1) / b

/-- What `unpackPixels` does, in order.  `CAT_DEBUG_ENFORCE` comes from
`Enforcer.hpp`, which is not part of the sources: it is a debug-build
assertion, and the model records the value of its condition and goes on, as
the release build does. -/
inductive UnpackEv
  /-- The load `*image++` of the packed byte at index `i`. -/
  | read (i : Nat)
  /-- The assertion `CAT_DEBUG_ENFORCE(cond)` with the value of `cond`. -/
  | enforce (ok : Bool)
  /-- The store `rgba[idx] = val` of an output pixel. -/
  | write (idx : Nat) (val : Nat)
  deriving DecidableEq, Repr

/-- The cursors of `unpackPixels`: `image` (index into `_image`), `rgba` and
`pixel` (pixel indices into `_rgba`), and the function-scope `x` of the
1-bit branch. -/
structure UnpackState where
  image : Nat
  rgba : Nat
  pixel : Nat
  x : Nat

/-- The idiom `u8 p = *image++; CAT_DEBUG_ENFORCE(p < _pack_palette_size);
p = _pack_palette[p];` that opens every packed byte: the byte `p` it leaves,
and its events. -/
def nextPacked (st : SmallPaletteReader) (s : UnpackState) : Nat × List UnpackEv :=
  let p := st._image s.image % 256
  (st._pack_palette p % 256,
    [UnpackEv.read s.image, UnpackEv.enforce (decide (p < st._pack_palette_size))])

/-- Body of the inner loop of the 3-4 bits/pixel branch. -/
def unpack34Pair (st : SmallPaletteReader) (_x : Nat) (s : UnpackState) :
    UnpackState × List UnpackEv :=
  let np := nextPacked st s
  let p := np.1
  ({ s with image := s.image + 1, pixel := s.pixel + 2 },
    np.2 ++ [UnpackEv.write (s.pixel + 0) (st._palette (p >>> 4)),
             UnpackEv.write (s.pixel + 1) (st._palette (p &&& 15))])

/-- Body of the scanline loop of the 3-4 bits/pixel branch. -/
def unpack34Row (st : SmallPaletteReader) (_y : Nat) (s : UnpackState) :
    UnpackState × List UnpackEv :=
  let s0 := { s with pixel := s.rgba }
  let r := loopOver (unpack34Pair st) (List.range (st._size_x >>> 1)) s0
  let t : UnpackState × List UnpackEv :=
    if st._size_x &&& 1 ≠ 0 then
      let np := nextPacked st r.1
      ({ r.1 with image := r.1.image + 1 },
        np.2 ++ [UnpackEv.write (r.1.pixel + 0) (st._palette np.1)])
    else (r.1, [])
  ({ t.1 with rgba := t.1.rgba + st._size_x }, r.2 ++ t.2)

/-- Body of the inner loop over a pair of scanlines, 2 bits/pixel. -/
def unpack2Quad (st : SmallPaletteReader) (_x : Nat) (s : UnpackState) :
    UnpackState × List UnpackEv :=
  let np := nextPacked st s
  let p := np.1
  ({ s with image := s.image + 1, pixel := s.pixel + 2 },
    np.2 ++ [UnpackEv.write (s.pixel + 0) (st._palette (p &&& 3)),
             UnpackEv.write (s.pixel + 1) (st._palette ((p >>> 2) &&& 3)),
             UnpackEv.write (s.pixel + st._size_x) (st._palette ((p >>> 4) &&& 3)),
             UnpackEv.write (s.pixel + st._size_x + 1) (st._palette (p >>> 6))])

/-- Body of the loop over pairs of scanlines, 2 bits/pixel. -/
def unpack2Row (st : SmallPaletteReader) (_y : Nat) (s : UnpackState) :
    UnpackState × List UnpackEv :=
  let s0 := { s with pixel := s.rgba }
  let r := loopOver (unpack2Quad st) (List.range (st._size_x >>> 1)) s0
  let t : UnpackState × List UnpackEv :=
    if st._size_x &&& 1 ≠ 0 then
      let np := nextPacked st r.1
      let p := np.1
      ({ r.1 with image := r.1.image + 1 },
        np.2 ++ [UnpackEv.write (r.1.pixel + 0) (st._palette (p &&& 3)),
                 UnpackEv.write (r.1.pixel + st._size_x) (st._palette ((p >>> 4) &&& 3))])
    else (r.1, [])
  ({ t.1 with rgba := t.1.rgba + st._size_x }, r.2 ++ t.2)

/-- Body of the inner loop of the last, unpaired scanline, 2 bits/pixel. -/
def unpack2LastPair (st : SmallPaletteReader) (_x : Nat) (s : UnpackState) :
    UnpackState × List UnpackEv :=
  let np := nextPacked st s
  let p := np.1
  ({ s with image := s.image + 1, pixel := s.pixel + 2 },
    np.2 ++ [UnpackEv.write (s.pixel + 0) (st._palette (p &&& 3)),
             UnpackEv.write (s.pixel + 1) (st._palette ((p >>> 2) &&& 3))])

/-- The block `if (_size_y & 1)` of the 2 bits/pixel branch. -/
def unpack2Last (st : SmallPaletteReader) (s : UnpackState) : UnpackState × List UnpackEv :=
  let s0 := { s with pixel := s.rgba }
  let r := loopOver (unpack2LastPair st) (List.range (st._size_x >>> 1)) s0
  let t : UnpackState × List UnpackEv :=
    if st._size_x &&& 1 ≠ 0 then
      let np := nextPacked st r.1
      ({ r.1 with image := r.1.image + 1 },
        np.2 ++ [UnpackEv.write (r.1.pixel + 0) (st._palette (np.1 &&& 3))])
    else (r.1, [])
  (t.1, r.2 ++ t.2)

/-- The statement `p <<= 1` on a `u8`. -/
def shl1 (p : Nat) : Nat := (p * 2) % 256

/-- Body of the inner loop over a pair of scanlines, 1 bit/pixel: the byte is
unpacked into eight pixels, most significant bit first; the loop variable is
the function-scope `x`. -/
def unpack1Oct (st : SmallPaletteReader) (x : Nat) (s : UnpackState) :
    UnpackState × List UnpackEv :=
  let np := nextPacked st s
  let p0 := np.1
  let p1 := shl1 p0
  let p2 := shl1 p1
  let p3 := shl1 p2
  let p4 := shl1 p3
  let p5 := shl1 p4
  let p6 := shl1 p5
  let p7 := shl1 p6
  let next := s.pixel + st._size_x
  ({ s with image := s.image + 1, pixel := s.pixel + 4, x := x + 1 },
    np.2 ++ [UnpackEv.write (s.pixel + 0) (st._palette (p0 >>> 7)),
             UnpackEv.write (s.pixel + 1) (st._palette (p1 >>> 7)),
             UnpackEv.write (s.pixel + 2) (st._palette (p2 >>> 7)),
             UnpackEv.write (s.pixel + 3) (st._palette (p3 >>> 7)),
             UnpackEv.write (next + 0) (st._palette (p4 >>> 7)),
             UnpackEv.write (next + 1) (st._palette (p5 >>> 7)),
             UnpackEv.write (next + 2) (st._palette (p6 >>> 7)),
             UnpackEv.write (next + 3) (st._palette (p7 >>> 7))])

/-- The loops over `jj < 2`, `ii < 4` of the block `if (_size_x & 3)` inside the
scanline-pair loop, 1 bit/pixel: the state is `(p, out)`; `x` is the
function-scope `x` and `y` the index of the scanline pair. -/
def unpack1Tail (st : SmallPaletteReader) (x y : Nat) (p out : Nat) : List UnpackEv :=
  (loopOver
    (fun jj (s : Nat × Nat) =>
      let r := loopOver
        (fun ii (s : Nat × Nat) =>
          let px := x + ii
          let py := y + jj
          let ev : List UnpackEv :=
            if px < st._size_x ∧ py < st._size_y then
              [UnpackEv.write (s.2 + ii) (st._palette (s.1 >>> 7))]
            else []
          ((shl1 s.1, s.2), ev))
        (List.range 4) s
      ((r.1.1, r.1.2 + st._size_x), r.2))
    (List.range 2) (p, out)).2

/-- Body of the loop over pairs of scanlines, 1 bit/pixel. -/
def unpack1Row (st : SmallPaletteReader) (y : Nat) (s : UnpackState) :
    UnpackState × List UnpackEv :=
  let s0 := { s with pixel := s.rgba, x := 0 }
  let r := loopOver (unpack1Oct st) (List.range (st._size_x >>> 2)) s0
  let t : UnpackState × List UnpackEv :=
    if st._size_x &&& 3 ≠ 0 then
      let np := nextPacked st r.1
      ({ r.1 with image := r.1.image + 1 }, np.2 ++ unpack1Tail st r.1.x y np.1 r.1.pixel)
    else (r.1, [])
  ({ t.1 with rgba := t.1.rgba + st._size_x }, r.2 ++ t.2)

/-- Body of the inner loop of the last, unpaired scanline, 1 bit/pixel; its
loop variable is a local `x` that hides the function-scope one. -/
def unpack1LastQuad (st : SmallPaletteReader) (_x : Nat) (s : UnpackState) :
    UnpackState × List UnpackEv :=
  let np := nextPacked st s
  let p0 := np.1
  let p1 := shl1 p0
  let p2 := shl1 p1
  let p3 := shl1 p2
  ({ s with image := s.image + 1, pixel := s.pixel + 4 },
    np.2 ++ [UnpackEv.write (s.pixel + 0) (st._palette (p0 >>> 7)),
             UnpackEv.write (s.pixel + 1) (st._palette (p1 >>> 7)),
             UnpackEv.write (s.pixel + 2) (st._palette (p2 >>> 7)),
             UnpackEv.write (s.pixel + 3) (st._palette (p3 >>> 7))])

/-- The block `if (_size_y & 1)` of the 1 bit/pixel branch; in its tail `x` is
again the function-scope variable. -/
def unpack1Last (st : SmallPaletteReader) (s : UnpackState) : UnpackState × List UnpackEv :=
  let s0 := { s with pixel := s.rgba }
  let r := loopOver (unpack1LastQuad st) (List.range (st._size_x >>> 2)) s0
  let t : UnpackState × List UnpackEv :=
    if st._size_x &&& 3 ≠ 0 then
      let np := nextPacked st r.1
      let evs := (loopOver
        (fun ii (p : Nat) =>
          let px := r.1.x + ii
          let ev : List UnpackEv :=
            if px < st._size_x then [UnpackEv.write (r.1.pixel + ii) (st._palette (p >>> 7))]
            else []
          (shl1 p, ev))
        (List.range 4) np.1).2
      ({ r.1 with image := r.1.image + 1 }, np.2 ++ evs)
    else (r.1, [])
  (t.1, r.2 ++ t.2)

/-- The method `SmallPaletteReader::unpackPixels()`: the returned code and the
events.  `xIndet` is the indeterminate value that the function-scope `x` of the
1-bit branch holds until its first loop assigns it. -/
def unpackPixels (st : SmallPaletteReader) (xIndet : Nat) : Int × List UnpackEv :=
  let s0 : UnpackState := { image := 0, rgba := 0, pixel := 0, x := xIndet }
  let head := [UnpackEv.enforce (decide (st._pack_palette_size > 1))]
  let body : List UnpackEv :=
    if st._pack_palette_size > 4 then
      [UnpackEv.enforce (decide (st._pack_y = st._size_y)),
       UnpackEv.enforce (decide (st._pack_x = (st._size_x + 1) / 2))]
        ++ (loopOver (unpack34Row st) (List.range st._pack_y) s0).2
    else if st._pack_palette_size > 2 then
      let r := loopOver (unpack2Row st) (List.range (st._size_y >>> 1)) s0
      let t := if st._size_y &&& 1 ≠ 0 then (unpack2Last st r.1).2 else []
      [UnpackEv.enforce (decide (st._pack_y = (st._size_y + 1) / 2)),
       UnpackEv.enforce (decide (st._pack_x = (st._size_x + 1) / 2))]
        ++ r.2 ++ t
    else
      let r := loopOver (unpack1Row st) (List.range (st._size_y >>> 1)) s0
      let t := if st._size_y &&& 1 ≠ 0 then (unpack1Last st r.1).2 else []
      [UnpackEv.enforce (decide (st._pack_y = (st._size_y + 1) / 2)),
       UnpackEv.enforce (decide (st._pack_x = (st._size_x + 3) / 4))]
        ++ r.2 ++ t
  (GCIF_RE_OK, head ++ body)

/-- The store behind a `write` event. -/
def writeOf : UnpackEv → Option (Nat × Nat)
  | .write i v => some (i, v)
  | _ => none

/-- The index behind a `read` event. -/
def readOf : UnpackEv → Option Nat
  | .read i => some i
  | _ => none

/-- The raster after a sequence of stores, first store first. -/
def applyWrites (rgba : Nat → Nat) (ws : List (Nat × Nat)) : Nat → Nat :=
  ws.foldl (fun m w => store m w.1 w.2) rgba

/-- The output raster `_rgba` after `unpackPixels`. -/
def unpackedRaster (st : SmallPaletteReader) (xIndet : Nat) : Nat → Nat :=
  applyWrites st._rgba ((unpackPixels st xIndet).2.filterMap writeOf)

/-- What `readPixels` does to the monochrome decoder and to the packed raster,
in order. -/
inductive ReadPixEv
  /-- The call `_mono_decoder.readRowHeader(y, reader)`. -/
  | rowHeader (y : Nat)
  /-- The call `_mono_decoder.zero(x)`. -/
  | zero (x : Nat)
  /-- The call `_mono_decoder.read(x, y, p, reader)`. -/
  | read (x y : Nat)
  /-- The store `*p = MASK_PAL` into the packed raster at index `p`. -/
  | setCell (p : Nat) (v : Nat)
  /-- The assertion `CAT_DEBUG_ENFORCE(cond)` with the value of `cond`. -/
  | enforce (ok : Bool)
  deriving DecidableEq, Repr

/-- Modelled from the spec: the LZ reader, the mask reader and the monochrome
decoder are not part of the sources.  `L` is the LZ reader's state;
`getTriggerX`, `getTriggerY`, `triggerY` and `triggerX` are its methods
(`triggerX lz p` is `_lz->triggerX(p, 0)` at raster index `p`: the skip count
and the reader afterwards); `nextScanline y k` is word `k` of the mask row
that `_mask->nextScanline()` returns for row `y`; `monoRead x y` is the byte
that `_mono_decoder.read(x, y, p, reader)` returns at cell `(x, y)`. -/
structure PixelSources (L : Type) where
  getTriggerX : L → Nat
  getTriggerY : L → Nat
  triggerY : L → L
  triggerX : L → Nat → Int × L
  nextScanline : Nat → Nat → Nat
  monoRead : Nat → Nat → Nat

/-- The locals of `readPixels`. -/
structure ReadPixState (L : Type) where
  p : Nat
  trigger_x_lz : Nat
  lz : L
  lz_skip : Int
  mask_next : Nat
  mask_left : Int
  mask : Nat

/-- Body of the loop over `x` of `readPixels`, at row `y`. -/
def readPixelsCell {L : Type} (src : PixelSources L) (st : SmallPaletteReader) (y x : Nat)
    (s : ReadPixState L) : ReadPixState L × List ReadPixEv :=
  let MASK_PAL := st._mask_palette % 256
  -- if (x == trigger_x_lz) { lz_skip = _lz->triggerX(p, 0); trigger_x_lz = _lz->getTriggerX(); }
  let s1 : ReadPixState L :=
    if x = s.trigger_x_lz then
      let t := src.triggerX s.lz s.p
      { s with lz_skip := t.1, lz := t.2, trigger_x_lz := src.getTriggerX t.2 % 65536 }
    else s
  -- if (mask_left-- <= 0) { mask = *mask_next++; mask_left = 31; }
  let s2 : ReadPixState L :=
    if s1.mask_left ≤ 0 then
      { s1 with mask := src.nextScanline y s1.mask_next % 2 ^ 32,
                mask_next := s1.mask_next + 1, mask_left := 31 }
    else { s1 with mask_left := s1.mask_left - 1 }
  let r : ReadPixState L × List ReadPixEv :=
    if s2.lz_skip > 0 then
      ({ s2 with lz_skip := s2.lz_skip - 1 }, [ReadPixEv.zero x])
    else if 2 ^ 31 ≤ s2.mask then
      (s2, [ReadPixEv.setCell s2.p MASK_PAL, ReadPixEv.zero x])
    else
      let index := src.monoRead x y % 256
      (s2, [ReadPixEv.read x y, ReadPixEv.enforce (decide (index < st._pack_palette_size))])
  -- ++p; mask <<= 1;
  ({ r.1 with p := r.1.p + 1, mask := (r.1.mask * 2) % 2 ^ 32 }, r.2)

/-- Body of the loop over `y` of `readPixels`.  The local `mask` is declared
without a value in every row and loaded before its first use (`mask_left`
starts at 0), so the value kept here from the row before is never read. -/
def readPixelsRow {L : Type} (src : PixelSources L) (st : SmallPaletteReader) (y : Nat)
    (s : ReadPixState L) : ReadPixState L × List ReadPixEv :=
  let s1 : ReadPixState L :=
    if y = src.getTriggerY s.lz then
      let lz := src.triggerY s.lz
      { s with lz := lz, trigger_x_lz := src.getTriggerX lz % 65536 }
    else s
  let s2 : ReadPixState L := { s1 with lz_skip := 0, mask_next := 0, mask_left := 0 }
  let r := loopOver (readPixelsCell src st y) (List.range st._pack_x) s2
  (r.1, ReadPixEv.rowHeader y :: r.2)

/-- The method `SmallPaletteReader::readPixels(reader)`: the returned code
and the events. -/
def readPixels {L : Type} (src : PixelSources L) (st : SmallPaletteReader) (lz : L) :
    Int × List ReadPixEv :=
  let s0 : ReadPixState L :=
    { p := 0, trigger_x_lz := src.getTriggerX lz % 65536, lz := lz, lz_skip := 0,
      mask_next := 0, mask_left := 0, mask := 0 }
  (GCIF_RE_OK, (loopOver (readPixelsRow src st) (List.range st._pack_y) s0).2)

/-! ### The unpacking the packing comment describes -/

/-- The packed byte `b = _pack_palette[image[i]]` behind packed cell `i`. -/
def packedByte (st : SmallPaletteReader) (i : Nat) : Nat :=
  st._pack_palette (st._image i % 256) % 256

/-- Value of pixel `(X, Y)` when a byte packs two pixels of one scanline, high
nibble first (palette sizes 5..16). -/
def pixel4bit (st : SmallPaletteReader) (X Y : Nat) : Nat :=
  let b := packedByte st (X / 2 + Y * ceilDiv st._size_x 2)
  if X % 2 = 0 then st._palette (b / 16) else st._palette (b % 16)

/-- Value of pixel `(X, Y)` when a byte packs two pixels of scanline `2j` and
two of scanline `2j+1` (palette sizes 3..4). -/
def pixel2bit (st : SmallPaletteReader) (X Y : Nat) : Nat :=
  let b := packedByte st (X / 2 + (Y / 2) * ceilDiv st._size_x 2)
  st._palette ((b >>> (2 * (X % 2) + 4 * (Y % 2))) &&& 3)

/-- Value of pixel `(X, Y)` when a byte packs four pixels of scanline `2j` and
four of scanline `2j+1`, most significant bit first (palette size 2). -/
def pixel1bit (st : SmallPaletteReader) (X Y : Nat) : Nat :=
  let b := packedByte st (X / 4 + (Y / 2) * ceilDiv st._size_x 4)
  st._palette ((b >>> (7 - (X % 4 + 4 * (Y % 2)))) &&& 1)

/-! ### Closed form of the 3-4 bits/pixel branch -/

/-- Events of the packed byte at index `i` unpacked into the two pixels at
`pix` and `pix + 1`. -/
def pairEvents34 (st : SmallPaletteReader) (i pix : Nat) : List UnpackEv :=
  [UnpackEv.read i, UnpackEv.enforce (decide (st._image i % 256 < st._pack_palette_size)),
   UnpackEv.write pix (st._palette (packedByte st i >>> 4)),
   UnpackEv.write (pix + 1) (st._palette (packedByte st i &&& 15))]

/-- Events of the byte at index `i` that closes a scanline of odd width,
unpacked into the single pixel at `pix`. -/
def tailEvents34 (st : SmallPaletteReader) (i pix : Nat) : List UnpackEv :=
  if st._size_x % 2 ≠ 0 then
    [UnpackEv.read i, UnpackEv.enforce (decide (st._image i % 256 < st._pack_palette_size)),
     UnpackEv.write pix (st._palette (packedByte st i))]
  else []

/-- Events of scanline `y` whose packed bytes start at `i0` and whose pixels
start at `pix0`. -/
def rowEvents34 (st : SmallPaletteReader) (i0 pix0 : Nat) : List UnpackEv :=
  (List.range (st._size_x / 2)).flatMap (fun x => pairEvents34 st (i0 + x) (pix0 + 2 * x))
    ++ tailEvents34 st (i0 + st._size_x / 2) (pix0 + 2 * (st._size_x / 2))

/-! ### Assertions and the other events -/

/-- Whether an event of `unpackPixels` is an assertion. -/
def UnpackEv.isEnforce : UnpackEv → Bool
  | .enforce _ => true
  | _ => false

/-- The loads and stores of `unpackPixels`: its events without the assertions. -/
def unpackEffects (evs : List UnpackEv) : List UnpackEv :=
  evs.filter (fun ev => !ev.isEnforce)

/-- Whether an event of `readPixels` is an assertion. -/
def ReadPixEv.isEnforce : ReadPixEv → Bool
  | .enforce _ => true
  | _ => false

/-- The decoder calls and stores of `readPixels`: its events without the
assertions. -/
def readEffects (evs : List ReadPixEv) : List ReadPixEv :=
  evs.filter (fun ev => !ev.isEnforce)

/-- The reader `st` with another value in `_pack_palette_size`. -/
def withPackPaletteSize (st : SmallPaletteReader) (n : Nat) : SmallPaletteReader :=
  { st with _pack_palette_size := n }

/-! ### Concrete readers -/

/-- A reader in the 3-4 bits/pixel branch: 3×2 pixels, sixteen colours, four
packed bytes out of a pack palette of five. -/
def packedExample4 : SmallPaletteReader :=
  { _size_x := 3, _size_y := 2, _palette_size := 16, _palette := fun i => 100 + i,
    _pack_x := 2, _pack_y := 2, _rgba := fun _ => 0, _mask_palette := 0,
    _pack_palette_size := 5, _pack_palette := fun i => [0x12, 0x03, 0x45, 0x06, 0x21].getD i 0,
    _image := fun i => [0, 1, 2, 3].getD i 0 }

/-- The reader `packedExample4` with a palette of five colours and a packed
raster whose first byte, 7, is not below `_pack_palette_size = 5`; entry 7 of
the 256-entry array `_pack_palette` holds `0xF0`. -/
def corruptExample4 : SmallPaletteReader :=
  { packedExample4 with
    _palette_size := 5
    _pack_palette := fun i => [0x12, 0x03, 0x45, 0x06, 0x21, 0, 0, 0xF0].getD i 0
    _image := fun i => [7, 1, 2, 3].getD i 0 }

/-- Sources without LZ triggers (the trigger positions lie outside the
raster) and without mask bits, whose monochrome decoder returns the byte 200
at every cell. -/
def corruptSources : PixelSources Unit :=
  { getTriggerX := fun _ => 65535, getTriggerY := fun _ => 65535, triggerY := fun _ => (),
    triggerX := fun _ _ => (0, ()), nextScanline := fun _ _ => 0, monoRead := fun _ _ => 200 }

/-- A reader in the 2 bits/pixel branch: 2×6 pixels in four colours, with the
scanlines `0 1`, `2 3`, `3 2`, `1 0`, `1 1`, `2 2` (palette indices) packed
into the three bytes `0xE4`, `0x1B`, `0xA5` of a 1×3 packed raster. -/
def packedExample2 : SmallPaletteReader :=
  { _size_x := 2, _size_y := 6, _palette_size := 4, _palette := fun i => 100 + i,
    _pack_x := 1, _pack_y := 3, _rgba := fun _ => 0, _mask_palette := 0,
    _pack_palette_size := 3, _pack_palette := fun i => [0xE4, 0x1B, 0xA5].getD i 0,
    _image := fun i => [0, 1, 2].getD i 0 }

/-- A reader in the 1 bit/pixel branch: 4×4 pixels in two colours, with the
scanlines `1 0 1 0`, `0 1 0 1`, `1 1 0 0`, `0 0 1 1` packed into the two bytes
`0xA5`, `0xC3` of a 1×2 packed raster. -/
def packedExample1 : SmallPaletteReader :=
  { _size_x := 4, _size_y := 4, _palette_size := 2, _palette := fun i => 100 + i,
    _pack_x := 1, _pack_y := 2, _rgba := fun _ => 0, _mask_palette := 0,
    _pack_palette_size := 2, _pack_palette := fun i => [0xA5, 0xC3].getD i 0,
    _image := fun i => [0, 1].getD i 0 }

/-- A reader in the 1 bit/pixel branch whose width is not a multiple of four:
5×2 pixels in two colours, with the scanlines `1 1 1 1 1`, `1 1 1 1 0` packed
into the two bytes `0xFF`, `0x80` of a 2×1 packed raster. -/
def packedExample1Wide : SmallPaletteReader :=
  { _size_x := 5, _size_y := 2, _palette_size := 2, _palette := fun i => 100 + i,
    _pack_x := 2, _pack_y := 1, _rgba := fun _ => 0, _mask_palette := 0,
    _pack_palette_size := 2, _pack_palette := fun i => [0xFF, 0x80].getD i 0,
    _image := fun i => [0, 1].getD i 0 }

/-- A reader over a list of values: `readBits(len)` and `readWord()` take the
next value of the list, reduced to `len` bits and to 32 bits. -/
def listReader : ReaderOps (List Nat) :=
  { readBits := fun len r => (r.headD 0 % 2 ^ len, r.tail)
    readWord := fun r => (r.headD 0 % 2 ^ 32, r.tail)
    readBits_lt := fun len _ => Nat.mod_lt _ (Nat.two_pow_pos len) }

/-- A reader object for a 2×10 image before `readSmallPalette`: the palette
entries hold 0 and the output raster holds 7 at every pixel. -/
def readerBefore2Many : SmallPaletteReader :=
  { _size_x := 2, _size_y := 10, _palette_size := 0, _palette := fun _ => 0,
    _pack_x := 0, _pack_y := 0, _rgba := fun _ => 7, _mask_palette := 0,
    _pack_palette_size := 0, _pack_palette := fun _ => 0, _image := fun _ => 0 }

/-- The reader of a 2×10 image in four colours, with the scanlines `0 1`,
`2 3`, `3 2`, `1 0`, `1 1`, `2 2`, `0 0`, `0 0`, `3 3`, `3 3` (palette
indices): by the packing comment each 2×2 block is one byte, which gives the
five distinct bytes `0xE4`, `0x1B`, `0xA5`, `0x00`, `0xFF` of a 1×5 packed
raster and a pack palette of five entries.  The palette entries 4..15 were not
read from the stream and hold 0; the output raster holds 7 at every pixel. -/
def packedExample2Many : SmallPaletteReader :=
  { _size_x := 2, _size_y := 10, _palette_size := 4,
    _palette := fun i => [100, 101, 102, 103].getD i 0,
    _pack_x := 1, _pack_y := 5, _rgba := fun _ => 7, _mask_palette := 0,
    _pack_palette_size := 5,
    _pack_palette := fun i => [0xE4, 0x1B, 0xA5, 0x00, 0xFF].getD i 0,
    _image := fun i => [0, 1, 2, 3, 4].getD i 0 }

/-! ### The predictors `SF_A_BC` and `SF_B_AC` as their comments state them -/

/-- The predictor that the comment on `SF_A_BC` names, `A + (B - C)/2`, as a
byte; `/` is the division of C `int`s. -/
def predA_BC (a b c : Int) : Int := toU8 (a + Int.tdiv (b - c) 2)

/-- The predictor that the comment on `SF_B_AC` names, `B + (A - C)/2`, as a
byte. -/
def predB_AC (a b c : Int) : Int := toU8 (b + Int.tdiv (a - c) 2)

/-- An 8-pixel-wide raster in which the pixel above-left of `(1,1)` is
`C = (50,50,50)`, the pixel above it `B = (52,52,52)` and the pixel to its left
`A = (100,100,100)`; every other byte is 0. -/
def rasterABC : Int → Int := fun i =>
  if 0 ≤ i ∧ i < 4 then 50 else if 4 ≤ i ∧ i < 8 then 52
  else if 32 ≤ i ∧ i < 36 then 100 else 0

/-! ### The cells of `readPixels` -/

/-- The mask bit of cell `x` in row `y`: bit `31 − (x mod 32)` of word
`x div 32` of the row that `nextScanline` returns, the most significant bit
standing for the first cell. -/
def maskBitAt {L : Type} (src : PixelSources L) (y x : Nat) : Bool :=
  decide ((src.nextScanline y (x / 32) % 2 ^ 32) / 2 ^ (31 - x % 32) % 2 = 1)

/-- The value of `lz_skip` that the cell body tests at column `x`: the count
returned by `triggerX` when the column is the LZ trigger, the running count
otherwise. -/
def lzSkipAt {L : Type} (src : PixelSources L) (x : Nat) (s : ReadPixState L) : Int :=
  if x = s.trigger_x_lz then (src.triggerX s.lz s.p).1 else s.lz_skip

/-- The value of `mask` that the cell body tests in row `y`: the next word of
the row when `mask_left` has run out, the running word otherwise. -/
def maskWordAt {L : Type} (src : PixelSources L) (y : Nat) (s : ReadPixState L) : Nat :=
  if s.mask_left ≤ 0 then src.nextScanline y s.mask_next % 2 ^ 32 else s.mask

/-- The events of cell `(x, y)` of the packed raster, `skip` telling whether the
cell is inside an active LZ skip: `zero(x)` alone; or, when the mask bit is
set, the store of `_mask_palette` into the cell and `zero(x)`; or the one
`read(x, y, ...)` with its assertion. -/
def cellEvents {L : Type} (src : PixelSources L) (st : SmallPaletteReader) (skip : Bool)
    (y x : Nat) : List ReadPixEv :=
  if skip then [ReadPixEv.zero x]
  else if maskBitAt src y x then
    [ReadPixEv.setCell (x + y * st._pack_x) (st._mask_palette % 256), ReadPixEv.zero x]
  else
    [ReadPixEv.read x y,
     ReadPixEv.enforce (decide (src.monoRead x y % 256 < st._pack_palette_size))]

/-- The mask bookkeeping of a row at column `x`: `mask_left` counts down from
31 within each word, `mask_next` is the number of words taken, and `mask` is
the current word shifted left by the cells already passed. -/
def MaskInv {L : Type} (src : PixelSources L) (y x : Nat) (t : ReadPixState L) : Prop :=
  t.mask_left = (if x % 32 = 0 then (0 : Int) else 32 - ((x % 32 : Nat) : Int)) ∧
  (x % 32 ≠ 0 → t.mask = (src.nextScanline y (x / 32) % 2 ^ 32 * 2 ^ (x % 32)) % 2 ^ 32) ∧
  t.mask_next = (x + 31) / 32

/-! ## `EntropyEstimator` (`encoder/EntropyEstimator.cpp`) -/

/-- The members of `EntropyEstimator`: the `u32` total `_hist_total` and the
`u32` histogram `_hist[NUM_SYMS]`.  `NUM_SYMS` is declared in
`EntropyEstimator.hpp`, which is not part of the sources, and is a parameter of
the functions below. -/
structure EntropyEstimator where
  _hist_total : Nat
  _hist : Nat → Nat

namespace EntropyEstimator

/-- The first loop of `entropy(symbols, count)`: `u8 hist[NUM_SYMS] = {0};
for (ii < count) hist[ii]++;`.  The index is the loop counter `ii`; a store at
`ii ≥ NUM_SYMS` lies outside the array and has no defined result (`none`). -/
def localHist (NUM_SYMS count : Nat) : Option (Nat → Nat) :=
  (List.range count).foldl
    (fun (h : Option (Nat → Nat)) ii =>
      h.bind fun hist =>
        if ii < NUM_SYMS then some (store hist ii ((hist ii + 1) % 256)) else none)
    (some fun _ => 0)

/-- The value `u32 fpLikelihood = ((u64)inst << 24) / total`, for `total ≠ 0`. -/
def fpLikelihood (inst total : Nat) : Nat :=
  ((inst * 2 ^ 24) % 2 ^ 64 / total) % 2 ^ 32

/-- The bit-twiddling logarithm of the last branch: `r = (x > 0xFF) << 3;
x >>= r; shift = (x > 0xF) << 2; x >>= shift; r |= shift;
shift = (x > 0x3) << 1; x >>= shift; r |= shift; r |= (x >> 1);`. -/
def log2Small (x0 : Nat) : Nat :=
  let r0 := (if x0 > 0xFF then 1 else 0) <<< 3
  let x1 := x0 >>> r0
  let shift1 := (if x1 > 0xF then 1 else 0) <<< 2
  let x2 := x1 >>> shift1
  let r1 := r0 ||| shift1
  let shift2 := (if x2 > 0x3 then 1 else 0) <<< 1
  let x3 := x2 >>> shift2
  let r2 := r1 ||| shift2
  r2 ||| (x3 >>> 1)

/-- The code length that `entropy` stores in `codelens[symbol]` for a
fixed-point likelihood `fpLikelihood`, a `u8`. -/
def codelenOf (fpLikelihood : Nat) : Nat :=
  if fpLikelihood ≤ 0 then 24
  else if fpLikelihood ≥ 0x800000 then 1
  else if fpLikelihood ≥ 0x8000 then
    let msb : Int := BSR32 fpLikelihood
    (toU8 (23 - msb)).toNat
  else
    let r := log2Small fpLikelihood
    (toU8 (24 - (r : Int))).toNat

/-- The cost of a symbol with `inst` instances out of `total`. -/
def symbolCost (inst total : Nat) : Nat :=
  codelenOf (fpLikelihood inst total)

/-- Body of the second loop of `entropy`: the state is `codelens` and `bits`.
A division by `total = 0` and an index `symbol ≥ NUM_SYMS` have no defined
result (`none`). -/
def entropyStep (NUM_SYMS : Nat) (est : EntropyEstimator) (hist : Nat → Nat) (total : Nat)
    (s : (Nat → Nat) × Nat) (sym : Nat) : Option ((Nat → Nat) × Nat) :=
  let symbol := sym % 256
  if symbol ≠ 0 then
    if symbol < NUM_SYMS then
      if s.1 symbol = 0 then
        let inst := (est._hist symbol + hist symbol) % 2 ^ 32
        if total = 0 then none
        else
          let codelens := store s.1 symbol (codelenOf (fpLikelihood inst total))
          some (codelens, (s.2 + codelens symbol) % 2 ^ 32)
      else some (s.1, (s.2 + s.1 symbol) % 2 ^ 32)
    else none
  else some s

/-- The method `EntropyEstimator::entropy(symbols, count)` with
`count = symbols.length`: the `u32` it returns. -/
def entropy (NUM_SYMS : Nat) (est : EntropyEstimator) (symbols : List Nat) : Option Nat :=
  (localHist NUM_SYMS symbols.length).bind fun hist =>
    let total := (est._hist_total + symbols.length) % 2 ^ 32
    (symbols.foldl
      (fun (s : Option ((Nat → Nat) × Nat)) sym =>
        s.bind fun s => entropyStep NUM_SYMS est hist total s sym)
      (some (fun _ => 0, 0))).map Prod.snd

/-- The method `EntropyEstimator::init()`. -/
def init : EntropyEstimator := { _hist_total := 0, _hist := fun _ => 0 }

end EntropyEstimator

/-! ## `collectFreqs` and `EntropyEncoder::normalizeFreqs` (`ImageFilterWriter.cpp`) -/

/-- The constant `MAX_FREQ = 0xffff` of both functions. -/
def MAX_FREQ : Nat := 0xffff

/-- The local `count` at the end of the body of the scaling loop:
`count = hist[ii]; if (count) { count >>= 1; if (!count) count = 1; }`. -/
def scaledCount (count : Nat) : Nat :=
  if count ≠ 0 then (if count >>> 1 = 0 then 1 else count >>> 1) else count

/-- One round of the inner loop `for (ii < num_syms)` of the scaling loop.  The
scaled value lives in the local `count` and is never stored: `hist` comes out
as it went in. -/
def scalePass (num_syms : Nat) (hist : Nat → Nat) : Nat → Nat :=
  (List.range num_syms).foldl (fun h ii => (fun (_ : Nat) => h) (scaledCount (h ii))) hist

/-- The loop `while (max_freq > MAX_FREQ) { ...; max_freq >>= 1; }`, run for
at most `fuel` rounds: the histogram it leaves, `none` when the rounds run
out. -/
def scaleLoop : Nat → Nat → (Nat → Nat) → Nat → Option (Nat → Nat)
  | 0, _, hist, max_freq => if max_freq > MAX_FREQ then none else some hist
  | fuel + 1, num_syms, hist, max_freq =>
      if max_freq > MAX_FREQ then scaleLoop fuel num_syms (scalePass num_syms hist) (max_freq >>> 1)
      else some hist

/-- Body of the first loop of `collectFreqs`: `count = ++hist[lz[ii]];
if (max_freq < count) max_freq = count;`; the state is `(hist, max_freq)`. -/
def collectStep (s : (Nat → Nat) × Nat) (b : Nat) : (Nat → Nat) × Nat :=
  let count := s.1 (b % 256) + 1
  (store s.1 (b % 256) count, if s.2 < count then count else s.2)

/-- The first loop of `collectFreqs`, from `hist = {0}` and `max_freq = 0`. -/
def collectHist (lz : List Nat) : (Nat → Nat) × Nat :=
  lz.foldl collectStep (fun _ => 0, 0)

/-- The function `collectFreqs(lz, freqs)`: the array `freqs`, each entry
`static_cast<u16>(hist[ii])`.  The scaling loop halves an `int` and needs at
most 32 rounds. -/
def collectFreqs (lz : List Nat) : Option (Nat → Nat) :=
  let s := collectHist lz
  (scaleLoop 32 256 s.1 s.2).map fun hist => fun ii => hist ii % 2 ^ 16

/-- The method `EntropyEncoder::normalizeFreqs(max_freq, num_syms, hist,
freqs)`: the array `freqs`. -/
def normalizeFreqs (max_freq num_syms : Nat) (hist : Nat → Nat) : Option (Nat → Nat) :=
  (scaleLoop 32 num_syms hist max_freq).map fun hist => fun ii => hist ii % 2 ^ 16

/-! ## `FilterScorer` (`ImageFilterWriter.cpp`) -/

/-- The struct `FilterScorer::Score`. -/
structure Score where
  /-- Member `int score`. -/
  score : Int
  /-- Member `int index`, which only ever holds a list position. -/
  index : Nat
  deriving DecidableEq, Repr

/-- The members of `FilterScorer`: the array `_list` of `_count` entries. -/
structure FilterScorer where
  _list : Nat → Score
  _count : Nat

namespace FilterScorer

/-- The method `reset()`: `_list[ii].score = 0; _list[ii].index = ii` for
`ii < _count`. -/
def reset (fs : FilterScorer) : FilterScorer :=
  let list := (List.range fs._count).foldl
    (fun (l : Nat → Score) ii => fun j => if j = ii then { score := 0, index := ii } else l j)
    fs._list
  { fs with _list := list }

/-- The method `add(index, error)`: `_list[index].score += error`. -/
def add (fs : FilterScorer) (index : Nat) (error : Int) : FilterScorer :=
  let list : Nat → Score := fun j =>
    if j = index then { score := (fs._list j).score + error, index := (fs._list j).index }
    else fs._list j
  { fs with _list := list }

/-- The method `getLowest()`: the position in `_list` of the entry it returns a
pointer to; `none` for an empty list, whose entry 0 it would read. -/
def getLowest (fs : FilterScorer) : Option Nat :=
  if fs._count = 0 then none
  else
    some ((List.range' 1 (fs._count - 1)).foldl
      (fun (s : Nat × Int) ii =>
        let score := (fs._list ii).score
        if s.2 > score then (ii, score) else s)
      (0, (fs._list 0).score)).1

/-- The method `swap(a, b)`. -/
def swap (list : Nat → Score) (a b : Nat) : Nat → Score :=
  let temp := list a
  let list1 : Nat → Score := fun j => if j = a then list b else list j
  fun j => if j = b then temp else list1 j

/-- Whether the `int` index `i` lies inside `_list`. -/
def inList (fs : FilterScorer) (i : Int) : Bool := decide (0 ≤ i ∧ i < fs._count)

/-- The method `partitionTop(left, right, pivotIndex)`: the list afterwards and
the returned `storeIndex`; `none` when it reads or writes outside `_list`. -/
def partitionTop (fs : FilterScorer) (left right pivotIndex : Int) :
    Option ((Nat → Score) × Int) :=
  if inList fs pivotIndex ∧ inList fs right ∧ (left < right → inList fs left) then
    let pivotValue := (fs._list pivotIndex.toNat).score
    let list0 := swap fs._list pivotIndex.toNat right.toNat
    let r := (List.range (right - left).toNat).foldl
      (fun (s : (Nat → Score) × Int) d =>
        let ii := left + d
        if (s.1 ii.toNat).score < pivotValue then (swap s.1 s.2.toNat ii.toNat, s.2 + 1)
        else s)
      (list0, left)
    if inList fs r.2 then some (swap r.1 right.toNat r.2.toNat, r.2) else none
  else none

/-- The selection loop `for (;;)` of `getTop`, run for at most `fuel` rounds. -/
def getTopLoop (count : Nat) (pivotIndex : Int) :
    Nat → (Nat → Score) → Int → Int → Int → Option (Nat → Score)
  | 0, _, _, _, _ => none
  | fuel + 1, list, k, left, right =>
      match partitionTop { _list := list, _count := count } left right pivotIndex with
      | none => none
      | some (list1, pivotNewIndex) =>
          let pivotDist := pivotNewIndex - left + 1
          if pivotDist = k then some list1
          else if k < pivotDist then getTopLoop count pivotIndex fuel list1 k left (pivotNewIndex - 1)
          else getTopLoop count pivotIndex fuel list1 (k - pivotDist) (pivotNewIndex + 1) right

/-- The method `getTop(k)`: the list it returns a pointer to.  Every round
either returns or shrinks the range `left .. right`, so `_count + 1` rounds
are enough. -/
def getTop (fs : FilterScorer) (k : Int) : Option (Nat → Score) :=
  let k := if k > fs._count then (fs._count : Int) else k
  getTopLoop fs._count k (fs._count + 1) fs._list k 0 (fs._count - 1)

/-- A scorer holding the given scores, entry `ii` with `index = ii`, as
`init`, `reset` and `add` leave it. -/
def ofScores (scores : List Int) : FilterScorer :=
  { _list := fun ii => { score := scores.getD ii 0, index := ii }, _count := scores.length }

end FilterScorer

/-! ## `ImageCMWriter::decideFilters` (`ImageCMWriter.cpp`) -/

/-- The function `scoreYUV(yuv)`: `score(yuv[0]) + score(yuv[1]) + score(yuv[2])`. -/
def scoreYUV (yuv : Int × Int × Int) : Int :=
  ImageCMWriter_score yuv.1 + ImageCMWriter_score yuv.2.1 + ImageCMWriter_score yuv.2.2

/-- The loops over `ii < SF_COUNT` and `jj < CF_COUNT` of `decideFilters` at
pixel `(px, py)`: `scores.add(ii + jj*SF_COUNT, scoreYUV(yuv))` for the
residual `temp` of spatial filter `ii` under colour filter `jj`.  `SF_COUNT`
and `CF_COUNT` are declared in headers that are not part of the sources and
are parameters. -/
def scorePixel (e : CMEnv) (SF_COUNT CF_COUNT : Nat) (px py : Nat) (scores : FilterScorer) :
    FilterScorer :=
  let p := (px + py * e.width) * 4
  (List.range SF_COUNT).foldl
    (fun scores (ii : Nat) =>
      let pred := e.SPATIAL_FILTERS ii e.rgba p px py e.width
      let temp : Int × Int × Int :=
        (toU8 (e.rgba p - pred.1), toU8 (e.rgba (p + 1) - pred.2.1),
         toU8 (e.rgba (p + 2) - pred.2.2))
      (List.range CF_COUNT).foldl
        (fun scores (jj : Nat) =>
          let yuv := e.RGB2YUV_FILTERS jj temp
          let error := scoreYUV yuv
          scores.add (ii + jj * SF_COUNT) error)
        scores)
    scores

/-- The loops over `yy`, `xx` in `[0, FILTER_ZONE_SIZE)` of `decideFilters` for
the zone at `(x, y)`: pixels with `hasRGB` or `visited` are skipped. -/
def scoreZone (e : CMEnv) (SF_COUNT CF_COUNT : Nat) (x y : Nat) (scores : FilterScorer) :
    FilterScorer :=
  (List.range 8).foldl
    (fun scores yy =>
      (List.range 8).foldl
        (fun scores xx =>
          let px := x + xx
          let py := y + yy
          if e.hasRGB px py then scores
          else if e.visited px py then scores
          else scorePixel e SF_COUNT CF_COUNT px py scores)
        scores)
    scores

/-- Modelled from the spec: the branch of `decideFilters` for a lowest score
above 4 takes the top `FILTER_SELECT_FUZZ` candidates and rescores them with
`EntropyEstimator<u8>`, a class template that is not part of the sources; the
spec says only that it picks the `(sf, cf)` of least estimated entropy.  The
pair picked, the estimator state `E` and the order in which `getTop` leaves
the list are taken as they come from `pick`. -/
structure EntropyPick (E : Type) where
  pick : E → FilterScorer → Nat → Nat → (Nat × Nat) × E × (Nat → Score)

/-- The loop state of `decideFilters`: the filter matrix, the scorer and the
entropy estimators. -/
structure DecideState (E : Type) where
  matrix : Nat → Int
  scores : FilterScorer
  ee : E

/-- The statement `u16 filter = ((u16)bestSF << 8) | bestCF`. -/
def filterWord (bestSF bestCF : Nat) : Nat :=
  (((bestSF % 2 ^ 16) <<< 8) ||| bestCF) % 2 ^ 16

/-- The choice of `(bestSF, bestCF)` for the zone at `(x, y)`: at compress
level 0 the lowest-scoring pair; at higher levels the lowest-scoring pair when
its score is at most 4, the entropy pick otherwise.  `none` when `getLowest`
reads an empty list. -/
def decideZone {E : Type} (e : CMEnv) (SF_COUNT CF_COUNT : Nat) (compressLevel : Int)
    (ep : EntropyPick E) (x y : Nat) (scores : FilterScorer) (ee : E) :
    Option ((Nat × Nat) × E × FilterScorer) :=
  let scores := scoreZone e SF_COUNT CF_COUNT x y scores.reset
  match scores.getLowest with
  | none => none
  | some pos =>
      let lowest := scores._list pos
      if compressLevel = 0 then
        some ((lowest.index % SF_COUNT, lowest.index / SF_COUNT), ee, scores)
      else if lowest.score ≤ 4 then
        some ((lowest.index % SF_COUNT, lowest.index / SF_COUNT), ee, scores)
      else
        let r := ep.pick ee scores x y
        some (r.1, r.2.1, { scores with _list := r.2.2 })

/-- Body of the zone loops of `decideFilters` at `(x, y)`. -/
def decideStep {E : Type} (e : CMEnv) (SF_COUNT CF_COUNT : Nat) (compressLevel : Int)
    (ep : EntropyPick E) (s : Option (DecideState E)) (xy : Nat × Nat) :
    Option (DecideState E) :=
  s.bind fun s =>
    if getFilter e s.matrix xy.1 xy.2 = e.UNUSED_FILTER then some s
    else
      (decideZone e SF_COUNT CF_COUNT compressLevel ep xy.1 xy.2 s.scores s.ee).map fun r =>
        let filter : Int := filterWord r.1.1 r.1.2
        { matrix := setFilter e s.matrix xy.1 xy.2 filter, scores := r.2.2, ee := r.2.1 }

/-- The method `ImageCMWriter::decideFilters()`: the state after the zone
loops.  `list0` is the content of the scorer's list as `init` allocates it,
`ee0` the cleared estimators, `compressLevel` the constant `COMPRESS_LEVEL`. -/
def decideFilters {E : Type} (e : CMEnv) (SF_COUNT CF_COUNT : Nat) (compressLevel : Int)
    (ep : EntropyPick E) (matrix : Nat → Int) (list0 : Nat → Score) (ee0 : E) :
    Option (DecideState E) :=
  (zoneStarts e.height).foldl
    (fun s y =>
      (zoneStarts e.width).foldl
        (fun s x => decideStep e SF_COUNT CF_COUNT compressLevel ep s (x, y))
        s)
    (some { matrix := matrix, scores := { _list := list0, _count := SF_COUNT * CF_COUNT },
            ee := ee0 })

/-! ### The scores as the zone's sums -/

/-- The pixels of the zone at `(x, y)` that are neither mask-covered nor
LZ-visited, in loop order. -/
def zoneEncoded (e : CMEnv) (x y : Nat) : List (Nat × Nat) :=
  ((List.range 8).flatMap fun yy => (List.range 8).map fun xx => (x + xx, y + yy)).filter
    (isEncoded e)

/-- The error `score(Y) + score(U) + score(V)` of the residual of pixel `pxy`
under pair `i`: spatial filter `i mod SF_COUNT`, colour filter
`i div SF_COUNT`. -/
def pairError (e : CMEnv) (SF_COUNT : Nat) (i : Nat) (pxy : Nat × Nat) : Int :=
  let p := (pxy.1 + pxy.2 * e.width) * 4
  let pred := e.SPATIAL_FILTERS (i % SF_COUNT : Nat) e.rgba p pxy.1 pxy.2 e.width
  let temp : Int × Int × Int :=
    (toU8 (e.rgba p - pred.1), toU8 (e.rgba (p + 1) - pred.2.1), toU8 (e.rgba (p + 2) - pred.2.2))
  scoreYUV (e.RGB2YUV_FILTERS (i / SF_COUNT : Nat) temp)

/-- The summed score of pair `i` over the encoded pixels of the zone. -/
def zoneScore (e : CMEnv) (SF_COUNT : Nat) (x y : Nat) (i : Nat) : Int :=
  ((zoneEncoded e x y).map (pairError e SF_COUNT i)).sum

/-- The index `i` is the smallest among those below `n` that minimise `f`. -/
def IsLeastMin (f : Nat → Int) (n i : Nat) : Prop :=
  i < n ∧ (∀ j, j < n → f i ≤ f j) ∧ (∀ j, j < i → f i < f j)

/-- An entropy pick without state that always picks the pair `(0, 0)` and
leaves the list in place. -/
def entropyPickZero : EntropyPick Unit :=
  { pick := fun _ scores _ _ => ((0, 0), (), scores._list) }

/-! ## The replacement loop of `ImageCMWriter::designFilters` (`ImageCMWriter.cpp`) -/

/-- Rounding of a rational to the nearest integer, ties to the even one. -/
def roundHalfEven (x : ℚ) : ℤ :=
  let f := ⌊x⌋
  if x - f < 1 / 2 then f
  else if 1 / 2 < x - f then f + 1
  else if f % 2 = 0 then f else f + 1

/-- The `double` (IEEE 754 binary64, round to nearest, ties to even) nearest
to the rational `q`, for `q` in the range of normal numbers: the 53-bit
significand is the rounding of `|q| / 2^(e − 52)` with `e = ⌊log2 |q|⌋`. -/
def roundDouble (q : ℚ) : ℚ :=
  if q = 0 then 0
  else
    let e := Int.log 2 |q|
    let ulp : ℚ := 2 ^ (e - 52)
    (if q < 0 then -1 else 1) * (roundHalfEven (|q| / ulp) : ℚ) * ulp

/-- A value of type `double` as `designFilters` forms it: a finite number, or
what a division by zero gives. -/
inductive Double
  | finite (q : ℚ)
  | posInf
  | negInf
  | nan

/-- The expression `best_tap / (double)lowest_sf`: both `int`s convert to
`double` exactly, and the quotient is rounded. -/
def ratioOf (best_tap lowest_sf : Int) : Double :=
  if lowest_sf = 0 then
    if best_tap > 0 then Double.posInf
    else if best_tap < 0 then Double.negInf
    else Double.nan
  else Double.finite (roundDouble ((best_tap : ℚ) / (lowest_sf : ℚ)))

/-- The comparison `ratio < 1.2`, the literal being the `double` nearest to
`6/5`. -/
def ratioBelow (ratio : Double) : Bool :=
  match ratio with
  | Double.finite q => decide (q < roundDouble (6 / 5))
  | Double.posInf => false
  | Double.negInf => true
  | Double.nan => false

/-- The loop "find worst default filter": `(lowest_sf, lowest_index)`. -/
def findLowest (SF_COUNT : Nat) (bestHist : Nat → Int) : Int × Nat :=
  (List.range SF_COUNT).foldl
    (fun (s : Int × Nat) ii => if bestHist ii < s.1 then (bestHist ii, ii) else s)
    (0x7fffffff, 0)

/-- The loop "find best custom filter": `(best_tap, highest_index)`. -/
def findBest (SF_COUNT TAPPED_COUNT : Nat) (bestHist : Nat → Int) : Int × Int :=
  (List.range TAPPED_COUNT).foldl
    (fun (s : Int × Int) ii =>
      let score := bestHist (ii + SF_COUNT)
      if score > s.1 then (score, (ii : Int)) else s)
    (-1, -1)

/-- One iteration of the replacement loop: `none` for `break`; otherwise the
call `SetSpatialFilter(lowest_index, taps of highest_index)`, recorded as
`(lowest_index, highest_index)`, and `bestHist` with the two grave markers. -/
def replaceStep (SF_COUNT TAPPED_COUNT : Nat) (bestHist : Nat → Int) :
    Option ((Nat × Int) × (Nat → Int)) :=
  let low := findLowest SF_COUNT bestHist
  let best := findBest SF_COUNT TAPPED_COUNT bestHist
  if best.1 ≤ low.1 then none
  else if ratioBelow (ratioOf best.1 low.1) then none
  else
    let h1 := setByte bestHist low.2 0x7fffffff
    let h2 := setByte h1 (best.2 + SF_COUNT).toNat 0
    some ((low.2, best.2), h2)

/-- The loop `for (jj < SF_COUNT)` with `n` iterations left: the replacements
made, in order. -/
def replaceLoop (SF_COUNT TAPPED_COUNT : Nat) : Nat → (Nat → Int) → List (Nat × Int)
  | 0, _ => []
  | n + 1, bestHist =>
      match replaceStep SF_COUNT TAPPED_COUNT bestHist with
      | none => []
      | some (r, bestHist1) => r :: replaceLoop SF_COUNT TAPPED_COUNT n bestHist1

/-- The index `i` is the smallest among those below `n` that maximise `f`. -/
def IsFirstMax (f : Nat → Int) (n i : Nat) : Prop :=
  i < n ∧ (∀ j, j < n → f j ≤ f i) ∧ (∀ j, j < i → f j < f i)

/-- Preference counts of two default and two tapped predictors. -/
def bestHistExample : Nat → Int := fun i => [10, 5, 6, 3].getD i 0

/-! ## Table lookups and row-buffer accesses of the scanline passes -/

/-- One lookup `CHAOS_TABLE[chaosScore(last[c - 4]) + chaosScore(last[c])]` of
a pixel body: the pixel, the plane `c`, the bytes `last[c - 4]` (left) and
`last[c]` (above) read from `_chaos`, the table index formed from them and the
`u8 chaos` found there. -/
structure ChaosLookup where
  x : Nat
  y : Nat
  plane : Nat
  left : Int
  above : Int
  index : Int
  chaos : Int
  deriving DecidableEq, Repr

/-- The lookup of plane `c` made in loop state `s`. -/
def chaosLookup (CHAOS_TABLE : Int → Int) (y x : Nat) (s : ScanState) (c : Nat) :
    ChaosLookup :=
  let left := s.chaos (s.last + c - 4)
  let above := s.chaos (s.last + c)
  let index := chaosScore left + chaosScore above
  { x := x, y := y, plane := c, left := left, above := above, index := index,
    chaos := toU8 (CHAOS_TABLE index) }

/-- The four lookups that the pixel body of `chaosStats` and of `writeChaos`
makes at `(x, y)`; none at a pixel that is LZ-visited or mask-covered. -/
def chaosLookups (e : CMEnv) (CHAOS_TABLE : Int → Int) (y x : Nat) (s : ScanState) :
    List ChaosLookup :=
  if !e.visited x y && !e.hasRGB x y then
    [chaosLookup CHAOS_TABLE y x s 0, chaosLookup CHAOS_TABLE y x s 1,
     chaosLookup CHAOS_TABLE y x s 2, chaosLookup CHAOS_TABLE y x s 3]
  else []

/-- The indices into `_chaos` that the pixel body of `chaosStats` and of
`writeChaos` touches at `(x, y)`: the reads `last[c - 4]` and `last[c]` of an
encoded pixel, then the stores `last[c]` that both branches make. -/
def chaosAccesses (e : CMEnv) (y x : Nat) (s : ScanState) : List Int :=
  let last : Int := s.last
  (if !e.visited x y && !e.hasRGB x y then
    [last + 0 - 4, last + 0, last + 1 - 4, last + 1, last + 2 - 4, last + 2,
     last + 3 - 4, last + 3]
  else [])
    ++ [last + 0, last + 1, last + 2, last + 3]

/-- The scanline loops of `writeChaos`, recording at each pixel what `obs`
sees of the loop state in which the pixel body starts. -/
def writeChaosObserve {β : Type} (e : CMEnv) (matrix : Nat → Int) (chaos_table : ChaosTableId)
    (obs : Nat → Nat → ScanState → List β) : List β :=
  let CHAOS_TABLE := chaosTableOf e chaos_table
  let lastStart := COLOR_PLANES
  let s0 : ScanState := { chaos := fun _ => 0, last := lastStart, p := 0 }
  (loopOver
    (fun y s =>
      loopOver (fun x s => ((writeChaosPixel e matrix CHAOS_TABLE y x s).1, obs y x s))
        (List.range e.width) { s with last := lastStart })
    (List.range e.height) s0).2

/-- The scanline loops of `chaosStats`, recording at each pixel what `obs`
sees of the loop state in which the pixel body starts. -/
def chaosStatsObserve {β : Type} (e : CMEnv) (matrix : Nat → Int)
    (obs : Nat → Nat → ScanState → List β) : List β :=
  let lv := chaosLevels e
  let CHAOS_TABLE := chaosTableOf e lv.2
  let lastStart := COLOR_PLANES
  let s0 : ScanState := { chaos := fun _ => 0, last := lastStart, p := 0 }
  (loopOver
    (fun y s =>
      loopOver (fun x s => ((chaosStatsPixel e matrix CHAOS_TABLE y x s).1, obs y x s))
        (List.range e.width) { s with last := lastStart })
    (List.range e.height) s0).2

/-- A value that a `u8` can hold. -/
def IsByte (v : Int) : Prop := 0 ≤ v ∧ v ≤ 255

/-- The colour filters write bytes: `RGB2YUV_FILTERS[cf](temp, yuv)` stores
into the `u8` array `yuv`. -/
def yuvBytes (e : CMEnv) : Prop :=
  ∀ (cf : Int) (t : Int × Int × Int), IsByte t.1 → IsByte t.2.1 → IsByte t.2.2 →
    IsByte (e.RGB2YUV_FILTERS cf t).1 ∧ IsByte (e.RGB2YUV_FILTERS cf t).2.1 ∧
      IsByte (e.RGB2YUV_FILTERS cf t).2.2

/-- The plane and chaos index of a lookup. -/
def ChaosLookup.planeChaos (lk : ChaosLookup) : Nat × Int := (lk.plane, lk.chaos)

/-- The plane and chaos index of an encoder call. -/
def PlaneSym.planeChaos (r : PlaneSym) : Nat × Int := (r.plane, r.chaos)

/-! ## The assertion `filter != UNUSED_FILTER` of `writeChaos` -/

/-- The outcome of `CAT_DEBUG_ENFORCE(filter != UNUSED_FILTER)` in the pixel
body of `writeChaos` at `(x, y)`, where `filter = getFilter(x, y)`: the
assertion is evaluated for an encoded pixel only. -/
def writeChaosEnforce (e : CMEnv) (matrix : Nat → Int) (y x : Nat) (_s : ScanState) :
    List Bool :=
  if !e.visited x y && !e.hasRGB x y then
    [decide (getFilter e matrix x y ≠ e.UNUSED_FILTER)]
  else []

/-- Every pixel of a rectangle `(x, y, w, h)` that `findExtent` reports is
LZ-visited. -/
def extentVisited (e : CMEnv) : Prop :=
  ∀ (x y : Nat) (w h : Int), e.findExtent x y = some (w, h) →
    ∀ i j : Nat, (i : Int) < w → (j : Int) < h → e.visited (x + i) (y + j) = true

/-- The entropy pick returns a pair of the filter tables, as
`sf = index % SF_COUNT` and `cf = index / SF_COUNT` of a list entry are. -/
def pickInRange {E : Type} (ep : EntropyPick E) (SF_COUNT CF_COUNT : Nat) : Prop :=
  ∀ (ee : E) (fs : FilterScorer) (x y : Nat),
    (ep.pick ee fs x y).1.1 < SF_COUNT ∧ (ep.pick ee fs x y).1.2 < CF_COUNT

/-- No filter word `(sf << 8) | cf` of a pair of the filter tables is the
sentinel `UNUSED_FILTER`. -/
def wordsUsed (e : CMEnv) (SF_COUNT CF_COUNT : Nat) : Prop :=
  ∀ sf cf : Nat, sf < SF_COUNT → cf < CF_COUNT →
    ((filterWord sf cf : Nat) : Int) ≠ e.UNUSED_FILTER

/-! ## The class `EntropyEstimator` of `ImageFilterWriter.cpp` -/

/-- The members of the class `EntropyEstimator` of `ImageFilterWriter.cpp`
(the structure `EntropyEstimator` above is the class of that name in
`encoder/EntropyEstimator.cpp`): the `u32` array `_global`, the `u8` arrays
`_best` and `_local` (`LType` is `u8`), each of `_num_syms` entries, and the
`u32` totals. -/
structure ImageFilterWriter_EntropyEstimator where
  _num_syms : Nat
  _global : Nat → Nat
  _globalTotal : Nat
  _best : Nat → Nat
  _bestTotal : Nat
  _local : Nat → Nat
  _localTotal : Nat

namespace ImageFilterWriter_EntropyEstimator

/-- The method `clear(num_syms)`.  It allocates the three arrays and zeroes
`_global` and `_globalTotal` only: `new` leaves `_best` and `_local` with
indeterminate bytes, given here by `bestMem` and `localMem`, and `_bestTotal`
and `_localTotal` keep what they held. -/
def clear (est : ImageFilterWriter_EntropyEstimator) (num_syms : Nat)
    (bestMem localMem : Nat → Nat) : ImageFilterWriter_EntropyEstimator :=
  { _num_syms := num_syms
    _global := fun _ => 0
    _globalTotal := 0
    _best := fun i => bestMem i % 256
    _bestTotal := est._bestTotal
    _local := fun i => localMem i % 256
    _localTotal := est._localTotal }

/-- The method `setup()`: `_localTotal = 0` and `_local` zeroed. -/
def setup (est : ImageFilterWriter_EntropyEstimator) : ImageFilterWriter_EntropyEstimator :=
  { _num_syms := est._num_syms
    _global := est._global
    _globalTotal := est._globalTotal
    _best := est._best
    _bestTotal := est._bestTotal
    _local := fun _ => 0
    _localTotal := 0 }

/-- The method `push(s16 symbol)`: `_local[symbol]++; ++_localTotal;` on a
`u8` entry and a `u32` total; `none` when `symbol` indexes outside `_local`. -/
def push (est : ImageFilterWriter_EntropyEstimator) (symbol : Int) :
    Option ImageFilterWriter_EntropyEstimator :=
  if 0 ≤ symbol ∧ symbol < est._num_syms then
    some
      { _num_syms := est._num_syms
        _global := est._global
        _globalTotal := est._globalTotal
        _best := est._best
        _bestTotal := est._bestTotal
        _local := fun i => if i = symbol.toNat then (est._local i + 1) % 256 else est._local i
        _localTotal := (est._localTotal + 1) % 2 ^ 32 }
  else none

/-- The method `save()`: `memcpy(_best, _local, _num_syms)` and
`_bestTotal = _localTotal`. -/
def save (est : ImageFilterWriter_EntropyEstimator) : ImageFilterWriter_EntropyEstimator :=
  { _num_syms := est._num_syms
    _global := est._global
    _globalTotal := est._globalTotal
    _best := fun i => if i < est._num_syms then est._local i else est._best i
    _bestTotal := est._localTotal
    _local := est._local
    _localTotal := est._localTotal }

/-- The method `commit()`: `_global[ii] += _best[ii]` for `ii < _num_syms` and
`_globalTotal += _bestTotal`, in `u32`. -/
def commit (est : ImageFilterWriter_EntropyEstimator) : ImageFilterWriter_EntropyEstimator :=
  { _num_syms := est._num_syms
    _global := (List.range est._num_syms).foldl
      (fun g ii => fun i => if i = ii then (g ii + est._best ii) % 2 ^ 32 else g i) est._global
    _globalTotal := (est._globalTotal + est._bestTotal) % 2 ^ 32
    _best := est._best
    _bestTotal := est._bestTotal
    _local := est._local
    _localTotal := est._localTotal }

end ImageFilterWriter_EntropyEstimator

/-- One call on an estimator after `clear`. -/
inductive EstimatorOp
  | setup
  | push (symbol : Int)
  | save
  | commit
  deriving DecidableEq, Repr

/-- The effect of one call; `none` once a call has indexed outside an array. -/
def estimatorStep (est : Option ImageFilterWriter_EntropyEstimator) (op : EstimatorOp) :
    Option ImageFilterWriter_EntropyEstimator :=
  est.bind fun est =>
    match op with
    | EstimatorOp.setup => some est.setup
    | EstimatorOp.push symbol => est.push symbol
    | EstimatorOp.save => some est.save
    | EstimatorOp.commit => some est.commit

/-- The effect of a sequence of calls. -/
def estimatorRun (ops : List EstimatorOp) (est : ImageFilterWriter_EntropyEstimator) :
    Option ImageFilterWriter_EntropyEstimator :=
  ops.foldl estimatorStep (some est)

/-- The sum of `_global[0..n)`. -/
def globalSum (est : ImageFilterWriter_EntropyEstimator) (n : Nat) : Nat :=
  ((List.range n).map est._global).sum

/-- What a sequence of calls has done, in the words of the claim: whether a
`setup` and a `save` have occurred, the symbols pushed since the last `setup`,
the pushes recorded at the last `save` (those made between the last `setup`
before it and the `save`), and the pushes recorded at the saves that were
committed, one copy per `commit`. -/
structure PushLog where
  setupSeen : Bool
  saveSeen : Bool
  sinceSetup : List Int
  saved : List Int
  committed : List Int
  deriving DecidableEq, Repr

/-- The log after `clear`. -/
def PushLog.start : PushLog :=
  { setupSeen := false, saveSeen := false, sinceSetup := [], saved := [], committed := [] }

/-- The log after one more call. -/
def PushLog.step (log : PushLog) : EstimatorOp → PushLog
  | EstimatorOp.setup =>
      { setupSeen := true, saveSeen := log.saveSeen, sinceSetup := [], saved := log.saved,
        committed := log.committed }
  | EstimatorOp.push symbol =>
      { setupSeen := log.setupSeen, saveSeen := log.saveSeen,
        sinceSetup := symbol :: log.sinceSetup, saved := log.saved,
        committed := log.committed }
  | EstimatorOp.save =>
      { setupSeen := log.setupSeen, saveSeen := true, sinceSetup := log.sinceSetup,
        saved := log.sinceSetup, committed := log.committed }
  | EstimatorOp.commit =>
      { setupSeen := log.setupSeen, saveSeen := log.saveSeen, sinceSetup := log.sinceSetup,
        saved := log.saved, committed := log.saved ++ log.committed }

/-- The log of a sequence of calls after `clear`. -/
def pushLog (ops : List EstimatorOp) : PushLog :=
  ops.foldl PushLog.step PushLog.start

/-- The conditions the claim puts on a call: at most 255 pushes between two
setups, and a `commit` only after a `save`. -/
def opClaimed (log : PushLog) : EstimatorOp → Bool
  | EstimatorOp.setup => true
  | EstimatorOp.push _ => !log.setupSeen || decide (log.sinceSetup.length < 255)
  | EstimatorOp.save => true
  | EstimatorOp.commit => log.saveSeen

/-- A sequence of calls that meets the conditions of the claim. -/
def claimedSequence : PushLog → List EstimatorOp → Bool
  | _, [] => true
  | log, op :: ops => opClaimed log op && claimedSequence (log.step op) ops

/-- The conditions under which the calls keep the counts: the claim's, a
pushed symbol inside `[0, n)`, and a `save` only after a `setup`. -/
def opAllowed (n : Nat) (log : PushLog) : EstimatorOp → Bool
  | EstimatorOp.setup => true
  | EstimatorOp.push symbol =>
      decide (0 ≤ symbol ∧ symbol < n) &&
        (!log.setupSeen || decide (log.sinceSetup.length < 255))
  | EstimatorOp.save => log.setupSeen
  | EstimatorOp.commit => log.saveSeen

/-- A sequence of calls that meets the conditions of `opAllowed`. -/
def allowedSequence (n : Nat) : PushLog → List EstimatorOp → Bool
  | _, [] => true
  | log, op :: ops => opAllowed n log op && allowedSequence n (log.step op) ops

/-- An estimator object before `clear`, both totals holding 0. -/
def estimatorFresh : ImageFilterWriter_EntropyEstimator :=
  { _num_syms := 0
    _global := fun _ => 0
    _globalTotal := 0
    _best := fun _ => 0
    _bestTotal := 0
    _local := fun _ => 0
    _localTotal := 0 }

/-- What the members `_globalTotal` and `_global[0..n)` hold. -/
def globalView (n : Nat) (est : ImageFilterWriter_EntropyEstimator) : Nat × List Nat :=
  (est._globalTotal, (List.range n).map est._global)

/-- The estimator holds what the log says: after a `setup`, `_local` counts
the pushes since then; after a `save`, `_best` counts the pushes recorded at
it; `_global` counts the committed pushes, in `u32`. -/
def EstimatorInv (n : Nat) (log : PushLog) (est : ImageFilterWriter_EntropyEstimator) : Prop :=
  est._num_syms = n ∧
  (log.setupSeen = true →
    (∀ s, s < n → est._local s = log.sinceSetup.count (s : Int)) ∧
    est._localTotal = log.sinceSetup.length ∧ log.sinceSetup.length ≤ 255 ∧
    ∀ v ∈ log.sinceSetup, 0 ≤ v ∧ v < (n : Int)) ∧
  (log.saveSeen = true →
    (∀ s, s < n → est._best s = log.saved.count (s : Int)) ∧
    est._bestTotal = log.saved.length ∧ log.saved.length ≤ 255 ∧
    ∀ v ∈ log.saved, 0 ≤ v ∧ v < (n : Int)) ∧
  (∀ s, s < n → est._global s = log.committed.count (s : Int) % 2 ^ 32) ∧
  est._globalTotal = log.committed.length % 2 ^ 32 ∧
  ∀ v ∈ log.committed, 0 ≤ v ∧ v < (n : Int)

/-! # Theorems -/

/-! ## Colour filter reversibility -/

theorem toU8_toS16_add (x r : Int) (hs : 0 ≤ x + r ∧ x + r ≤ 255) :
    toU8 (toS16 x + toU8 r) = x + r := by
  unfold toU8 toS16; omega

theorem toU8_toS8_toS16_add (x r : Int) (hs : 0 ≤ x + r ∧ x + r ≤ 255) :
    toU8 (toS8 (toS16 x) + toU8 r) = x + r := by
  unfold toU8 toS8 toS16; omega

theorem toU8_byte (x : Int) (h : 0 ≤ x ∧ x ≤ 255) : toU8 (toU8 x) = x := by
  unfold toU8; omega

/-- C1, as stated, fails: `convertRGBtoYUV` and `convertYUVtoRGB` both handle
`CF_A3`, and for `(R,G,B) = (0,1,0)` the forward transform gives
`(Y,U,V) = (0,-1,-1)`, from which the inverse computes `G = (0·3+1+1)/3 = 0` and
returns `(255,0,255)`. -/
theorem C1_counterexample_CF_A3 :
    convertRGBtoYUV .CF_A3 0 1 0 = { y := 0, u := -1, v := -1 } ∧
    convertYUVtoRGB .CF_A3 (convertRGBtoYUV .CF_A3 0 1 0) = some (255, 0, 255) ∧
    convertYUVtoRGB .CF_A3 (convertRGBtoYUV .CF_A3 0 1 0) ≠ some (0, 1, 0) := by
  decide

/-- C1 (amended): for each of the sixteen colour filters of `reversible899`
(`CF_YUVr`, `CF_YCgCo_R`, the seven `CF_D*`, the five BCIF filters, `CF_RGB` and
`CF_C7`) and every `(R,G,B)` in `[0,255]³`, `convertYUVtoRGB` applied to the
output of `convertRGBtoYUV` returns `(R,G,B)`. -/
theorem C1_roundtrip_yuv899 (cf : ColorFilter) (R G B : Int)
    (hcf : cf ∈ reversible899)
    (hR : 0 ≤ R ∧ R ≤ 255) (hG : 0 ≤ G ∧ G ≤ 255) (hB : 0 ≤ B ∧ B ≤ 255) :
    convertYUVtoRGB cf (convertRGBtoYUV cf R G B) = some (R, G, B) := by
  have e1 := toU8_toS16_add (G - R) R (by omega)
  have e2 := toU8_toS16_add (R - B) B (by omega)
  have e3 := toU8_toS16_add (G - B) B (by omega)
  have e4 : toU8 (toU8 B + toS16 (R - B)) = R := by unfold toU8 toS16; omega
  have e5 := toU8_byte R hR
  have e6 := toU8_byte B hB
  cases cf <;> simp [reversible899] at hcf <;>
    simp only [convertYUVtoRGB, convertRGBtoYUV, Option.map_some',
      Option.some.injEq, Prod.mk.injEq] <;>
    (try simp only [e1, e2, e3, e4, e5, e6]) <;>
    refine ⟨?_, ?_, ?_⟩ <;>
    (try simp only [toU8, toS8, toS16]) <;>
    omega

/-- Witness for C1 (amended): `CF_D9` at `(R,G,B) = (10,200,30)`. -/
theorem C1_roundtrip_yuv899_witness :
    convertYUVtoRGB .CF_D9 (convertRGBtoYUV .CF_D9 10 200 30) = some (10, 200, 30) :=
  C1_roundtrip_yuv899 .CF_D9 10 200 30 (by decide) (by decide) (by decide) (by decide)

/-- C2: for each of the fifteen colour filters of `reversible888` and every
`(R,G,B)` in `[0,255]³`, converting with `convertRGBtoYUV`, truncating `U` and
`V` to signed 8 bits as the YUV888 phase of `testColorFilters` does, and
converting back with `convertYUVtoRGB` returns `(R,G,B)`. -/
theorem C2_roundtrip_yuv888 (cf : ColorFilter) (R G B : Int)
    (hcf : cf ∈ reversible888)
    (hR : 0 ≤ R ∧ R ≤ 255) (hG : 0 ≤ G ∧ G ≤ 255) (hB : 0 ≤ B ∧ B ≤ 255) :
    convertYUVtoRGB cf (truncYUV888 (convertRGBtoYUV cf R G B)) = some (R, G, B) := by
  have e1 := toU8_toS8_toS16_add (G - R) R (by omega)
  have e2 := toU8_toS8_toS16_add (R - B) B (by omega)
  have e3 := toU8_toS8_toS16_add (G - B) B (by omega)
  have e4 : toU8 (toU8 B + toS8 (toS16 (R - B))) = R := by unfold toU8 toS8 toS16; omega
  have e5 := toU8_byte R hR
  have e6 := toU8_byte B hB
  cases cf <;> simp [reversible888] at hcf <;>
    simp only [convertYUVtoRGB, convertRGBtoYUV, truncYUV888, Option.map_some',
      Option.some.injEq, Prod.mk.injEq] <;>
    (try simp only [e1, e2, e3, e4, e5, e6]) <;>
    refine ⟨?_, ?_, ?_⟩ <;>
    (try simp only [toU8, toS8, toS16]) <;>
    omega

/-- Witness for C2: `CF_YCgCo_R` at `(R,G,B) = (255,0,128)`, where `U` and `V`
leave the signed 8-bit range before truncation. -/
theorem C2_roundtrip_yuv888_witness :
    convertYUVtoRGB .CF_YCgCo_R (truncYUV888 (convertRGBtoYUV .CF_YCgCo_R 255 0 128))
      = some (255, 0, 128) :=
  C2_roundtrip_yuv888 .CF_YCgCo_R 255 0 128 (by decide) (by decide) (by decide) (by decide)

/-! ## Spatial filter causality -/

theorem agree_same3 {m1 m2 : Int → Int} {x y width : Int} (h : AgreeBefore m1 m2 x y width)
    (x' y' q : Int) (hq : q = pixelOffset x' y' width)
    (hx' : 0 ≤ x' ∧ x' < width) (hy' : 0 ≤ y')
    (hlt : y' < y ∨ (y' = y ∧ x' < x)) : Same3 m1 m2 q := by
  subst hq
  exact ⟨h x' y' 0 hx'.1 hx'.2 hy' (by omega) (by omega) hlt,
    h x' y' 1 hx'.1 hx'.2 hy' (by omega) (by omega) hlt,
    h x' y' 2 hx'.1 hx'.2 hy' (by omega) (by omega) hlt⟩

/-- The prediction is the same on two rasters that hold the same bytes at the
neighbours `A`, `B`, `C`, `D` and `E` that the branch taken reads. -/
theorem filterPixel_congr (sf : SpatialFilter) (x y width p : Int) (m1 m2 : Int → Int)
    (hA : x > 0 → Same3 m1 m2 (p - 4))
    (hB : y > 0 → Same3 m1 m2 (p - width * 4))
    (hC : x > 0 → y > 0 → Same3 m1 m2 (p - width * 4 - 4))
    (hC' : x > 0 → y > 0 → Same3 m1 m2 (p - 4 - width * 4))
    (hD : y > 0 → (x < width - 1 ∨ ¬ x > 0) → Same3 m1 m2 (p - width * 4 + 4))
    (hE : x > 1 ∧ y > 1 → Same3 m1 m2 (p - 4 - width * 4 - 4 - width * 4)) :
    filterPixel m1 p sf x y width = filterPixel m2 p sf x y width := by
  by_cases hx0 : x > 0
  · by_cases hy0 : y > 0
    · obtain ⟨a0, a1, a2⟩ := hA hx0
      obtain ⟨b0, b1, b2⟩ := hB hy0
      obtain ⟨c0, c1, c2⟩ := hC hx0 hy0
      obtain ⟨c0', c1', c2'⟩ := hC' hx0 hy0
      by_cases hxl : x < width - 1
      · obtain ⟨d0, d1, d2⟩ := hD hy0 (Or.inl hxl)
        by_cases hxy : x > 1 ∧ y > 1
        · obtain ⟨e0, e1, e2⟩ := hE hxy
          cases sf <;>
            simp only [filterPixel, read3, fpt3, hx0, hy0, hxl, hxy, ↓reduceIte,
              a0, a1, a2, b0, b1, b2, c0, c1, c2, c0', c1', c2', d0, d1, d2, e0, e1, e2]
        · cases sf <;>
            simp only [filterPixel, read3, fpt3, hx0, hy0, hxl, hxy, ↓reduceIte,
              a0, a1, a2, b0, b1, b2, c0, c1, c2, c0', c1', c2', d0, d1, d2]
      · by_cases hxy : x > 1 ∧ y > 1
        · obtain ⟨e0, e1, e2⟩ := hE hxy
          cases sf <;>
            simp only [filterPixel, read3, fpt3, hx0, hy0, hxl, hxy, ↓reduceIte,
              a0, a1, a2, b0, b1, b2, c0, c1, c2, c0', c1', c2', e0, e1, e2]
        · cases sf <;>
            simp only [filterPixel, read3, fpt3, hx0, hy0, hxl, hxy, ↓reduceIte,
              a0, a1, a2, b0, b1, b2, c0, c1, c2, c0', c1', c2']
    · obtain ⟨a0, a1, a2⟩ := hA hx0
      have hxy : ¬(x > 1 ∧ y > 1) := by omega
      by_cases hxl : x < width - 1 <;> cases sf <;>
        simp only [filterPixel, read3, fpt3, hx0, hy0, hxl, hxy, ↓reduceIte, a0, a1, a2]
  · have hxy : ¬(x > 1 ∧ y > 1) := by omega
    by_cases hy0 : y > 0
    · obtain ⟨b0, b1, b2⟩ := hB hy0
      obtain ⟨d0, d1, d2⟩ := hD hy0 (Or.inr hx0)
      by_cases hxl : x < width - 1 <;> cases sf <;>
        simp only [filterPixel, read3, fpt3, hx0, hy0, hxl, hxy, ↓reduceIte,
          b0, b1, b2, d0, d1, d2]
    · by_cases hxl : x < width - 1 <;> cases sf <;>
        simp only [filterPixel, read3, fpt3, hx0, hy0, hxl, hxy, ↓reduceIte]

/-- C4, as stated, fails at `width = 1`: the two rasters agree on every pixel
that precedes `(0,1)` (only pixel `(0,0)`), yet `SF_AD` at `(x,y) = (0,1)` reads
`p - width*4 + 4 = p`, the current pixel, and predicts `(0,0,0)` on one and
`(1,0,0)` on the other. -/
theorem C4_counterexample_width_one :
    AgreeBefore rasterZero rasterOneAt4 0 1 1 ∧
    filterPixel rasterZero (pixelOffset 0 1 1) .SF_AD 0 1 1 = (0, 0, 0) ∧
    filterPixel rasterOneAt4 (pixelOffset 0 1 1) .SF_AD 0 1 1 = (1, 0, 0) := by
  refine ⟨?_, by decide, by decide⟩
  intro x' y' c hx0 hx1 hy0 hc0 hc1 hlt
  have hx : x' = 0 := by omega
  have hy : y' = 0 := by omega
  subst hx hy
  have hne : pixelOffset 0 0 1 + c ≠ 4 := by unfold pixelOffset; omega
  simp [rasterZero, rasterOneAt4, hne]

/-- C4 (amended): for every spatial filter `sf` handled by `filterPixel` and
every `(x, y, width)` with `0 ≤ x < width`, `0 ≤ y` and `width ≥ 2`, two rasters
that agree on all pixels `(x', y')` with `y' < y` or (`y' = y` and `x' < x`) give
the same prediction at `(x, y)`. -/
theorem C4_filterPixel_causal (sf : SpatialFilter) (x y width : Int) (m1 m2 : Int → Int)
    (hx : 0 ≤ x ∧ x < width) (hy : 0 ≤ y) (hw : 2 ≤ width)
    (h : AgreeBefore m1 m2 x y width) :
    filterPixel m1 (pixelOffset x y width) sf x y width
      = filterPixel m2 (pixelOffset x y width) sf x y width := by
  apply filterPixel_congr
  · intro h0
    exact agree_same3 h (x - 1) y _ (by unfold pixelOffset; ring) (by omega) hy (by omega)
  · intro h0
    exact agree_same3 h x (y - 1) _ (by unfold pixelOffset; ring) (by omega) (by omega)
      (by omega)
  · intro h0 h1
    exact agree_same3 h (x - 1) (y - 1) _ (by unfold pixelOffset; ring) (by omega) (by omega)
      (by omega)
  · intro h0 h1
    exact agree_same3 h (x - 1) (y - 1) _ (by unfold pixelOffset; ring) (by omega) (by omega)
      (by omega)
  · intro h0 h1
    exact agree_same3 h (x + 1) (y - 1) _ (by unfold pixelOffset; ring) (by omega) (by omega)
      (by omega)
  · intro h0
    exact agree_same3 h (x - 2) (y - 2) _ (by unfold pixelOffset; ring) (by omega) (by omega)
      (by omega)

/-- Witness for C4 (amended): `SF_ABCD` at `(x, y) = (0, 1)` in a raster of
width 2, on two rasters that differ only at byte 8, the first byte of the
current pixel. -/
theorem C4_filterPixel_causal_witness :
    filterPixel rasterZero (pixelOffset 0 1 2) .SF_ABCD 0 1 2
      = filterPixel (fun i => if i = 8 then 1 else 0) (pixelOffset 0 1 2) .SF_ABCD 0 1 2 :=
  C4_filterPixel_causal .SF_ABCD 0 1 2 rasterZero (fun i => if i = 8 then 1 else 0)
    (by decide) (by decide) (by decide)
    (by
      intro x' y' c hx0 hx1 hy0 hc0 hc1 hlt
      have hy : y' = 0 := by omega
      subst hy
      have hne : pixelOffset x' 0 2 + c ≠ 8 := by unfold pixelOffset; omega
      simp [rasterZero, hne])

/-! ## Loop lemmas -/

/-- Invariant rule for a counted loop: if each iteration `x < N` keeps the
invariant and its output projects to `g x`, the loop over `a, …, a+n-1` ends in
the invariant at `a+n` and its output projects to the concatenation. -/
theorem loopOver_range' {σ ε β : Type} (body : Nat → σ → σ × List ε)
    (proj : List ε → List β) (hnil : proj [] = [])
    (happ : ∀ a b, proj (a ++ b) = proj a ++ proj b)
    (Inv : Nat → σ → Prop) (g : Nat → List β) (N : Nat)
    (hstep : ∀ x s, x < N → Inv x s → Inv (x + 1) (body x s).1 ∧ proj (body x s).2 = g x) :
    ∀ n a s, a + n ≤ N → Inv a s →
      Inv (a + n) (loopOver body (List.range' a n) s).1 ∧
      proj (loopOver body (List.range' a n) s).2 = (List.range' a n).flatMap g := by
  intro n
  induction n with
  | zero =>
      intro a s _ hi
      simpa [loopOver, hnil] using hi
  | succ n ih =>
      intro a s hle hi
      obtain ⟨h1, h2⟩ := hstep a s (by omega) hi
      obtain ⟨h3, h4⟩ := ih (a + 1) (body a s).1 (by omega) h1
      refine ⟨?_, ?_⟩
      · have : a + (n + 1) = a + 1 + n := by omega
        rw [this]
        simpa [List.range', loopOver] using h3
      · simp only [List.range', loopOver, happ, h2, h4, List.flatMap_cons]

theorem flatMap_ite_singleton {α β : Type} (P : α → Bool) (f : α → β) (l : List α) :
    (l.flatMap fun x => if P x then [f x] else []) = (l.filter P).map f := by
  induction l with
  | nil => rfl
  | cons a l ih =>
      by_cases h : P a <;> simp [List.flatMap_cons, List.filter_cons, h, ih]

theorem flatMap_ite_list {α β : Type} (P : α → Bool) (f : α → List β) (l : List α) :
    (l.flatMap fun x => if P x then f x else []) = (l.filter P).flatMap f := by
  induction l with
  | nil => rfl
  | cons a l ih =>
      by_cases h : P a <;> simp [List.flatMap_cons, List.filter_cons, h, ih]

/-- Nested guarded concatenation over rows and columns is the concatenation
over the encoded pixels in scan order. -/
theorem flatMap_rows_encoded {β : Type} (e : CMEnv) (f : Nat × Nat → List β) :
    ((List.range e.height).flatMap fun y =>
      (List.range e.width).flatMap fun x => if isEncoded e (x, y) then f (x, y) else [])
      = (encodedPixels e).flatMap f := by
  unfold encodedPixels scanOrder
  rw [← flatMap_ite_list]
  rw [List.flatMap_assoc]
  congr 1
  funext y
  rw [List.flatMap_map]

/-! ## The scanline passes of `chaosStats` and `writeChaos` -/

theorem scanOrder_flatMap {β : Type} (e : CMEnv) (G : Nat × Nat → List β) :
    (scanOrder e).flatMap G
      = (List.range e.height).flatMap fun y => (List.range e.width).flatMap fun x => G (x, y) := by
  unfold scanOrder
  rw [List.flatMap_assoc]
  congr 1
  funext y
  rw [List.flatMap_map]

/-- A scanline pass whose pixel body advances `p` by one pixel visits the
pixels in scan order with `p` at the pixel's offset; its output is the
concatenation of the per-pixel outputs. -/
theorem scanPass_proj {ε β : Type} (e : CMEnv)
    (body : Nat → Nat → ScanState → ScanState × List ε)
    (f : ε → Option β) (G : Nat × Nat → List β)
    (hp : ∀ y x s, (body y x s).1.p = s.p + 4)
    (hpix : ∀ x y s, x < e.width → y < e.height → s.p = (x + y * e.width) * 4 →
      (body y x s).2.filterMap f = G (x, y))
    (s0 : ScanState) (h0 : s0.p = 0) :
    ((loopOver
        (fun y s =>
          loopOver (fun x s => body y x s) (List.range e.width) { s with last := COLOR_PLANES })
        (List.range e.height) s0).2).filterMap f
      = (scanOrder e).flatMap G := by
  rw [scanOrder_flatMap]
  have hrow : ∀ (y : Nat) (s : ScanState), y < e.height → s.p = (y * e.width) * 4 →
      (loopOver (fun x s => body y x s) (List.range e.width)
          { s with last := COLOR_PLANES }).1.p = ((y + 1) * e.width) * 4 ∧
      ((loopOver (fun x s => body y x s) (List.range e.width)
          { s with last := COLOR_PLANES }).2).filterMap f
        = (List.range e.width).flatMap fun x => G (x, y) := by
    intro y s hy hs
    have := loopOver_range' (fun x s => body y x s) (List.filterMap f) rfl
      (fun a b => List.filterMap_append a b f)
      (fun x (s : ScanState) => s.p = (x + y * e.width) * 4) (fun x => G (x, y)) e.width
      (fun x s hx hi => ⟨by show (body y x s).1.p = _; rw [hp, show s.p = _ from hi]; ring,
        hpix x y s hx hy hi⟩)
      e.width 0 { s with last := COLOR_PLANES } (by omega) (by simpa using hs)
    rw [← List.range_eq_range'] at this
    refine ⟨?_, this.2⟩
    rw [this.1]; ring
  have := loopOver_range'
    (fun y s =>
      loopOver (fun x s => body y x s) (List.range e.width) { s with last := COLOR_PLANES })
    (List.filterMap f) rfl (fun a b => List.filterMap_append a b f)
    (fun y (s : ScanState) => s.p = (y * e.width) * 4)
    (fun y => (List.range e.width).flatMap fun x => G (x, y)) e.height
    (fun y s hy hi => hrow y s hy hi)
    e.height 0 s0 (by omega) (by simpa using h0)
  rw [← List.range_eq_range'] at this
  exact this.2

theorem writeChaosPixel_p (e : CMEnv) (matrix : Nat → Int) (T : Int → Int) (y x : Nat)
    (s : ScanState) : (writeChaosPixel e matrix T y x s).1.p = s.p + 4 := rfl

theorem chaosStatsPixel_p (e : CMEnv) (matrix : Nat → Int) (T : Int → Int) (y x : Nat)
    (s : ScanState) : (chaosStatsPixel e matrix T y x s).1.p = s.p + 4 := rfl

/-- The alpha operands of the pixel body: with `p` at pixel `(x, y)`, `p[3]` is
`A(x,y)` and, for `x > 0`, `p[-1]` is `A(x-1,y)`. -/
theorem alpha_operands (e : CMEnv) (x y p : Nat) (hp : p = (x + y * e.width) * 4) :
    (if x > 0 then toU8 (e.rgba (p - 1) - e.rgba (p + 3)) else toU8 (255 - e.rgba (p + 3)))
      = alphaResidualLeftMinusCur e (x, y) := by
  subst hp
  unfold alphaResidualLeftMinusCur alphaAt
  by_cases hx : x > 0
  · have h1 : (x + y * e.width) * 4 - 1 = (x - 1 + y * e.width) * 4 + 3 := by omega
    simp only [hx, ↓reduceIte, h1]
  · have h0 : x = 0 := by omega
    subst h0
    simp

/-- Alpha symbols that `writeChaos` writes in its scanline loops. -/
theorem writeChaosPixels_alpha (e : CMEnv) (matrix : Nat → Int) (tbl : ChaosTableId) :
    (writeChaosPixels e matrix tbl).filterMap (fun ev => (residualOf ev).bind alphaSymOf)
      = (encodedPixels e).map (alphaResidualLeftMinusCur e) := by
  unfold writeChaosPixels
  rw [scanPass_proj e (fun y x s => writeChaosPixel e matrix (chaosTableOf e tbl) y x s) _
    (fun xy => if isEncoded e xy then [alphaResidualLeftMinusCur e xy] else [])
    (fun y x s => writeChaosPixel_p e matrix _ y x s) _ _ rfl]
  · rw [flatMap_ite_singleton]; rfl
  · intro x y s hx hy hs
    have ha := alpha_operands e x y s.p hs
    by_cases hxz : x &&& 7 = 0 ∧ y &&& 7 = 0 <;>
      by_cases hf : getFilter e matrix x y = e.UNUSED_FILTER <;>
      by_cases henc : isEncoded e (x, y) <;>
      · have henc' := henc
        simp only [isEncoded] at henc'
        simp [writeChaosPixel, hxz, hf, henc, henc', residualOf, alphaSymOf, ha]

/-- Alpha symbols that `chaosStats` adds to the alpha encoders. -/
theorem chaosStats_alpha (e : CMEnv) (matrix : Nat → Int) :
    (chaosStats e matrix).adds.filterMap alphaSymOf
      = (encodedPixels e).map (alphaResidualLeftMinusCur e) := by
  unfold chaosStats
  simp only
  rw [scanPass_proj e (fun y x s => chaosStatsPixel e matrix _ y x s) _
    (fun xy => if isEncoded e xy then [alphaResidualLeftMinusCur e xy] else [])
    (fun y x s => chaosStatsPixel_p e matrix _ y x s) _ _ rfl]
  · rw [flatMap_ite_singleton]; rfl
  · intro x y s hx hy hs
    have ha := alpha_operands e x y s.p hs
    by_cases henc : isEncoded e (x, y) <;>
      · have henc' := henc
        simp only [isEncoded] at henc'
        simp [chaosStatsPixel, henc, henc', alphaSymOf, ha]

theorem writeChaosTables_residualOf (chaos_levels : Int) :
    (writeChaosTables chaos_levels).filterMap residualOf = [] := by
  unfold writeChaosTables
  induction List.range chaos_levels.toNat with
  | nil => rfl
  | cons a l ih => simpa [List.flatMap_cons, residualOf] using ih

/-- Residual calls of the whole of `writeChaos` are those of its scanline loops. -/
theorem writeChaos_residualOf (e : CMEnv) (matrix : Nat → Int) (chaos_levels : Int)
    (tbl : ChaosTableId) :
    (writeChaos e matrix chaos_levels tbl).filterMap residualOf
      = (writeChaosPixels e matrix tbl).filterMap residualOf := by
  simp [writeChaos, residualOf, List.filterMap_append, writeChaosTables_residualOf]

theorem filterMap_bind {α β γ : Type} (f : α → Option β) (g : β → Option γ) (l : List α) :
    l.filterMap (fun a => (f a).bind g) = (l.filterMap f).filterMap g := by
  rw [List.filterMap_filterMap]

/-- Plane numbers of the residual calls that the pixel body of `writeChaos`
makes: `Y, U, V, A` when the guard holds, none otherwise. -/
theorem writeChaosPixel_planes (e : CMEnv) (matrix : Nat → Int) (T : Int → Int)
    (y x : Nat) (s : ScanState) :
    ((writeChaosPixel e matrix T y x s).2.filterMap residualOf).map (fun r => r.plane)
      = if isEncoded e (x, y) then [0, 1, 2, 3] else [] := by
  by_cases hxz : x &&& 7 = 0 ∧ y &&& 7 = 0 <;>
    by_cases hf : getFilter e matrix x y = e.UNUSED_FILTER <;>
    by_cases henc : isEncoded e (x, y) <;>
    · have henc' := henc
      simp only [isEncoded] at henc'
      simp [writeChaosPixel, hxz, hf, henc, henc', residualOf]

/-- Plane numbers of the residual calls of the scanline loops of `writeChaos`. -/
theorem writeChaosPixels_planes (e : CMEnv) (matrix : Nat → Int) (tbl : ChaosTableId) :
    ((writeChaosPixels e matrix tbl).filterMap residualOf).map (fun r => r.plane)
      = (encodedPixels e).flatMap fun _ => [0, 1, 2, 3] := by
  rw [← List.filterMap_eq_map, List.filterMap_filterMap]
  unfold writeChaosPixels
  rw [scanPass_proj e (fun y x s => writeChaosPixel e matrix (chaosTableOf e tbl) y x s) _
    (fun xy => if isEncoded e xy then [0, 1, 2, 3] else [])
    (fun y x s => writeChaosPixel_p e matrix _ y x s) _ _ rfl]
  · rw [flatMap_ite_list]
    rfl
  · intro x y s _ _ _
    beta_reduce
    rw [← writeChaosPixel_planes e matrix (chaosTableOf e tbl) y x s,
      ← List.filterMap_eq_map, List.filterMap_filterMap]

theorem foldl_count {α : Type} (P : α → Bool) (l : List α) (c : Int) :
    l.foldl (fun count x => if P x then count + 1 else count) c = c + (l.filter P).length := by
  induction l generalizing c with
  | nil => simp
  | cons a l ih =>
      by_cases h : P a
      · simp [List.foldl_cons, List.filter_cons, h, ih]; ring
      · simp [List.foldl_cons, List.filter_cons, h, ih]

/-- The counter `chaos_count` is the number of pixels that pass the guard. -/
theorem chaosCount_eq (e : CMEnv) : chaosCount e = (encodedPixels e).length := by
  unfold chaosCount encodedPixels scanOrder
  have key : ∀ (ys : List Nat) (c : Int),
      ys.foldl
        (fun count y =>
          (List.range e.width).foldl
            (fun count x => if !e.visited x y && !e.hasRGB x y then count + 1 else count)
            count) c
        = c + ((ys.flatMap fun y => (List.range e.width).map fun x => (x, y)).filter
            (isEncoded e)).length := by
    intro ys
    induction ys with
    | nil => intro c; simp
    | cons y ys ih =>
        intro c
        rw [List.foldl_cons, ih, List.flatMap_cons, List.filter_append, List.length_append]
        have := foldl_count (fun x => isEncoded e (x, y)) (List.range e.width) c
        simp only [isEncoded] at this
        rw [this, List.filter_map, List.length_map]
        simp only [Function.comp_def, isEncoded]
        push_cast
        ring
  simpa using key (List.range e.height) 0

/-- C5, as stated, fails: in the 8×8 raster `envAlpha`, pixel `(0,0)` has alpha
255 and pixel `(1,0)` alpha 254.  The second alpha symbol that `writeChaos`
writes, the one of pixel `(1,0)`, is `p[-1] - p[3] = 255 - 254 = 1`, whereas
`A(1,0) − A(0,0)` modulo 256 is 255. -/
theorem C5_counterexample_alpha_sign :
    ((writeChaos envAlpha (fun _ => 0) 1 .CHAOS_TABLE_1).filterMap
        (fun ev => (residualOf ev).bind alphaSymOf)).take 2 = [0, 1] ∧
    ((encodedPixels envAlpha).map (alphaResidualSpec envAlpha)).take 2 = [0, 255] := by
  constructor
  · rw [filterMap_bind, writeChaos_residualOf, ← filterMap_bind, writeChaosPixels_alpha]
    decide
  · decide

/-- C5 (amended): the alpha symbols that `writeChaos` writes, and those that
`chaosStats` adds to the alpha encoders, are, for the encoded pixels in scan
order, `A(x−1,y) − A(x,y)` modulo 256 when `x > 0` and `255 − A(0,y)` when
`x = 0`. -/
theorem C5_alpha_residual (e : CMEnv) (matrix : Nat → Int) (chaos_levels : Int)
    (tbl : ChaosTableId) :
    (writeChaos e matrix chaos_levels tbl).filterMap (fun ev => (residualOf ev).bind alphaSymOf)
      = (encodedPixels e).map (alphaResidualLeftMinusCur e) ∧
    (chaosStats e matrix).adds.filterMap alphaSymOf
      = (encodedPixels e).map (alphaResidualLeftMinusCur e) := by
  constructor
  · rw [filterMap_bind, writeChaos_residualOf, ← filterMap_bind, writeChaosPixels_alpha]
  · exact chaosStats_alpha e matrix

/-- C7, as stated, fails: in `envAllHasRGB` no pixel is LZ-visited and
`hasRGB(x, y)` is true everywhere, so the claim has four residual symbols
written for each of the 64 pixels; `writeChaos` writes none. -/
theorem C7_counterexample_hasRGB_true :
    envAllHasRGB.visited 0 0 = false ∧ envAllHasRGB.hasRGB 0 0 = true ∧
    (writeChaosPixel envAllHasRGB (fun _ => 0xffff) (fun _ => 0) 0 0
        { chaos := fun _ => 0, last := 4, p := 0 }).2.filterMap residualOf = [] ∧
    (writeChaos envAllHasRGB (fun _ => 0xffff) 1 .CHAOS_TABLE_1).filterMap residualOf = [] := by
  refine ⟨rfl, rfl, by decide, ?_⟩
  rw [writeChaos_residualOf]
  have h := writeChaosPixels_planes envAllHasRGB (fun _ => 0xffff) .CHAOS_TABLE_1
  have h2 : (encodedPixels envAllHasRGB).flatMap (fun _ => [0, 1, 2, 3]) = [] := by decide
  rw [h2] at h
  exact List.map_eq_nil_iff.mp h

/-- C7 (amended): `writeChaos` writes the four residual symbols `(Y,U,V,A)` for
pixel `(x,y)` exactly when the pixel is not LZ-visited and `hasRGB(x,y)` is
false; for every other pixel it writes no residual symbol.  Stated for the
pixel body in any loop state, and for the whole pass: the residual symbols
written are four, in plane order, per pixel that passes the guard, in scan
order. -/
theorem C7_residuals_written (e : CMEnv) (matrix : Nat → Int) (chaos_levels : Int)
    (tbl : ChaosTableId) :
    (∀ (T : Int → Int) (x y : Nat) (s : ScanState),
      ((writeChaosPixel e matrix T y x s).2.filterMap residualOf).map (fun r => r.plane)
        = if e.visited x y = false ∧ e.hasRGB x y = false then [0, 1, 2, 3] else []) ∧
    ((writeChaos e matrix chaos_levels tbl).filterMap residualOf).map (fun r => r.plane)
      = ((scanOrder e).filter fun xy => !e.visited xy.1 xy.2 && !e.hasRGB xy.1 xy.2).flatMap
          fun _ => [0, 1, 2, 3] := by
  constructor
  · intro T x y s
    rw [writeChaosPixel_planes]
    simp [isEncoded]
  · rw [writeChaos_residualOf, writeChaosPixels_planes]
    rfl

/-- C9: `chaosStats` sets `_chaos_levels` to 8 with table `CHAOS_TABLE_8` if the
number of pixels that are neither mask-covered (`hasRGB`) nor LZ-visited is at
least `CHAOS_THRESH`, and to 1 with table `CHAOS_TABLE_1` otherwise; in both
cases `_chaos_levels − 1` fits the 3-bit field that `writeChaos` writes first. -/
theorem C9_chaos_levels (e : CMEnv) (matrix : Nat → Int) :
    (chaosStats e matrix).chaos_levels
      = (if (((scanOrder e).filter fun xy => !e.visited xy.1 xy.2 && !e.hasRGB xy.1 xy.2).length
              : Int) ≥ e.CHAOS_THRESH then 8 else 1) ∧
    (chaosStats e matrix).chaos_table
      = (if (((scanOrder e).filter fun xy => !e.visited xy.1 xy.2 && !e.hasRGB xy.1 xy.2).length
              : Int) ≥ e.CHAOS_THRESH then .CHAOS_TABLE_8 else .CHAOS_TABLE_1) ∧
    0 ≤ (chaosStats e matrix).chaos_levels - 1 ∧
    (chaosStats e matrix).chaos_levels - 1 < 2 ^ 3 ∧
    (writeChaos e matrix (chaosStats e matrix).chaos_levels
        (chaosStats e matrix).chaos_table).head?
      = some (Emit.bits ((chaosStats e matrix).chaos_levels - 1) 3) := by
  have hc : chaosCount e
      = (((scanOrder e).filter fun xy => !e.visited xy.1 xy.2 && !e.hasRGB xy.1 xy.2).length
          : Int) := chaosCount_eq e
  have hl : (chaosStats e matrix).chaos_levels = (chaosLevels e).1 := rfl
  have ht : (chaosStats e matrix).chaos_table = (chaosLevels e).2 := rfl
  rw [hl, ht]
  unfold chaosLevels
  rw [hc]
  refine ⟨?_, ?_, ?_, ?_, ?_⟩
  · split <;> simp [CHAOS_LEVELS_MAX]
  · split <;> simp
  · split <;> simp [CHAOS_LEVELS_MAX]
  · split <;> simp [CHAOS_LEVELS_MAX]
  · simp [writeChaos]

/-! ## `maskFilters` -/

theorem foldl_nested_pairs {σ : Type} (F : σ → Nat × Nat → σ) (xs ys : List Nat) (m : σ) :
    ys.foldl (fun m y => xs.foldl (fun m x => F m (x, y)) m) m
      = (ys.flatMap fun y => xs.map fun x => (x, y)).foldl F m := by
  induction ys generalizing m with
  | nil => rfl
  | cons y ys ih =>
      rw [List.foldl_cons, ih, List.flatMap_cons, List.foldl_append, List.foldl_map]

/-- After a run of point assignments `m[idx k] = val k`, the entry of any `k`
of the run holds `val k`, provided the assignments that hit the same entry
store the same value. -/
theorem foldl_assign_get {κ : Type} (idx : κ → Nat) (val : κ → Int) (ks : List κ) :
    ∀ (m0 : Nat → Int) (k : κ), (k ∈ ks ∨ m0 (idx k) = val k) →
      (∀ k' ∈ ks, idx k' = idx k → val k' = val k) →
      (ks.foldl (fun m k => fun i => if i = idx k then val k else m i) m0) (idx k) = val k := by
  induction ks with
  | nil =>
      intro m0 k h _
      rcases h with h | h
      · cases h
      · simpa using h
  | cons a t ih =>
      intro m0 k h hinj
      rw [List.foldl_cons]
      apply ih
      · by_cases hak : idx k = idx a
        · right
          simp only [hak, ↓reduceIte]
          exact hinj a (List.mem_cons_self a t) hak.symm
        · rcases h with h | h
          · rcases List.mem_cons.mp h with h | h
            · exact absurd (by rw [h]) hak
            · exact Or.inl h
          · right
            simp only [hak, ↓reduceIte]
            exact h
      · intro k' hk'
        exact hinj k' (List.mem_cons_of_mem a hk')

theorem mem_zoneStarts (n x : Nat) : x ∈ zoneStarts n ↔ ∃ k, k < (n + 7) / 8 ∧ x = k * 8 := by
  unfold zoneStarts
  simp only [List.mem_map, List.mem_range]
  constructor
  · rintro ⟨k, hk, rfl⟩; exact ⟨k, hk, rfl⟩
  · rintro ⟨k, hk, rfl⟩; exact ⟨k, hk, rfl⟩

theorem maskFiltersScan_iff (e : CMEnv) (x y : Nat) :
    maskFiltersScan e x y = true ↔ zoneMaskCovered e x y := by
  unfold maskFiltersScan zoneMaskCovered
  simp only [List.all_eq_true, List.mem_range]
  exact ⟨fun h ii jj hi hj => h ii hi jj hj, fun h ii hi jj hj => h ii jj hi hj⟩

theorem maskFiltersOn_iff (e : CMEnv) (x y : Nat) :
    maskFiltersOn e x y = true ↔ (zoneMaskCovered e x y ∨ lzCoversZone e x y) := by
  unfold maskFiltersOn lzCoversZone
  rw [← maskFiltersScan_iff]
  rcases hfe : e.findExtent x y with _ | ⟨w, h⟩
  · simp
  · by_cases hwh : w < FILTER_ZONE_SIZE ∨ h < FILTER_ZONE_SIZE
    · simp only [hwh, ↓reduceIte]
      constructor
      · exact Or.inl
      · rintro (hs | ⟨w', h', heq, h8⟩)
        · exact hs
        · simp only [Option.some.injEq, Prod.mk.injEq] at heq
          obtain ⟨rfl, rfl⟩ := heq
          unfold FILTER_ZONE_SIZE at hwh
          omega
    · simp only [hwh, ↓reduceIte, true_iff]
      right
      refine ⟨w, h, rfl, ?_⟩
      unfold FILTER_ZONE_SIZE at hwh
      omega

/-- The assignment that `maskFilters` makes for the zone starting at `k`. -/
theorem maskFilters_eq_foldl (e : CMEnv) (m0 : Nat → Int) :
    maskFilters e m0
      = ((zoneStarts e.height).flatMap fun y => (zoneStarts e.width).map fun x => (x, y)).foldl
          (fun (m : Nat → Int) (k : Nat × Nat) => fun i =>
            if i = (fun k : Nat × Nat => (k.1 >>> 3) + (k.2 >>> 3) * e.w) k then
              (fun k : Nat × Nat =>
                if maskFiltersOn e k.1 k.2 then e.UNUSED_FILTER else e.TODO_FILTER) k
            else m i) m0 := by
  rw [← foldl_nested_pairs]
  unfold maskFilters
  congr 1
  funext m y
  congr 1
  funext m x
  by_cases h : maskFiltersOn e x y = true <;> simp only [h, ↓reduceIte] <;> rfl

/-- Entry of the zone `(zx, zy)` after `maskFilters`. -/
theorem maskFilters_get (e : CMEnv) (m0 : Nat → Int) (zx zy : Nat)
    (hw : e.width = 8 * e.w) (hzx : zx < e.w) (hzy : 8 * zy < e.height) :
    getFilter e (maskFilters e m0) (8 * zx) (8 * zy)
      = if maskFiltersOn e (8 * zx) (8 * zy) then e.UNUSED_FILTER else e.TODO_FILTER := by
  rw [maskFilters_eq_foldl]
  unfold getFilter
  have hsh : ∀ k : Nat, (8 * k) >>> 3 = k := by
    intro k; rw [Nat.shiftRight_eq_div_pow]; omega
  have := foldl_assign_get (fun k : Nat × Nat => (k.1 >>> 3) + (k.2 >>> 3) * e.w)
    (fun k => if maskFiltersOn e k.1 k.2 then e.UNUSED_FILTER else e.TODO_FILTER)
    ((zoneStarts e.height).flatMap fun y => (zoneStarts e.width).map fun x => (x, y))
    m0 (8 * zx, 8 * zy)
    (Or.inl (by
      simp only [List.mem_flatMap, List.mem_map, mem_zoneStarts, Prod.mk.injEq]
      exact ⟨8 * zy, ⟨zy, by omega, by omega⟩, 8 * zx, ⟨zx, by omega, by omega⟩, rfl, rfl⟩))
    (by
      intro k' hk' hidx
      simp only [List.mem_flatMap, List.mem_map, mem_zoneStarts] at hk'
      obtain ⟨y', ⟨b, _, rfl⟩, x', ⟨a, ha, rfl⟩, rfl⟩ := hk'
      have ha' : a < e.w := by omega
      simp only [Nat.mul_comm _ 8, hsh] at hidx
      have h1 : (a + b * e.w) % e.w = (zx + zy * e.w) % e.w := by rw [hidx]
      rw [Nat.add_mul_mod_self_right, Nat.add_mul_mod_self_right, Nat.mod_eq_of_lt ha',
        Nat.mod_eq_of_lt hzx] at h1
      subst h1
      have h2 : b * e.w = zy * e.w := by omega
      have h3 : b = zy := Nat.eq_of_mul_eq_mul_right (by omega) h2
      subst h3
      simp only [Nat.mul_comm _ 8])
  simpa [FILTER_ZONE_SIZE_SHIFT, hsh] using this

/-- C8: after `maskFilters`, the filter of a zone is `UNUSED_FILTER` if and only
if every pixel of the 8×8 zone is mask-covered or `findExtent` at the zone's
top-left reports an LZ match with `w ≥ 8` and `h ≥ 8`; every other zone is set
to `TODO_FILTER`.  The zone grid is the one `init` sets up (`width = 8·_w`),
and the two sentinels are distinct. -/
theorem C8_maskFilters (e : CMEnv) (m0 : Nat → Int) (zx zy : Nat)
    (hw : e.width = 8 * e.w) (hzx : zx < e.w) (hzy : 8 * zy < e.height)
    (hne : e.UNUSED_FILTER ≠ e.TODO_FILTER) :
    (getFilter e (maskFilters e m0) (8 * zx) (8 * zy) = e.UNUSED_FILTER ↔
      (zoneMaskCovered e (8 * zx) (8 * zy) ∨ lzCoversZone e (8 * zx) (8 * zy))) ∧
    (getFilter e (maskFilters e m0) (8 * zx) (8 * zy) ≠ e.UNUSED_FILTER →
      getFilter e (maskFilters e m0) (8 * zx) (8 * zy) = e.TODO_FILTER) := by
  rw [maskFilters_get e m0 zx zy hw hzx hzy, ← maskFiltersOn_iff]
  by_cases h : maskFiltersOn e (8 * zx) (8 * zy) = true
  · simp [h]
  · simp [h, hne.symm]

/-- Witness for C8: in the two-zone writer `envTwoZones` the right zone
`(zx, zy) = (1, 0)` holds a pixel that is not mask-covered. -/
theorem C8_maskFilters_witness :
    (getFilter envTwoZones (maskFilters envTwoZones fun _ => 7) (8 * 1) (8 * 0)
        = envTwoZones.UNUSED_FILTER ↔
      (zoneMaskCovered envTwoZones (8 * 1) (8 * 0) ∨ lzCoversZone envTwoZones (8 * 1) (8 * 0))) ∧
    (getFilter envTwoZones (maskFilters envTwoZones fun _ => 7) (8 * 1) (8 * 0)
        ≠ envTwoZones.UNUSED_FILTER →
      getFilter envTwoZones (maskFilters envTwoZones fun _ => 7) (8 * 1) (8 * 0)
        = envTwoZones.TODO_FILTER) :=
  C8_maskFilters envTwoZones (fun _ => 7) 1 0 (by decide) (by decide) (by decide) (by decide)

/-! ## The chaos table -/

set_option maxRecDepth 100000 in
theorem CHAOS_TABLE_steps : ∀ sum < 512, CHAOS_TABLE sum =
    (if sum < 1 then 0 else if sum < 2 then 1 else if sum < 4 then 2 else if sum < 8 then 3
     else if sum < 16 then 4 else if sum < 32 then 5 else if sum < 64 then 6 else 7) := by
  decide

set_option maxRecDepth 100000 in
theorem CHAOS_TABLE_adjacent : ∀ sum < 511, CHAOS_TABLE sum ≤ CHAOS_TABLE (sum + 1) := by
  decide

theorem log2_of_range (s k : Nat) (hk : k ≠ 0) (h1 : 2 ^ k ≤ s) (h2 : s < 2 ^ (k + 1)) :
    Nat.log 2 s = k :=
  (Nat.log_eq_iff (Or.inl hk)).2 ⟨h1, h2⟩

/-- C10, as stated, fails: `CHAOS_TABLE[2]` is 2, whereas `⌈log2(2)⌉ = 1` and
`CalculateChaos(2) = BSR32(1) + 1 = 1`. -/
theorem C10_counterexample_sum_two :
    CHAOS_TABLE 2 = 2 ∧ chaosQuantSpec 2 = 1 ∧ CalculateChaos 2 = 1 := by
  refine ⟨by decide, ?_, by decide⟩
  simp [chaosQuantSpec, Nat.clog]

/-- C10 (amended): for every `sum` in `[0,512)`, `CHAOS_TABLE[sum]` equals 0 when
`sum = 0` and `min(7, ⌊log2(sum)⌋ + 1)` otherwise; the table is non-decreasing
in `sum`. -/
theorem C10_chaos_table (sum : Nat) (h : sum < 512) :
    CHAOS_TABLE sum = (if sum = 0 then 0 else min 7 (Nat.log 2 sum + 1)) ∧
    ∀ a, a ≤ sum → CHAOS_TABLE a ≤ CHAOS_TABLE sum := by
  constructor
  · rw [CHAOS_TABLE_steps sum h]
    by_cases h0 : sum = 0
    · simp [h0]
    · simp only [h0, ↓reduceIte]
      by_cases c1 : sum < 2
      · have : sum = 1 := by omega
        subst this
        simp
      by_cases c2 : sum < 4
      · rw [log2_of_range sum 1 (by norm_num) (by norm_num; omega) (by norm_num; omega)]
        simp [c1, c2]; omega
      by_cases c3 : sum < 8
      · rw [log2_of_range sum 2 (by norm_num) (by norm_num; omega) (by norm_num; omega)]
        simp [c1, c2, c3]; omega
      by_cases c4 : sum < 16
      · rw [log2_of_range sum 3 (by norm_num) (by norm_num; omega) (by norm_num; omega)]
        simp [c1, c2, c3, c4]; omega
      by_cases c5 : sum < 32
      · rw [log2_of_range sum 4 (by norm_num) (by norm_num; omega) (by norm_num; omega)]
        simp [c1, c2, c3, c4, c5]; omega
      by_cases c6 : sum < 64
      · rw [log2_of_range sum 5 (by norm_num) (by norm_num; omega) (by norm_num; omega)]
        simp [c1, c2, c3, c4, c5, c6]; omega
      by_cases c7 : sum < 128
      · rw [log2_of_range sum 6 (by norm_num) (by norm_num; omega) (by norm_num; omega)]
        simp [c1, c2, c3, c4, c5, c6]; omega
      by_cases c8 : sum < 256
      · rw [log2_of_range sum 7 (by norm_num) (by norm_num; omega) (by norm_num; omega)]
        simp [c1, c2, c3, c4, c5, c6]; omega
      · rw [log2_of_range sum 8 (by norm_num) (by norm_num; omega) (by norm_num; omega)]
        simp [c1, c2, c3, c4, c5, c6]; omega
  · intro a ha
    induction sum, ha using Nat.le_induction with
    | base => exact Nat.le_refl _
    | succ n _ ih =>
        exact Nat.le_trans (ih (by omega)) (CHAOS_TABLE_adjacent n (by omega))

/-- Witness for C10 (amended): `sum = 64`, the first entry clipped to 7. -/
theorem C10_chaos_table_witness :
    CHAOS_TABLE 64 = (if 64 = 0 then 0 else min 7 (Nat.log 2 64 + 1)) ∧
    ∀ a, a ≤ 64 → CHAOS_TABLE a ≤ CHAOS_TABLE 64 :=
  C10_chaos_table 64 (by decide)

/-! ## `init` -/

theorem land_seven (w : Int) (h : 0 ≤ w) : Int.land w 7 = w % 8 := by
  obtain ⟨n, rfl⟩ := Int.eq_ofNat_of_zero_le h
  show ((n &&& 7 : Nat) : Int) = (n : Int) % 8
  rw [show (7 : Nat) = 2 ^ 3 - 1 from rfl, Nat.and_pow_two_sub_one_eq_mod]
  norm_num

theorem shiftRight_three (w : Int) (h : 0 ≤ w) : w >>> (3 : Nat) = w / 8 := by
  obtain ⟨n, rfl⟩ := Int.eq_ofNat_of_zero_le h
  show ((n >>> 3 : Nat) : Int) = (n : Int) / 8
  rw [Nat.shiftRight_eq_div_pow]
  norm_num

theorem ImageCMWriter_init_eq (width height : Int) :
    ImageCMWriter_init width height
      = if width < 8 ∨ height < 8 ∨ width % 8 ≠ 0 ∨ height % 8 ≠ 0 then (.WE_BAD_DIMS, none)
        else (.WE_OK, some
          { _width := width, _height := height, _w := width / 8, _h := height / 8,
            _chaos_size := (width + 1) * COLOR_PLANES }) := by
  unfold ImageCMWriter_init FILTER_ZONE_SIZE FILTER_ZONE_SIZE_MASK FILTER_ZONE_SIZE_SHIFT
  by_cases h1 : width < 8 ∨ height < 8
  · rw [if_pos h1, if_pos (by omega)]
  · have hw : 0 ≤ width := by omega
    have hh : 0 ≤ height := by omega
    rw [if_neg h1, land_seven width hw, land_seven height hh, shiftRight_three width hw,
      shiftRight_three height hh]
    by_cases h2 : width % 8 ≠ 0 ∨ height % 8 ≠ 0
    · rw [if_pos h2, if_pos (by omega)]
    · rw [if_neg h2, if_neg (by omega)]

theorem ImageFilterWriter_init_eq (width height : Int) :
    ImageFilterWriter_init width height
      = if width < 8 ∨ height < 8 ∨ width % 8 ≠ 0 ∨ height % 8 ≠ 0 then (false, none)
        else (true, some (width / 8, height / 8)) := by
  unfold ImageFilterWriter_init FILTER_ZONE_SIZE
  by_cases h1 : width < 8 ∨ height < 8
  · rw [if_pos h1, if_pos (by omega)]
  · have hw : 0 ≤ width := by omega
    have hh : 0 ≤ height := by omega
    rw [if_neg h1, Int.tmod_eq_emod hw (by norm_num), Int.tmod_eq_emod hh (by norm_num),
      Int.tdiv_eq_ediv hw (by norm_num), Int.tdiv_eq_ediv hh (by norm_num)]
    by_cases h2 : width % 8 ≠ 0 ∨ height % 8 ≠ 0
    · rw [if_pos h2, if_pos (by omega)]
    · rw [if_neg h2, if_neg (by omega)]

/-- C6: `ImageCMWriter::init(width, height)` returns `WE_BAD_DIMS` if and only if
`width` or `height` is less than 8 or is not a multiple of 8; otherwise it
returns `WE_OK` and sets the zone grid to `(width/8) × (height/8)`.
`ImageFilterWriter::init` accepts exactly the same `(width, height)` pairs, with
the same grid. -/
theorem C6_init (width height : Int) :
    ((ImageCMWriter_init width height).1 = .WE_BAD_DIMS ↔
      (width < 8 ∨ height < 8 ∨ width % 8 ≠ 0 ∨ height % 8 ≠ 0)) ∧
    ((ImageCMWriter_init width height).1 ≠ .WE_BAD_DIMS →
      (ImageCMWriter_init width height).1 = .WE_OK ∧
      ∃ d, (ImageCMWriter_init width height).2 = some d ∧
        d._width = width ∧ d._height = height ∧ d._w = width / 8 ∧ d._h = height / 8) ∧
    ((ImageFilterWriter_init width height).1 = true ↔
      (ImageCMWriter_init width height).1 = .WE_OK) ∧
    ((ImageFilterWriter_init width height).1 = true →
      (ImageFilterWriter_init width height).2 = some (width / 8, height / 8)) := by
  rw [ImageCMWriter_init_eq, ImageFilterWriter_init_eq]
  by_cases h : width < 8 ∨ height < 8 ∨ width % 8 ≠ 0 ∨ height % 8 ≠ 0
  · rw [if_pos h, if_pos h]
    simp [h]
    omega
  · rw [if_neg h, if_neg h]
    simp [h]
    omega

/-! ## Scores, stored residuals, filter symbols -/

/-- C11: for every byte `p`, `chaosScore(p)` and both definitions of `score(p)`
equal `p` if `p < 128` and `256 − p` otherwise, which is the absolute value of
`p` read as a two's-complement signed byte; the result lies in `[0,128]`. -/
theorem C11_score (p : Int) (hp : 0 ≤ p ∧ p ≤ 255) :
    chaosScore p = (if p < 128 then p else 256 - p) ∧
    score p = (if p < 128 then p else 256 - p) ∧
    ImageCMWriter_score p = (if p < 128 then p else 256 - p) ∧
    chaosScore p = |toS8 p| ∧
    0 ≤ chaosScore p ∧ chaosScore p ≤ 128 := by
  unfold chaosScore score ImageCMWriter_score toS8
  refine ⟨rfl, rfl, rfl, ?_, ?_, ?_⟩
  · by_cases h : p < 128
    · rw [if_pos h, abs_of_nonneg (by omega)]; omega
    · rw [if_neg h, abs_of_neg (by omega)]; omega
  · split <;> omega
  · split <;> omega

/-- Witness for C11: the byte 128, whose score is the maximum 128. -/
theorem C11_score_witness :
    chaosScore 128 = (if (128 : Int) < 128 then 128 else 256 - 128) ∧
    score 128 = (if (128 : Int) < 128 then 128 else 256 - 128) ∧
    ImageCMWriter_score 128 = (if (128 : Int) < 128 then 128 else 256 - 128) ∧
    chaosScore 128 = |toS8 128| ∧
    0 ≤ chaosScore 128 ∧ chaosScore 128 ≤ 128 :=
  C11_score 128 (by decide)

/-- The cursor `last` stands at `lastStart + 4·x` when a row loop reaches
column `x`. -/
theorem rowLoop_last {ε : Type} (body : Nat → ScanState → ScanState × List ε)
    (hl : ∀ x s, (body x s).1.last = s.last + COLOR_PLANES) (x : Nat) (s : ScanState) :
    (loopOver body (List.range x) { s with last := COLOR_PLANES }).1.last = 4 + 4 * x := by
  have := loopOver_range' body (fun (_ : List ε) => ([] : List Unit)) rfl (fun _ _ => rfl)
    (fun k (s : ScanState) => s.last = 4 + 4 * k) (fun _ => []) x
    (fun k s _ hi => ⟨by show (body k s).1.last = _; rw [hl, show s.last = _ from hi]
                         unfold COLOR_PLANES; omega, rfl⟩)
    x 0 { s with last := COLOR_PLANES } (by omega) (by rfl)
  rw [← List.range_eq_range'] at this
  simpa using this.1

/-- C12: in `chaosStats` and `writeChaos`, after visiting a pixel that is
mask-covered (`hasRGB`) or LZ-visited, the four stored residuals `(Y,U,V,A)` of
that column in the chaos row buffer are 0; after visiting an encoded pixel they
equal the four residuals just emitted.  The column of pixel `x` is the four
entries at the cursor `last = 4 + 4·x`. -/
theorem C12_stored_residuals (e : CMEnv) (matrix : Nat → Int) (T : Int → Int) (y x : Nat)
    (s : ScanState) :
    stored4 (writeChaosPixel e matrix T y x s).1.chaos s.last
      = (if e.hasRGB x y = true ∨ e.visited x y = true then [0, 0, 0, 0]
         else ((writeChaosPixel e matrix T y x s).2.filterMap residualOf).map fun r => r.sym) ∧
    stored4 (chaosStatsPixel e matrix T y x s).1.chaos s.last
      = (if e.hasRGB x y = true ∨ e.visited x y = true then [0, 0, 0, 0]
         else (chaosStatsPixel e matrix T y x s).2.map fun r => r.sym) ∧
    (loopOver (fun x s => writeChaosPixel e matrix T y x s) (List.range x)
        { s with last := COLOR_PLANES }).1.last = 4 + 4 * x ∧
    (loopOver (fun x s => chaosStatsPixel e matrix T y x s) (List.range x)
        { s with last := COLOR_PLANES }).1.last = 4 + 4 * x := by
  refine ⟨?_, ?_, rowLoop_last _ (fun _ _ => rfl) x s, rowLoop_last _ (fun _ _ => rfl) x s⟩
  · by_cases hv : e.visited x y = true <;> by_cases hm : e.hasRGB x y = true <;>
      by_cases hxz : x &&& 7 = 0 ∧ y &&& 7 = 0 <;>
      by_cases hf : getFilter e matrix x y = e.UNUSED_FILTER <;>
      simp [writeChaosPixel, hv, hm, hxz, hf, residualOf, stored4, setByte]
  · by_cases hv : e.visited x y = true <;> by_cases hm : e.hasRGB x y = true <;>
      simp [chaosStatsPixel, hv, hm, stored4, setByte]

/-! ## Filter symbols of `writeChaos` against `applyFilters` -/

theorem zoneStarts_succ (n : Nat) :
    zoneStarts (n + 1) = zoneStarts n ++ (if n &&& 7 = 0 then [n] else []) := by
  unfold zoneStarts
  have hand : n &&& 7 = n % 8 := Nat.and_pow_two_sub_one_eq_mod n 3
  rw [hand]
  by_cases h : n % 8 = 0
  · have h1 : (n + 1 + 7) / 8 = (n + 7) / 8 + 1 := by omega
    have h2 : (n + 7) / 8 * 8 = n := by omega
    rw [h1, List.range_succ, List.map_append, if_pos h]
    simp [h2]
  · have h1 : (n + 1 + 7) / 8 = (n + 7) / 8 := by omega
    rw [h1, if_neg h, List.append_nil]

/-- The iterations of `for (x = 0; x < n; ++x)` with `(x & 7) == 0` are those of
`for (x = 0; x < n; x += 8)`. -/
theorem range_flatMap_zone {β : Type} (f : Nat → List β) (n : Nat) :
    ((List.range n).flatMap fun x => if x &&& 7 = 0 then f x else [])
      = (zoneStarts n).flatMap f := by
  induction n with
  | zero => rfl
  | succ n ih =>
      rw [List.range_succ, List.flatMap_append, ih, zoneStarts_succ, List.flatMap_append]
      by_cases h : n &&& 7 = 0 <;> simp [h]

theorem loopOver_unit {ε : Type} (body : Nat → Unit → Unit × List ε) (xs : List Nat) :
    (loopOver body xs ()).2 = xs.flatMap fun x => (body x ()).2 := by
  induction xs with
  | nil => rfl
  | cons a t ih => simp only [loopOver, List.flatMap_cons, ih]

/-- The filter symbols of a zone, as `writeChaos` writes them at its top-left
pixel. -/
theorem writeChaosPixel_filterSyms {β : Type} (f : Emit → Option β)
    (hres : ∀ r, f (Emit.residual r) = none)
    (e : CMEnv) (matrix : Nat → Int) (T : Int → Int) (y x : Nat) (s : ScanState) :
    (writeChaosPixel e matrix T y x s).2.filterMap f
      = if x &&& 7 = 0 then
          (if y &&& 7 = 0 then
            (if getFilter e matrix x y ≠ e.UNUSED_FILTER then
              [Emit.sf (toU8 (getFilter e matrix x y >>> 8)),
               Emit.cf (toU8 (getFilter e matrix x y))].filterMap f
             else [])
           else [])
        else [] := by
  by_cases hx : x &&& 7 = 0 <;> by_cases hy : y &&& 7 = 0 <;>
    by_cases hf : getFilter e matrix x y = e.UNUSED_FILTER <;>
    by_cases henc : (!e.visited x y && !e.hasRGB x y) = true <;>
    simp only [writeChaosPixel, hx, hy, hf, henc, and_self, and_true, and_false, true_and,
      false_and, ne_eq, not_true_eq_false, not_false_eq_true, ↓reduceIte, List.nil_append,
      List.append_nil, List.cons_append, List.filterMap_cons, List.filterMap_nil, hres,
      Bool.false_eq_true]

/-- Projection of the output of `writeChaos` that drops residuals, header and
tables: what remains comes from the zones in zone order. -/
theorem writeChaos_filterSyms {β : Type} (f : Emit → Option β)
    (hres : ∀ r, f (Emit.residual r) = none) (hbits : ∀ c l, f (Emit.bits c l) = none)
    (htab : ∀ p l, f (Emit.tables p l) = none)
    (e : CMEnv) (matrix : Nat → Int) (chaos_levels : Int) (tbl : ChaosTableId) :
    (writeChaos e matrix chaos_levels tbl).filterMap f
      = (zoneStarts e.height).flatMap fun y => (zoneStarts e.width).flatMap fun x =>
          if getFilter e matrix x y ≠ e.UNUSED_FILTER then
            [Emit.sf (toU8 (getFilter e matrix x y >>> 8)),
             Emit.cf (toU8 (getFilter e matrix x y))].filterMap f
          else [] := by
  have htables : (writeChaosTables chaos_levels).filterMap f = [] := by
    unfold writeChaosTables
    induction List.range chaos_levels.toNat with
    | nil => rfl
    | cons a l ih => simpa [List.flatMap_cons, htab] using ih
  have hpix : (writeChaosPixels e matrix tbl).filterMap f
      = (scanOrder e).flatMap fun xy =>
          if xy.1 &&& 7 = 0 then
            (if xy.2 &&& 7 = 0 then
              (if getFilter e matrix xy.1 xy.2 ≠ e.UNUSED_FILTER then
                [Emit.sf (toU8 (getFilter e matrix xy.1 xy.2 >>> 8)),
                 Emit.cf (toU8 (getFilter e matrix xy.1 xy.2))].filterMap f
               else [])
             else [])
          else [] := by
    unfold writeChaosPixels
    exact scanPass_proj e (fun y x s => writeChaosPixel e matrix (chaosTableOf e tbl) y x s) f _
      (fun y x s => writeChaosPixel_p e matrix _ y x s)
      (fun x y s _ _ _ => writeChaosPixel_filterSyms f hres e matrix _ y x s) _ rfl
  simp only [writeChaos, List.filterMap_cons, hbits, List.filterMap_append, htables,
    List.nil_append, hpix]
  rw [scanOrder_flatMap]
  simp only [range_flatMap_zone]
  rw [← range_flatMap_zone]
  congr 1
  funext y
  by_cases hy : y &&& 7 = 0
  · simp [hy]
  · simp [hy]

theorem applyFilters_eq (e : CMEnv) (matrix : Nat → Int) :
    applyFilters e matrix
      = (zoneStarts e.height).flatMap fun y => (zoneStarts e.width).flatMap fun x =>
          if getFilter e matrix x y ≠ e.UNUSED_FILTER then
            [HistAdd.sf_hist (toU8 (getFilter e matrix x y >>> 8)),
             HistAdd.cf_hist (toU8 (getFilter e matrix x y))]
          else [] := by
  unfold applyFilters
  rw [loopOver_unit]
  congr 1
  funext y
  rw [loopOver_unit]
  congr 1
  funext x
  by_cases hf : getFilter e matrix x y = e.UNUSED_FILTER <;> simp [hf]

theorem filterMap_flatMap1 {α β γ : Type} (f : α → Option β) (xs : List γ)
    (g : γ → List α) :
    (xs.flatMap g).filterMap f = xs.flatMap fun x => (g x).filterMap f := by
  induction xs with
  | nil => rfl
  | cons x xs ih => rw [List.flatMap_cons, List.filterMap_append, ih, List.flatMap_cons]

theorem filterMap_flatMap2 {α β : Type} (f : α → Option β) (ys xs : List Nat)
    (g : Nat → Nat → List α) :
    (ys.flatMap fun y => xs.flatMap fun x => g x y).filterMap f
      = ys.flatMap fun y => xs.flatMap fun x => (g x y).filterMap f := by
  rw [filterMap_flatMap1]
  congr 1
  funext y
  rw [filterMap_flatMap1]

/-- C13: `writeChaos` writes one `sf` symbol followed by one `cf` symbol for each
zone whose filter is not `UNUSED_FILTER`, at the zone's top-left pixel and
before that pixel's residual symbols, and writes no filter symbol for unused
zones; so the `sf` (`cf`) symbols written are, in order, the symbols added to
`sf_hist` (`cf_hist`) in `applyFilters`, and for every value `v` the number
written with value `v` equals the count added for `v`. -/
theorem C13_filter_symbols (e : CMEnv) (matrix : Nat → Int) (chaos_levels : Int)
    (tbl : ChaosTableId) :
    (∀ (T : Int → Int) (x y : Nat) (s : ScanState),
      (writeChaosPixel e matrix T y x s).2
        = (if (x &&& 7 = 0 ∧ y &&& 7 = 0) ∧ getFilter e matrix x y ≠ e.UNUSED_FILTER then
            [Emit.sf (toU8 (getFilter e matrix x y >>> 8)),
             Emit.cf (toU8 (getFilter e matrix x y))]
           else [])
          ++ ((writeChaosPixel e matrix T y x s).2.filterMap residualOf).map Emit.residual) ∧
    (writeChaos e matrix chaos_levels tbl).filter isFilterSym
      = ((zoneStarts e.height).flatMap fun y => (zoneStarts e.width).flatMap fun x =>
          if getFilter e matrix x y ≠ e.UNUSED_FILTER then
            [Emit.sf (toU8 (getFilter e matrix x y >>> 8)),
             Emit.cf (toU8 (getFilter e matrix x y))]
          else []) ∧
    (writeChaos e matrix chaos_levels tbl).filterMap sfSymOf
      = (applyFilters e matrix).filterMap sfHistOf ∧
    (writeChaos e matrix chaos_levels tbl).filterMap cfSymOf
      = (applyFilters e matrix).filterMap cfHistOf ∧
    (∀ v : Int,
      ((writeChaos e matrix chaos_levels tbl).filterMap sfSymOf).count v
        = ((applyFilters e matrix).filterMap sfHistOf).count v ∧
      ((writeChaos e matrix chaos_levels tbl).filterMap cfSymOf).count v
        = ((applyFilters e matrix).filterMap cfHistOf).count v) := by
  have hsf : (writeChaos e matrix chaos_levels tbl).filterMap sfSymOf
      = (applyFilters e matrix).filterMap sfHistOf := by
    rw [writeChaos_filterSyms sfSymOf (fun _ => rfl) (fun _ _ => rfl) (fun _ _ => rfl),
      applyFilters_eq, filterMap_flatMap2]
    congr 1; funext y; congr 1; funext x
    by_cases hf : getFilter e matrix x y = e.UNUSED_FILTER <;> simp [hf, sfSymOf, sfHistOf]
  have hcf : (writeChaos e matrix chaos_levels tbl).filterMap cfSymOf
      = (applyFilters e matrix).filterMap cfHistOf := by
    rw [writeChaos_filterSyms cfSymOf (fun _ => rfl) (fun _ _ => rfl) (fun _ _ => rfl),
      applyFilters_eq, filterMap_flatMap2]
    congr 1; funext y; congr 1; funext x
    by_cases hf : getFilter e matrix x y = e.UNUSED_FILTER <;> simp [hf, cfSymOf, cfHistOf]
  refine ⟨?_, ?_, hsf, hcf, fun v => ⟨by rw [hsf], by rw [hcf]⟩⟩
  · intro T x y s
    by_cases hx : x &&& 7 = 0 <;> by_cases hy : y &&& 7 = 0 <;>
      by_cases hf : getFilter e matrix x y = e.UNUSED_FILTER <;>
      by_cases henc : (!e.visited x y && !e.hasRGB x y) = true <;>
      simp [writeChaosPixel, hx, hy, hf, henc, residualOf, List.filterMap_append]
  · have h := writeChaos_filterSyms (fun ev => if isFilterSym ev then some ev else none)
      (fun _ => rfl) (fun _ _ => rfl) (fun _ _ => rfl) e matrix chaos_levels tbl
    rw [← List.filterMap_eq_filter]
    rw [show (Option.guard fun x => isFilterSym x = true)
        = (fun ev => if isFilterSym ev then some ev else none) from by
          funext ev; simp [Option.guard]]
    rw [h]
    congr 1

/-! ## `EntropyEncoder`: run symbols and histogram totals -/

namespace EntropyEncoder

theorem pushAll_zeros (Z n : Nat) (s : EntropyEncoder) (h : s.zeroRun + n < 2 ^ 32) :
    pushAll Z (List.replicate n 0) s = { s with zeroRun := s.zeroRun + n } := by
  induction n generalizing s with
  | zero => rfl
  | succ n ih =>
      have h1 : u32inc s.zeroRun = s.zeroRun + 1 := by
        unfold u32inc; exact Nat.mod_eq_of_lt (by omega)
      rw [List.replicate_succ, pushAll, List.foldl_cons]
      have hp : push Z 0 s = { s with zeroRun := s.zeroRun + 1 } := by
        simp [push, h1]
      rw [hp]
      have := ih { s with zeroRun := s.zeroRun + 1 } (by simp only; omega)
      rw [pushAll] at this
      rw [this]
      simp only [Nat.add_assoc, Nat.add_comm 1 n]

theorem pushAll_append (Z : Nat) (l1 l2 : List Nat) (s : EntropyEncoder) :
    pushAll Z (l1 ++ l2) s = pushAll Z l2 (pushAll Z l1 s) := by
  unfold pushAll
  rw [List.foldl_append]

theorem sum_histInc (h : Nat → Nat) (k n : Nat) (hk : k < n) (hw : h k + 1 < 2 ^ 32) :
    ((List.range n).map (histInc h k)).sum = ((List.range n).map h).sum + 1 := by
  induction n with
  | zero => omega
  | succ n ih =>
      rw [List.range_succ, List.map_append, List.map_append, List.sum_append, List.sum_append]
      by_cases hkn : k = n
      · subst hkn
        have hsame : (List.range k).map (histInc h k) = (List.range k).map h := by
          apply List.map_congr_left
          intro a ha
          have : a ≠ k := by have := List.mem_range.mp ha; omega
          simp [histInc, this]
        rw [hsame]
        simp [histInc, u32inc, Nat.mod_eq_of_lt hw]
        omega
      · have hlt : k < n := by omega
        rw [ih hlt]
        have : n ≠ k := fun h => hkn h.symm
        simp [histInc, this]
        omega

theorem le_sum_range (h : Nat → Nat) (k n : Nat) (hk : k < n) :
    h k ≤ ((List.range n).map h).sum :=
  List.single_le_sum (fun _ _ => Nat.zero_le _) _
    (List.mem_map.mpr ⟨k, List.mem_range.mpr hk, rfl⟩)

theorem total_incBZ (Z : Nat) (s : EntropyEncoder) (k : Nat) (hk : k < BZ_SYMS Z)
    (hw : total Z s + 1 < 2 ^ 32) (a : Nat → Nat) (z : Nat) (ha : a = s.histAZ) :
    total Z { histBZ := histInc s.histBZ k, histAZ := a, zeroRun := z } = total Z s + 1 := by
  subst ha
  unfold total
  have hle := le_sum_range s.histBZ k _ hk
  unfold total at hw
  simp only
  rw [sum_histInc s.histBZ k _ hk (by omega)]
  omega

theorem total_incAZ (Z : Nat) (s : EntropyEncoder) (k : Nat) (hk : k < AZ_SYMS)
    (hw : total Z s + 1 < 2 ^ 32) (z : Nat) :
    total Z { histBZ := s.histBZ, histAZ := histInc s.histAZ k, zeroRun := z }
      = total Z s + 1 := by
  unfold total
  have hle := le_sum_range s.histAZ k _ hk
  unfold total at hw
  simp only
  rw [sum_histInc s.histAZ k _ hk (by omega)]
  omega

theorem runIndex_lt (Z r : Nat) :
    (if r < Z then 255 + r else BZ_SYMS Z - 1) < BZ_SYMS Z := by
  unfold BZ_SYMS
  split <;> omega

end EntropyEncoder

theorem zeroRuns_cons_nonzero (a : Nat) (t : List Nat) (ha : a ≠ 0) :
    zeroRuns (a :: t) = zeroRuns t := by
  cases t with
  | nil => simp [zeroRuns, ha]
  | cons b t => simp [zeroRuns, ha]

theorem zeroRuns_zero_nonzero (a : Nat) (t : List Nat) (ha : a ≠ 0) :
    zeroRuns (0 :: a :: t) = 1 + zeroRuns t := by
  rw [zeroRuns, zeroRuns_cons_nonzero a t ha]
  simp [ha]

theorem zeroRuns_zero_zero (t : List Nat) : zeroRuns (0 :: 0 :: t) = zeroRuns (0 :: t) := by
  rw [zeroRuns]
  simp

namespace EntropyEncoder

/-- Histogram total after a sequence and `endSymbols`, from any state: a run
that is pending at the start is continued by leading zeros of the sequence. -/
theorem total_pushAll (Z : Nat) (l : List Nat) :
    ∀ s : EntropyEncoder, (∀ b ∈ l, b < 256) → total Z s + s.zeroRun + l.length < 2 ^ 32 →
      total Z (endSymbols Z (pushAll Z l s))
        = total Z s + nonZeroCount l
          + zeroRuns ((if s.zeroRun > 0 then [0] else []) ++ l) := by
  induction l with
  | nil =>
      intro s _ hb
      simp only [List.length_nil, Nat.add_zero] at hb
      simp only [pushAll, List.foldl_nil, nonZeroCount, List.countP_nil, Nat.add_zero,
        List.append_nil]
      unfold endSymbols
      by_cases hz : s.zeroRun > 0
      · simp only [hz, ↓reduceIte]
        have hidx := runIndex_lt Z s.zeroRun
        by_cases hr : s.zeroRun < Z
        · simp only [hr, ↓reduceIte] at hidx ⊢
          rw [total_incBZ Z s _ hidx (by omega) _ _ rfl]
          simp [zeroRuns]
        · simp only [hr, ↓reduceIte] at hidx ⊢
          rw [total_incBZ Z s _ hidx (by omega) _ _ rfl]
          simp [zeroRuns]
      · simp [hz, zeroRuns]
  | cons a t ih =>
      intro s hbytes hb
      simp only [List.length_cons] at hb
      have hat : a < 256 := hbytes a (List.mem_cons_self a t)
      have hbt : ∀ b ∈ t, b < 256 := fun b hb' => hbytes b (List.mem_cons_of_mem a hb')
      have hstep : pushAll Z (a :: t) s = pushAll Z t (push Z a s) := rfl
      rw [hstep]
      by_cases ha : a = 0
      · subst ha
        have h1 : u32inc s.zeroRun = s.zeroRun + 1 := by
          unfold u32inc; exact Nat.mod_eq_of_lt (by omega)
        have hp : push Z 0 s = { s with zeroRun := s.zeroRun + 1 } := by
          simp [push, h1]
        rw [hp, ih _ hbt (by simp only [total] at hb ⊢; omega)]
        have ht : total Z { s with zeroRun := s.zeroRun + 1 } = total Z s := rfl
        rw [ht]
        simp only [Nat.succ_pos, gt_iff_lt, ↓reduceIte, Nat.add_one_pos]
        have hnz : nonZeroCount (0 :: t) = nonZeroCount t := by simp [nonZeroCount]
        rw [hnz]
        by_cases hz : s.zeroRun > 0
        · simp only [hz, ↓reduceIte, List.singleton_append, zeroRuns_zero_zero]
        · simp only [hz, ↓reduceIte, List.singleton_append, List.nil_append]
      · have hnz : nonZeroCount (a :: t) = nonZeroCount t + 1 := by simp [nonZeroCount, ha]
        rw [hnz]
        by_cases hz : s.zeroRun > 0
        · have hidx := runIndex_lt Z s.zeroRun
          have hp : push Z a s
              = { histBZ := histInc s.histBZ (if s.zeroRun < Z then 255 + s.zeroRun
                    else BZ_SYMS Z - 1),
                  histAZ := histInc s.histAZ a, zeroRun := 0 } := by
            unfold push
            by_cases hr : s.zeroRun < Z <;> simp [ha, hz, hr]
          have ht1 : total Z { histBZ := histInc s.histBZ (if s.zeroRun < Z then 255 + s.zeroRun
                    else BZ_SYMS Z - 1), histAZ := s.histAZ, zeroRun := 0 } = total Z s + 1 :=
            total_incBZ Z s _ hidx (by omega) _ _ rfl
          have ht2 : total Z (push Z a s) = total Z s + 2 := by
            rw [hp]
            have := total_incAZ Z { histBZ := histInc s.histBZ (if s.zeroRun < Z then
                255 + s.zeroRun else BZ_SYMS Z - 1), histAZ := s.histAZ, zeroRun := 0 } a hat
              (by rw [ht1]; omega) 0
            simp only at this
            rw [this, ht1]
          have hzr : (push Z a s).zeroRun = 0 := by rw [hp]
          rw [ih _ hbt (by rw [ht2, hzr]; omega), ht2, hzr]
          simp only [gt_iff_lt, Nat.lt_irrefl, ↓reduceIte, List.nil_append, hz,
            List.singleton_append, zeroRuns_zero_nonzero a t ha]
          omega
        · have hz0 : s.zeroRun = 0 := by omega
          have hp : push Z a s = { s with histBZ := histInc s.histBZ a } := by
            simp [push, ha, hz0]
          have ht1 : total Z (push Z a s) = total Z s + 1 := by
            rw [hp]
            exact total_incBZ Z s a (by unfold BZ_SYMS; omega) (by omega) _ _ rfl
          have hzr : (push Z a s).zeroRun = 0 := by rw [hp]; exact hz0
          rw [ih _ hbt (by rw [ht1, hzr]; omega), ht1, hzr]
          simp only [gt_iff_lt, Nat.lt_irrefl, ↓reduceIte, List.nil_append, hz,
            zeroRuns_cons_nonzero a t ha]
          omega

theorem total_reset (Z : Nat) : total Z reset = 0 := by
  simp [total, reset]

end EntropyEncoder

/-- C14: in `EntropyEncoder`, a maximal run of `n` consecutive zero residuals
(starting with no run pending, ended by a non-zero byte or by `endSymbols`) is
counted once, as BZ symbol `255 + n` when `1 ≤ n < Z` (symbols
`256 .. 256+Z−2`) and as the escape symbol `256+Z−1` when `n ≥ Z`, where
`Z = FILTER_RLE_SYMS`; a literal residual byte is counted under its own
symbol in `1..255` (in `histAZ` when it ends a run, in `histBZ` otherwise).
The run is shorter than `2^32`, the range of the counter `zeroRun`. -/
theorem C14_zero_run_symbols (Z n sym : Nat) (s : EntropyEncoder)
    (hs : s.zeroRun = 0) (hn : 1 ≤ n ∧ n < 2 ^ 32) (hsym : 1 ≤ sym ∧ sym ≤ 255) :
    EntropyEncoder.pushAll Z (List.replicate n 0 ++ [sym]) s
      = { histBZ := histInc s.histBZ (runSymbol Z n), histAZ := histInc s.histAZ sym,
          zeroRun := 0 } ∧
    EntropyEncoder.endSymbols Z (EntropyEncoder.pushAll Z (List.replicate n 0) s)
      = { histBZ := histInc s.histBZ (runSymbol Z n), histAZ := s.histAZ, zeroRun := 0 } ∧
    EntropyEncoder.push Z sym s
      = { histBZ := histInc s.histBZ sym, histAZ := s.histAZ, zeroRun := 0 } ∧
    runSymbol Z n = (if n < Z then 255 + n else 256 + Z - 1) ∧
    (if n < Z then 256 ≤ runSymbol Z n ∧ runSymbol Z n ≤ 256 + Z - 2
     else runSymbol Z n = 256 + Z - 1) := by
  have hz := EntropyEncoder.pushAll_zeros Z n s (by omega)
  rw [hs, Nat.zero_add] at hz
  have hsym0 : sym ≠ 0 := by omega
  have hn0 : n > 0 := by omega
  refine ⟨?_, ?_, ?_, rfl, ?_⟩
  · rw [EntropyEncoder.pushAll_append, hz]
    show EntropyEncoder.push Z sym _ = _
    unfold EntropyEncoder.push runSymbol EntropyEncoder.BZ_SYMS
    by_cases hr : n < Z <;> simp [hsym0, hn0, hr]
  · rw [hz]
    unfold EntropyEncoder.endSymbols runSymbol EntropyEncoder.BZ_SYMS
    by_cases hr : n < Z <;> simp [hn0, hr]
  · unfold EntropyEncoder.push
    simp [hsym0, hs]
  · unfold runSymbol
    by_cases hr : n < Z
    · simp only [hr, ↓reduceIte]; omega
    · simp only [hr, ↓reduceIte]

/-- Witness for C14: with `Z = 128`, a run of 3 zeros ended by the byte 9, from
the freshly reset encoder. -/
theorem C14_zero_run_symbols_witness :
    EntropyEncoder.pushAll 128 (List.replicate 3 0 ++ [9]) EntropyEncoder.reset
      = { histBZ := histInc EntropyEncoder.reset.histBZ (runSymbol 128 3),
          histAZ := histInc EntropyEncoder.reset.histAZ 9, zeroRun := 0 } ∧
    EntropyEncoder.endSymbols 128
        (EntropyEncoder.pushAll 128 (List.replicate 3 0) EntropyEncoder.reset)
      = { histBZ := histInc EntropyEncoder.reset.histBZ (runSymbol 128 3),
          histAZ := EntropyEncoder.reset.histAZ, zeroRun := 0 } ∧
    EntropyEncoder.push 128 9 EntropyEncoder.reset
      = { histBZ := histInc EntropyEncoder.reset.histBZ 9,
          histAZ := EntropyEncoder.reset.histAZ, zeroRun := 0 } ∧
    runSymbol 128 3 = (if 3 < 128 then 255 + 3 else 256 + 128 - 1) ∧
    (if 3 < 128 then 256 ≤ runSymbol 128 3 ∧ runSymbol 128 3 ≤ 256 + 128 - 2
     else runSymbol 128 3 = 256 + 128 - 1) :=
  C14_zero_run_symbols 128 3 9 EntropyEncoder.reset rfl (by decide) (by decide)

/-- C15: for every sequence of bytes, shorter than `2^32` (the range of the
`u32` counters), pushed into a freshly reset `EntropyEncoder` and followed by
the `endSymbols` step of `finalize`, the total of all histogram counts
(`histBZ` plus `histAZ`) equals the number of non-zero bytes plus the number of
maximal zero runs in the sequence. -/
theorem C15_histogram_total (Z : Nat) (l : List Nat)
    (hb : ∀ b ∈ l, b < 256) (hl : l.length < 2 ^ 32) :
    EntropyEncoder.total Z
        (EntropyEncoder.endSymbols Z (EntropyEncoder.pushAll Z l EntropyEncoder.reset))
      = nonZeroCount l + zeroRuns l := by
  have h := EntropyEncoder.total_pushAll Z l EntropyEncoder.reset hb
    (by rw [EntropyEncoder.total_reset]; simpa [EntropyEncoder.reset] using hl)
  rw [h, EntropyEncoder.total_reset]
  simp [EntropyEncoder.reset]

/-- Witness for C15: the sequence `0,0,5,0,7,7,0` with `Z = 128`: three non-zero
bytes and three zero runs. -/
theorem C15_histogram_total_witness :
    EntropyEncoder.total 128
        (EntropyEncoder.endSymbols 128
          (EntropyEncoder.pushAll 128 [0, 0, 5, 0, 7, 7, 0] EntropyEncoder.reset))
      = nonZeroCount [0, 0, 5, 0, 7, 7, 0] + zeroRuns [0, 0, 5, 0, 7, 7, 0] :=
  C15_histogram_total 128 [0, 0, 5, 0, 7, 7, 0] (by decide) (by decide)

/-! ## `readSmallPalette` -/

theorem fill_run (c : Nat) (l : List Nat) : ∀ (m : Nat → Nat) (k : Nat),
    (l.foldl (fun (s : (Nat → Nat) × Nat) _ => (store s.1 s.2 c, s.2 + 1)) (m, k)).2
        = k + l.length ∧
    ∀ i, (l.foldl (fun (s : (Nat → Nat) × Nat) _ => (store s.1 s.2 c, s.2 + 1)) (m, k)).1 i
        = if k ≤ i ∧ i < k + l.length then c else m i := by
  induction l with
  | nil =>
      intro m k
      refine ⟨by simp, fun i => ?_⟩
      have : ¬ (k ≤ i ∧ i < k + ([] : List Nat).length) := by simp
      simp only [List.foldl_nil, this, if_false]
  | cons a t ih =>
      intro m k
      obtain ⟨h1, h2⟩ := ih (store m k c) (k + 1)
      simp only [List.foldl_cons, List.length_cons]
      refine ⟨by rw [h1]; omega, ?_⟩
      intro i
      rw [h2 i]
      unfold store
      by_cases hik : i = k
      · subst hik
        simp
      · simp only [hik, if_false]
        have : (k + 1 ≤ i ∧ i < k + 1 + t.length) ↔ (k ≤ i ∧ i < k + (t.length + 1)) := by omega
        simp only [this]

theorem fill_rows (c W : Nat) (ys : List Nat) : ∀ (m : Nat → Nat) (k : Nat),
    (ys.foldl (fun (s : (Nat → Nat) × Nat) _ =>
        (List.range W).foldl (fun (s : (Nat → Nat) × Nat) _ => (store s.1 s.2 c, s.2 + 1)) s)
      (m, k)).2 = k + W * ys.length ∧
    ∀ i, (ys.foldl (fun (s : (Nat → Nat) × Nat) _ =>
        (List.range W).foldl (fun (s : (Nat → Nat) × Nat) _ => (store s.1 s.2 c, s.2 + 1)) s)
      (m, k)).1 i = if k ≤ i ∧ i < k + W * ys.length then c else m i := by
  induction ys with
  | nil =>
      intro m k
      refine ⟨by simp, fun i => ?_⟩
      have : ¬ (k ≤ i ∧ i < k + W * ([] : List Nat).length) := by simp
      simp only [List.foldl_nil, this, if_false]
  | cons a t ih =>
      intro m k
      simp only [List.foldl_cons, List.length_cons]
      obtain ⟨f1, f2⟩ := fill_run c (List.range W) m k
      rw [List.length_range] at f1 f2
      generalize hq : (List.range W).foldl
        (fun (s : (Nat → Nat) × Nat) _ => (store s.1 s.2 c, s.2 + 1)) (m, k) = q at f1 f2
      obtain ⟨q1, q2⟩ := q
      simp only at f1 f2
      obtain ⟨h1, h2⟩ := ih q1 q2
      refine ⟨by rw [h1, f1, Nat.mul_succ]; omega, ?_⟩
      intro i
      rw [h2 i, f2 i]
      have hm : W * (t.length + 1) = W * t.length + W := Nat.mul_succ _ _
      subst f1
      split_ifs <;> first | rfl | omega

theorem fillSingleColor_get (W H c : Nat) (m : Nat → Nat) (i : Nat) :
    (fillSingleColor W H c m).1 i = if i < W * H then c else m i := by
  unfold fillSingleColor
  rw [(fill_rows c W (List.range H) m 0).2 i, List.length_range]
  simp

/-- C16: `readSmallPalette` returns `GCIF_RE_OK` and leaves a palette size
`readBits(4) + 1` in [1,16]; the packed dimensions are (⌈W/2⌉, H) for sizes
5..16, (⌈W/2⌉, ⌈H/2⌉) for sizes 3..4 and (⌈W/4⌉, ⌈H/2⌉) for size 2; for size 1
every one of the W·H output pixels holds palette entry 0 (the one word read),
the rest of the raster is untouched, and the reader has consumed the four size
bits and that one palette word and nothing else. -/
theorem C16_readSmallPalette {R : Type} (ops : ReaderOps R) (st : SmallPaletteReader)
    (reader : R) :
    (readSmallPalette ops st reader).1 = GCIF_RE_OK ∧
    (readSmallPalette ops st reader).2.1._size_x = st._size_x ∧
    (readSmallPalette ops st reader).2.1._size_y = st._size_y ∧
    (readSmallPalette ops st reader).2.1._palette_size = (ops.readBits 4 reader).1 + 1 ∧
    1 ≤ (readSmallPalette ops st reader).2.1._palette_size ∧
    (readSmallPalette ops st reader).2.1._palette_size ≤ 16 ∧
    (5 ≤ (readSmallPalette ops st reader).2.1._palette_size →
      (readSmallPalette ops st reader).2.1._pack_x = ceilDiv st._size_x 2 ∧
      (readSmallPalette ops st reader).2.1._pack_y = st._size_y) ∧
    (3 ≤ (readSmallPalette ops st reader).2.1._palette_size ∧
        (readSmallPalette ops st reader).2.1._palette_size ≤ 4 →
      (readSmallPalette ops st reader).2.1._pack_x = ceilDiv st._size_x 2 ∧
      (readSmallPalette ops st reader).2.1._pack_y = ceilDiv st._size_y 2) ∧
    ((readSmallPalette ops st reader).2.1._palette_size = 2 →
      (readSmallPalette ops st reader).2.1._pack_x = ceilDiv st._size_x 4 ∧
      (readSmallPalette ops st reader).2.1._pack_y = ceilDiv st._size_y 2) ∧
    ((readSmallPalette ops st reader).2.1._palette_size = 1 →
      (∀ X Y, X < st._size_x → Y < st._size_y →
        (readSmallPalette ops st reader).2.1._rgba (X + Y * st._size_x)
          = (readSmallPalette ops st reader).2.1._palette 0) ∧
      (∀ i, st._size_x * st._size_y ≤ i →
        (readSmallPalette ops st reader).2.1._rgba i = st._rgba i) ∧
      (readSmallPalette ops st reader).2.1._palette 0
        = (ops.readWord (ops.readBits 4 reader).2).1 ∧
      (readSmallPalette ops st reader).2.2 = (ops.readWord (ops.readBits 4 reader).2).2) := by
  have hlt := ops.readBits_lt 4 reader
  have hps : (readSmallPalette ops st reader).2.1._palette_size
      = (ops.readBits 4 reader).1 + 1 := by
    unfold readSmallPalette
    simp only
    split_ifs <;> rfl
  have hsx : (readSmallPalette ops st reader).2.1._size_x = st._size_x := by
    unfold readSmallPalette
    simp only
    split_ifs <;> rfl
  have hsy : (readSmallPalette ops st reader).2.1._size_y = st._size_y := by
    unfold readSmallPalette
    simp only
    split_ifs <;> rfl
  refine ⟨rfl, hsx, hsy, hps, by omega, by omega, ?_, ?_, ?_, ?_⟩
  · intro h
    rw [hps] at h
    unfold readSmallPalette
    simp only
    rw [if_pos (by omega)]
    simp only [ceilDiv, Nat.shiftRight_eq_div_pow]
    exact ⟨rfl, trivial⟩
  · intro h
    rw [hps] at h
    unfold readSmallPalette
    simp only
    rw [if_neg (by omega), if_pos (by omega)]
    simp only [ceilDiv, Nat.shiftRight_eq_div_pow]
    exact ⟨rfl, rfl⟩
  · intro h
    rw [hps] at h
    unfold readSmallPalette
    simp only
    rw [if_neg (by omega), if_neg (by omega), if_pos (by omega)]
    simp only [ceilDiv, Nat.shiftRight_eq_div_pow]
    exact ⟨rfl, rfl⟩
  · intro h
    rw [hps] at h
    have h0 : (ops.readBits 4 reader).1 = 0 := by omega
    unfold readSmallPalette
    simp only
    rw [if_neg (by omega), if_neg (by omega), if_neg (by omega)]
    simp only [h0, readPaletteWords, show List.range (0 + 1) = [0] from rfl, List.foldl_cons,
      List.foldl_nil, fillSingleColor_get]
    refine ⟨?_, ?_, ?_, trivial⟩
    · intro X Y hX hY
      have : X + Y * st._size_x < st._size_x * st._size_y := by
        calc X + Y * st._size_x < st._size_x + Y * st._size_x := by omega
          _ = st._size_x * (Y + 1) := by ring
          _ ≤ st._size_x * st._size_y := Nat.mul_le_mul_left _ hY
      simp only [this, if_true]
    · intro i hi
      have : ¬ i < st._size_x * st._size_y := by omega
      simp only [this, if_false]
    · simp [store]

/-! ## `unpackPixels`, 3-4 bits/pixel -/

theorem applyWrites_not_mem (ws : List (Nat × Nat)) : ∀ (m : Nat → Nat) (i : Nat),
    i ∉ ws.map Prod.fst → applyWrites m ws i = m i := by
  induction ws with
  | nil => intro m i _; rfl
  | cons a t ih =>
      intro m i h
      simp only [List.map_cons, List.mem_cons, not_or] at h
      show applyWrites (store m a.1 a.2) t i = m i
      rw [ih _ _ h.2]
      simp [store, h.1]

/-- When no two stores of a run hit the same index, the raster holds at the
index of each store the value of that store. -/
theorem applyWrites_get (ws : List (Nat × Nat)) : ∀ (m : Nat → Nat) (i v : Nat),
    (ws.map Prod.fst).Nodup → (i, v) ∈ ws → applyWrites m ws i = v := by
  induction ws with
  | nil => intro m i v _ h; cases h
  | cons a t ih =>
      intro m i v hnd h
      simp only [List.map_cons, List.nodup_cons] at hnd
      show applyWrites (store m a.1 a.2) t i = v
      rcases List.mem_cons.mp h with h | h
      · subst h
        rw [applyWrites_not_mem t _ _ hnd.1]
        simp [store]
      · exact ih _ _ _ hnd.2 h

theorem range_flatMap_pairs (a k : Nat) :
    (List.range k).flatMap (fun x => [a + 2 * x, a + 2 * x + 1]) = List.range' a (2 * k) := by
  induction k with
  | zero => rfl
  | succ k ih =>
      rw [List.range_succ, List.flatMap_append, ih, List.flatMap_singleton,
        show 2 * (k + 1) = 2 + 2 * k from by ring, ← List.range'_append_1]
      rfl

theorem range_flatMap_rows (W H : Nat) :
    (List.range H).flatMap (fun y => List.range' (y * W) W) = List.range (W * H) := by
  induction H with
  | zero => rfl
  | succ H ih =>
      rw [List.range_succ, List.flatMap_append, ih, List.flatMap_singleton, List.range_eq_range',
        List.range_eq_range', show W * (H + 1) = W + W * H from by ring, ← List.range'_append_1,
        Nat.zero_add, Nat.mul_comm H W]

theorem unpack34Row_closed (st : SmallPaletteReader) (y : Nat) (s : UnpackState) :
    (unpack34Row st y s).1.image = s.image + ceilDiv st._size_x 2 ∧
    (unpack34Row st y s).1.rgba = s.rgba + st._size_x ∧
    (unpack34Row st y s).2 = rowEvents34 st s.image s.rgba := by
  have hloop := loopOver_range' (unpack34Pair st) id rfl (fun _ _ => rfl)
    (fun x (t : UnpackState) =>
      t.image = s.image + x ∧ t.pixel = s.rgba + 2 * x ∧ t.rgba = s.rgba)
    (fun x => pairEvents34 st (s.image + x) (s.rgba + 2 * x)) (st._size_x / 2)
    (by
      intro x t _ hinv
      obtain ⟨h1, h2, h3⟩ := hinv
      refine ⟨⟨?_, ?_, ?_⟩, ?_⟩
      · simp only [unpack34Pair, h1]; omega
      · simp only [unpack34Pair, h2]; omega
      · simp only [unpack34Pair, h3]
      · simp only [unpack34Pair, nextPacked, pairEvents34, packedByte, h1, h2, id,
          Nat.add_zero, List.cons_append, List.nil_append])
    (st._size_x / 2) 0 { s with pixel := s.rgba } (by omega) ⟨by simp, by simp, rfl⟩
  rw [← List.range_eq_range'] at hloop
  simp only [Nat.zero_add, id] at hloop
  obtain ⟨⟨h1, h2, h3⟩, h4⟩ := hloop
  have hshift : st._size_x >>> 1 = st._size_x / 2 := by
    simp [Nat.shiftRight_eq_div_pow]
  unfold unpack34Row
  simp only [hshift, Nat.and_one_is_mod]
  by_cases hodd : st._size_x % 2 ≠ 0
  · rw [if_pos hodd]
    simp only [h1, h2, h3, h4, rowEvents34, tailEvents34, if_pos hodd,
      nextPacked, packedByte, Nat.add_zero, List.cons_append, List.nil_append, ceilDiv]
    refine ⟨by omega, trivial, trivial⟩
  · rw [if_neg hodd]
    simp only [h1, h2, h3, h4, rowEvents34, tailEvents34, if_neg hodd,
      List.append_nil, ceilDiv]
    refine ⟨by omega, trivial, trivial⟩

theorem unpack34_closed (st : SmallPaletteReader) (xIndet : Nat)
    (hpps : st._pack_palette_size > 4) :
    (unpackPixels st xIndet).2 =
      [UnpackEv.enforce (decide (st._pack_palette_size > 1)),
       UnpackEv.enforce (decide (st._pack_y = st._size_y)),
       UnpackEv.enforce (decide (st._pack_x = (st._size_x + 1) / 2))]
      ++ (List.range st._pack_y).flatMap
          (fun y => rowEvents34 st (y * ceilDiv st._size_x 2) (y * st._size_x)) := by
  have hloop := loopOver_range' (unpack34Row st) id rfl (fun _ _ => rfl)
    (fun y (t : UnpackState) =>
      t.image = y * ceilDiv st._size_x 2 ∧ t.rgba = y * st._size_x)
    (fun y => rowEvents34 st (y * ceilDiv st._size_x 2) (y * st._size_x)) st._pack_y
    (by
      intro y t _ hinv
      obtain ⟨h1, h2⟩ := hinv
      obtain ⟨c1, c2, c3⟩ := unpack34Row_closed st y t
      refine ⟨⟨?_, ?_⟩, ?_⟩
      · rw [c1, h1]; ring
      · rw [c2, h2]; ring
      · rw [id, c3, h1, h2])
    st._pack_y 0 { image := 0, rgba := 0, pixel := 0, x := xIndet } (by omega)
    ⟨by simp, by simp⟩
  rw [← List.range_eq_range'] at hloop
  simp only [id] at hloop
  unfold unpackPixels
  simp only [hpps, ↓reduceIte, hloop.2, List.cons_append, List.nil_append]

theorem rowEvents34_writes (st : SmallPaletteReader) (i0 p0 : Nat) :
    (rowEvents34 st i0 p0).filterMap writeOf =
      (List.range (st._size_x / 2)).flatMap (fun x =>
        [(p0 + 2 * x, st._palette (packedByte st (i0 + x) >>> 4)),
         (p0 + 2 * x + 1, st._palette (packedByte st (i0 + x) &&& 15))])
      ++ (if st._size_x % 2 ≠ 0 then
            [(p0 + 2 * (st._size_x / 2), st._palette (packedByte st (i0 + st._size_x / 2)))]
          else []) := by
  unfold rowEvents34 tailEvents34
  rw [List.filterMap_append, List.filterMap_flatMap]
  congr 1
  split_ifs <;> simp [writeOf]

theorem rowEvents34_writes_fst (st : SmallPaletteReader) (i0 p0 : Nat) :
    ((rowEvents34 st i0 p0).filterMap writeOf).map Prod.fst = List.range' p0 st._size_x := by
  rw [rowEvents34_writes, List.map_append, List.map_flatMap]
  simp only [List.map_cons, List.map_nil]
  rw [range_flatMap_pairs]
  by_cases hodd : st._size_x % 2 ≠ 0
  · rw [if_pos hodd]
    have hW : st._size_x = 1 + 2 * (st._size_x / 2) := by omega
    conv_rhs => rw [hW, ← List.range'_append_1]
    rfl
  · rw [if_neg hodd]
    have hW : 2 * (st._size_x / 2) = st._size_x := by omega
    simp [hW]

theorem rowEvents34_reads (st : SmallPaletteReader) (i0 p0 : Nat) :
    (rowEvents34 st i0 p0).filterMap readOf =
      (List.range (ceilDiv st._size_x 2)).map (fun k => i0 + k) := by
  unfold rowEvents34 tailEvents34
  rw [List.filterMap_append, List.filterMap_flatMap]
  have hpairs : ∀ x, (pairEvents34 st (i0 + x) (p0 + 2 * x)).filterMap readOf = [i0 + x] := by
    intro x
    simp [pairEvents34, readOf]
  simp only [hpairs]
  have hmap : (List.range (st._size_x / 2)).flatMap (fun x => [i0 + x])
      = (List.range (st._size_x / 2)).map (fun k => i0 + k) := by
    induction (List.range (st._size_x / 2)) with
    | nil => rfl
    | cons a t ih => simp [List.flatMap_cons, ih]
  rw [hmap]
  by_cases hodd : st._size_x % 2 ≠ 0
  · rw [if_pos hodd]
    have hc : ceilDiv st._size_x 2 = st._size_x / 2 + 1 := by unfold ceilDiv; omega
    rw [hc, List.range_succ, List.map_append]
    simp [readOf]
  · rw [if_neg hodd]
    have hc : ceilDiv st._size_x 2 = st._size_x / 2 := by unfold ceilDiv; omega
    rw [hc]
    simp

theorem rowEvents34_mem (st : SmallPaletteReader) (i0 p0 X : Nat)
    (hX : X < 2 * (st._size_x / 2)) :
    (p0 + X, if X % 2 = 0 then st._palette (packedByte st (i0 + X / 2) / 16)
             else st._palette (packedByte st (i0 + X / 2) % 16))
      ∈ (rowEvents34 st i0 p0).filterMap writeOf := by
  rw [rowEvents34_writes]
  apply List.mem_append_left
  rw [List.mem_flatMap]
  refine ⟨X / 2, List.mem_range.mpr (by omega), ?_⟩
  have h4 : ∀ b : Nat, b >>> 4 = b / 16 := fun b => by simp [Nat.shiftRight_eq_div_pow]
  have h15 : ∀ b : Nat, b &&& 15 = b % 16 := fun b => Nat.and_pow_two_sub_one_eq_mod b 4
  rw [h4, h15]
  by_cases hpar : X % 2 = 0
  · rw [if_pos hpar]
    have : p0 + 2 * (X / 2) = p0 + X := by omega
    rw [this]
    exact List.mem_cons_self _ _
  · rw [if_neg hpar]
    have : p0 + 2 * (X / 2) + 1 = p0 + X := by omega
    rw [this]
    exact List.mem_cons_of_mem _ (List.mem_cons_self _ _)

theorem unpack34_writes (st : SmallPaletteReader) (xIndet : Nat)
    (hpps : st._pack_palette_size > 4) :
    (unpackPixels st xIndet).2.filterMap writeOf =
      (List.range st._pack_y).flatMap (fun y =>
        (rowEvents34 st (y * ceilDiv st._size_x 2) (y * st._size_x)).filterMap writeOf) := by
  rw [unpack34_closed st xIndet hpps, List.filterMap_append, List.filterMap_flatMap]
  simp [writeOf]

theorem unpack34_reads (st : SmallPaletteReader) (xIndet : Nat)
    (hpps : st._pack_palette_size > 4) :
    (unpackPixels st xIndet).2.filterMap readOf =
      (List.range st._pack_y).flatMap (fun y =>
        (rowEvents34 st (y * ceilDiv st._size_x 2) (y * st._size_x)).filterMap readOf) := by
  rw [unpack34_closed st xIndet hpps, List.filterMap_append, List.filterMap_flatMap]
  simp [readOf]

/-- The 3-4 bits/pixel branch of `unpackPixels` (taken when
`_pack_palette_size > 4`) runs its scanline loop `_pack_y` times: the stores
go to the pixel indices 0, 1, ..., W·`_pack_y` − 1 in that order, so every
pixel (X,Y) with Y < `_pack_y` is written exactly once; scanline Y loads
exactly the ⌈W/2⌉ packed bytes at Y·⌈W/2⌉, ..., Y·⌈W/2⌉ + ⌈W/2⌉ − 1; and for
X < 2·(W div 2) the value stored, which is the value of the raster afterwards,
is `_palette[b >> 4]` for even X and `_palette[b & 15]` for odd X, with
b = `_pack_palette[image[X div 2 + Y·⌈W/2⌉]]`.  The function returns
`GCIF_RE_OK`. -/
theorem unpack34_rows (st : SmallPaletteReader) (xIndet : Nat)
    (hbranch : st._pack_palette_size > 4) :
    (unpackPixels st xIndet).1 = GCIF_RE_OK ∧
    ((unpackPixels st xIndet).2.filterMap writeOf).map Prod.fst
      = List.range (st._size_x * st._pack_y) ∧
    (∀ X Y, X < st._size_x → Y < st._pack_y →
      (((unpackPixels st xIndet).2.filterMap writeOf).map Prod.fst).count (X + Y * st._size_x)
        = 1) ∧
    (unpackPixels st xIndet).2.filterMap readOf
      = (List.range st._pack_y).flatMap (fun Y =>
          (List.range (ceilDiv st._size_x 2)).map (fun k => Y * ceilDiv st._size_x 2 + k)) ∧
    (∀ X Y, X < 2 * (st._size_x / 2) → Y < st._pack_y →
      (X + Y * st._size_x, pixel4bit st X Y) ∈ (unpackPixels st xIndet).2.filterMap writeOf ∧
      unpackedRaster st xIndet (X + Y * st._size_x) = pixel4bit st X Y) := by
  have hidx : ((unpackPixels st xIndet).2.filterMap writeOf).map Prod.fst
      = List.range (st._size_x * st._pack_y) := by
    rw [unpack34_writes st xIndet hbranch, List.map_flatMap]
    simp only [rowEvents34_writes_fst]
    exact range_flatMap_rows _ _
  have hmem : ∀ X Y, X < 2 * (st._size_x / 2) → Y < st._pack_y →
      (X + Y * st._size_x, pixel4bit st X Y)
        ∈ (unpackPixels st xIndet).2.filterMap writeOf := by
    intro X Y hX hY
    rw [unpack34_writes st xIndet hbranch, List.mem_flatMap]
    refine ⟨Y, List.mem_range.mpr hY, ?_⟩
    have h := rowEvents34_mem st (Y * ceilDiv st._size_x 2) (Y * st._size_x) X hX
    rw [Nat.add_comm (Y * st._size_x) X, Nat.add_comm (Y * ceilDiv st._size_x 2) (X / 2)] at h
    simpa [pixel4bit, apply_ite] using h
  refine ⟨rfl, hidx, ?_, ?_, ?_⟩
  · intro X Y hX hY
    rw [hidx]
    apply List.count_eq_one_of_mem (List.nodup_range _)
    rw [List.mem_range]
    calc X + Y * st._size_x < st._size_x + Y * st._size_x := by omega
      _ = st._size_x * (Y + 1) := by ring
      _ ≤ st._size_x * st._pack_y := Nat.mul_le_mul_left _ hY
  · rw [unpack34_reads st xIndet hbranch]
    simp only [rowEvents34_reads]
  · intro X Y hX hY
    refine ⟨hmem X Y hX hY, ?_⟩
    unfold unpackedRaster
    apply applyWrites_get
    · rw [hidx]
      exact List.nodup_range _
    · exact hmem X Y hX hY

/-! ## The range assertions of `readPixels` and `unpackPixels` -/

theorem loopOver_congr_proj {σ ε β : Type} (proj : List ε → List β)
    (happ : ∀ a b, proj (a ++ b) = proj a ++ proj b) (b1 b2 : Nat → σ → σ × List ε)
    (h : ∀ x s, (b1 x s).1 = (b2 x s).1 ∧ proj (b1 x s).2 = proj (b2 x s).2) :
    ∀ xs s, (loopOver b1 xs s).1 = (loopOver b2 xs s).1 ∧
      proj (loopOver b1 xs s).2 = proj (loopOver b2 xs s).2 := by
  intro xs
  induction xs with
  | nil => intro s; exact ⟨rfl, rfl⟩
  | cons a t ih =>
      intro s
      obtain ⟨h1, h2⟩ := h a s
      simp only [loopOver, happ, h1, h2]
      exact ⟨(ih _).1, by rw [(ih _).2]⟩

theorem unpackEffects_append (a b : List UnpackEv) :
    unpackEffects (a ++ b) = unpackEffects a ++ unpackEffects b := by
  simp [unpackEffects]

theorem nextPacked_effects (st : SmallPaletteReader) (n : Nat) (s : UnpackState) :
    (nextPacked (withPackPaletteSize st n) s).1 = (nextPacked st s).1 ∧
    unpackEffects (nextPacked (withPackPaletteSize st n) s).2
      = unpackEffects (nextPacked st s).2 := by
  simp [nextPacked, withPackPaletteSize, unpackEffects, UnpackEv.isEnforce]

theorem unpack34Pair_effects (st : SmallPaletteReader) (n : Nat) (x : Nat) (s : UnpackState) :
    (unpack34Pair (withPackPaletteSize st n) x s).1 = (unpack34Pair st x s).1 ∧
    unpackEffects (unpack34Pair (withPackPaletteSize st n) x s).2
      = unpackEffects (unpack34Pair st x s).2 := by
  simp [unpack34Pair, nextPacked, withPackPaletteSize, unpackEffects, UnpackEv.isEnforce]

theorem unpack2Quad_effects (st : SmallPaletteReader) (n : Nat) (x : Nat) (s : UnpackState) :
    (unpack2Quad (withPackPaletteSize st n) x s).1 = (unpack2Quad st x s).1 ∧
    unpackEffects (unpack2Quad (withPackPaletteSize st n) x s).2
      = unpackEffects (unpack2Quad st x s).2 := by
  simp [unpack2Quad, nextPacked, withPackPaletteSize, unpackEffects, UnpackEv.isEnforce]

theorem unpack2LastPair_effects (st : SmallPaletteReader) (n : Nat) (x : Nat)
    (s : UnpackState) :
    (unpack2LastPair (withPackPaletteSize st n) x s).1 = (unpack2LastPair st x s).1 ∧
    unpackEffects (unpack2LastPair (withPackPaletteSize st n) x s).2
      = unpackEffects (unpack2LastPair st x s).2 := by
  simp [unpack2LastPair, nextPacked, withPackPaletteSize, unpackEffects, UnpackEv.isEnforce]

theorem unpack1Oct_effects (st : SmallPaletteReader) (n : Nat) (x : Nat) (s : UnpackState) :
    (unpack1Oct (withPackPaletteSize st n) x s).1 = (unpack1Oct st x s).1 ∧
    unpackEffects (unpack1Oct (withPackPaletteSize st n) x s).2
      = unpackEffects (unpack1Oct st x s).2 := by
  simp [unpack1Oct, nextPacked, withPackPaletteSize, unpackEffects, UnpackEv.isEnforce]

theorem unpack1LastQuad_effects (st : SmallPaletteReader) (n : Nat) (x : Nat)
    (s : UnpackState) :
    (unpack1LastQuad (withPackPaletteSize st n) x s).1 = (unpack1LastQuad st x s).1 ∧
    unpackEffects (unpack1LastQuad (withPackPaletteSize st n) x s).2
      = unpackEffects (unpack1LastQuad st x s).2 := by
  simp [unpack1LastQuad, nextPacked, withPackPaletteSize, unpackEffects, UnpackEv.isEnforce]

theorem unpack34Row_effects (st : SmallPaletteReader) (n : Nat) (y : Nat) (s : UnpackState) :
    (unpack34Row (withPackPaletteSize st n) y s).1 = (unpack34Row st y s).1 ∧
    unpackEffects (unpack34Row (withPackPaletteSize st n) y s).2
      = unpackEffects (unpack34Row st y s).2 := by
  obtain ⟨hl1, hl2⟩ := loopOver_congr_proj unpackEffects unpackEffects_append _ _
    (unpack34Pair_effects st n) (List.range (st._size_x >>> 1)) { s with pixel := s.rgba }
  obtain ⟨hn1, hn2⟩ := nextPacked_effects st n
    (loopOver (unpack34Pair st) (List.range (st._size_x >>> 1)) { s with pixel := s.rgba }).1
  have hw : (withPackPaletteSize st n)._size_x = st._size_x := rfl
  have hp : (withPackPaletteSize st n)._palette = st._palette := rfl
  unfold unpack34Row
  simp only [hw, hp, hl1, unpackEffects_append, hl2]
  split_ifs
  · simp only [hn1, hn2, unpackEffects_append, and_self]
  · simp only [and_self]

theorem unpack2Row_effects (st : SmallPaletteReader) (n : Nat) (y : Nat) (s : UnpackState) :
    (unpack2Row (withPackPaletteSize st n) y s).1 = (unpack2Row st y s).1 ∧
    unpackEffects (unpack2Row (withPackPaletteSize st n) y s).2
      = unpackEffects (unpack2Row st y s).2 := by
  obtain ⟨hl1, hl2⟩ := loopOver_congr_proj unpackEffects unpackEffects_append _ _
    (unpack2Quad_effects st n) (List.range (st._size_x >>> 1)) { s with pixel := s.rgba }
  obtain ⟨hn1, hn2⟩ := nextPacked_effects st n
    (loopOver (unpack2Quad st) (List.range (st._size_x >>> 1)) { s with pixel := s.rgba }).1
  have hw : (withPackPaletteSize st n)._size_x = st._size_x := rfl
  have hp : (withPackPaletteSize st n)._palette = st._palette := rfl
  unfold unpack2Row
  simp only [hw, hp, hl1, unpackEffects_append, hl2]
  split_ifs
  · simp only [hn1, hn2, unpackEffects_append, and_self]
  · simp only [and_self]

theorem unpack2Last_effects (st : SmallPaletteReader) (n : Nat) (s : UnpackState) :
    (unpack2Last (withPackPaletteSize st n) s).1 = (unpack2Last st s).1 ∧
    unpackEffects (unpack2Last (withPackPaletteSize st n) s).2
      = unpackEffects (unpack2Last st s).2 := by
  obtain ⟨hl1, hl2⟩ := loopOver_congr_proj unpackEffects unpackEffects_append _ _
    (unpack2LastPair_effects st n) (List.range (st._size_x >>> 1)) { s with pixel := s.rgba }
  obtain ⟨hn1, hn2⟩ := nextPacked_effects st n
    (loopOver (unpack2LastPair st) (List.range (st._size_x >>> 1)) { s with pixel := s.rgba }).1
  have hw : (withPackPaletteSize st n)._size_x = st._size_x := rfl
  have hp : (withPackPaletteSize st n)._palette = st._palette := rfl
  unfold unpack2Last
  simp only [hw, hp, hl1, unpackEffects_append, hl2]
  split_ifs
  · simp only [hn1, hn2, unpackEffects_append, and_self]
  · simp only [and_self]

theorem unpack1Row_effects (st : SmallPaletteReader) (n : Nat) (y : Nat) (s : UnpackState) :
    (unpack1Row (withPackPaletteSize st n) y s).1 = (unpack1Row st y s).1 ∧
    unpackEffects (unpack1Row (withPackPaletteSize st n) y s).2
      = unpackEffects (unpack1Row st y s).2 := by
  obtain ⟨hl1, hl2⟩ := loopOver_congr_proj unpackEffects unpackEffects_append _ _
    (unpack1Oct_effects st n) (List.range (st._size_x >>> 2)) { s with pixel := s.rgba, x := 0 }
  obtain ⟨hn1, hn2⟩ := nextPacked_effects st n
    (loopOver (unpack1Oct st) (List.range (st._size_x >>> 2))
      { s with pixel := s.rgba, x := 0 }).1
  have hw : (withPackPaletteSize st n)._size_x = st._size_x := rfl
  have ht : unpack1Tail (withPackPaletteSize st n) = unpack1Tail st := rfl
  unfold unpack1Row
  simp only [hw, ht, hl1, unpackEffects_append, hl2]
  split_ifs
  · simp only [hn1, hn2, unpackEffects_append, and_self]
  · simp only [and_self]

theorem unpack1Last_effects (st : SmallPaletteReader) (n : Nat) (s : UnpackState) :
    (unpack1Last (withPackPaletteSize st n) s).1 = (unpack1Last st s).1 ∧
    unpackEffects (unpack1Last (withPackPaletteSize st n) s).2
      = unpackEffects (unpack1Last st s).2 := by
  obtain ⟨hl1, hl2⟩ := loopOver_congr_proj unpackEffects unpackEffects_append _ _
    (unpack1LastQuad_effects st n) (List.range (st._size_x >>> 2)) { s with pixel := s.rgba }
  obtain ⟨hn1, hn2⟩ := nextPacked_effects st n
    (loopOver (unpack1LastQuad st) (List.range (st._size_x >>> 2)) { s with pixel := s.rgba }).1
  have hw : (withPackPaletteSize st n)._size_x = st._size_x := rfl
  have hp : (withPackPaletteSize st n)._palette = st._palette := rfl
  unfold unpack1Last
  simp only [hw, hp, hl1, unpackEffects_append, hl2]
  split_ifs
  · simp only [hn1, hn2, unpackEffects_append, and_self]
  · simp only [and_self]

theorem unpackPixels_effects (st : SmallPaletteReader) (xIndet n : Nat)
    (hsame : (decide (n > 4), decide (n > 2))
      = (decide (st._pack_palette_size > 4), decide (st._pack_palette_size > 2))) :
    unpackEffects (unpackPixels (withPackPaletteSize st n) xIndet).2
      = unpackEffects (unpackPixels st xIndet).2 := by
  have hn : (withPackPaletteSize st n)._pack_palette_size = n := rfl
  have hw : (withPackPaletteSize st n)._size_x = st._size_x := rfl
  have hh : (withPackPaletteSize st n)._size_y = st._size_y := rfl
  have hpy : (withPackPaletteSize st n)._pack_y = st._pack_y := rfl
  have hpx : (withPackPaletteSize st n)._pack_x = st._pack_x := rfl
  simp only [Prod.mk.injEq, decide_eq_decide] at hsame
  obtain ⟨h4, h2⟩ := hsame
  unfold unpackPixels
  simp only [hn, hw, hh, hpy, hpx]
  by_cases c4 : st._pack_palette_size > 4
  · rw [if_pos c4, if_pos (h4.mpr c4)]
    simp only [unpackEffects_append]
    rw [(loopOver_congr_proj unpackEffects unpackEffects_append _ _
      (unpack34Row_effects st n) _ _).2]
    simp [unpackEffects, UnpackEv.isEnforce]
  · rw [if_neg c4, if_neg (fun h => c4 (h4.mp h))]
    by_cases c2 : st._pack_palette_size > 2
    · rw [if_pos c2, if_pos (h2.mpr c2)]
      obtain ⟨hl1, hl2⟩ := loopOver_congr_proj unpackEffects unpackEffects_append _ _
        (unpack2Row_effects st n) (List.range (st._size_y >>> 1))
        { image := 0, rgba := 0, pixel := 0, x := xIndet }
      simp only [unpackEffects_append, hl1, hl2]
      split_ifs
      · rw [(unpack2Last_effects st n _).2]
        simp [unpackEffects, UnpackEv.isEnforce]
      · simp [unpackEffects, UnpackEv.isEnforce]
    · rw [if_neg c2, if_neg (fun h => c2 (h2.mp h))]
      obtain ⟨hl1, hl2⟩ := loopOver_congr_proj unpackEffects unpackEffects_append _ _
        (unpack1Row_effects st n) (List.range (st._size_y >>> 1))
        { image := 0, rgba := 0, pixel := 0, x := xIndet }
      simp only [unpackEffects_append, hl1, hl2]
      split_ifs
      · rw [(unpack1Last_effects st n _).2]
        simp [unpackEffects, UnpackEv.isEnforce]
      · simp [unpackEffects, UnpackEv.isEnforce]

theorem readEffects_append (a b : List ReadPixEv) :
    readEffects (a ++ b) = readEffects a ++ readEffects b := by
  simp [readEffects]

theorem readPixelsCell_effects {L : Type} (src : PixelSources L) (st : SmallPaletteReader)
    (n y x : Nat) (s : ReadPixState L) :
    (readPixelsCell src (withPackPaletteSize st n) y x s).1 = (readPixelsCell src st y x s).1 ∧
    readEffects (readPixelsCell src (withPackPaletteSize st n) y x s).2
      = readEffects (readPixelsCell src st y x s).2 := by
  have hm : (withPackPaletteSize st n)._mask_palette = st._mask_palette := rfl
  unfold readPixelsCell
  simp only [hm]
  split_ifs <;> simp [readEffects, ReadPixEv.isEnforce]

theorem readPixelsRow_effects {L : Type} (src : PixelSources L) (st : SmallPaletteReader)
    (n y : Nat) (s : ReadPixState L) :
    (readPixelsRow src (withPackPaletteSize st n) y s).1 = (readPixelsRow src st y s).1 ∧
    readEffects (readPixelsRow src (withPackPaletteSize st n) y s).2
      = readEffects (readPixelsRow src st y s).2 := by
  have hpx : (withPackPaletteSize st n)._pack_x = st._pack_x := rfl
  have hc := fun s0 => loopOver_congr_proj readEffects readEffects_append _ _
    (readPixelsCell_effects src st n y) (List.range st._pack_x) s0
  unfold readPixelsRow
  simp only [hpx]
  refine ⟨(hc _).1, ?_⟩
  rw [← List.singleton_append, readEffects_append, (hc _).2, ← readEffects_append]
  rfl

/-- C17 (amended): `readPixels` and `unpackPixels` return `GCIF_RE_OK` on
every input.  The range of a packed index is tested only by the assertion
`CAT_DEBUG_ENFORCE(index < _pack_palette_size)`: with any other value `n` of
`_pack_palette_size` that selects the same unpacking branch, so with any other
outcome of those assertions, both functions make the same decoder calls, loads
and stores in the same order. -/
theorem C17_range_check_inert {L : Type} (src : PixelSources L) (st : SmallPaletteReader)
    (lz : L) (xIndet n : Nat)
    (hsame : (decide (n > 4), decide (n > 2))
      = (decide (st._pack_palette_size > 4), decide (st._pack_palette_size > 2))) :
    (readPixels src st lz).1 = GCIF_RE_OK ∧ (unpackPixels st xIndet).1 = GCIF_RE_OK ∧
    readEffects (readPixels src (withPackPaletteSize st n) lz).2
      = readEffects (readPixels src st lz).2 ∧
    unpackEffects (unpackPixels (withPackPaletteSize st n) xIndet).2
      = unpackEffects (unpackPixels st xIndet).2 := by
  refine ⟨rfl, rfl, ?_, unpackPixels_effects st xIndet n hsame⟩
  have hpy : (withPackPaletteSize st n)._pack_y = st._pack_y := rfl
  unfold readPixels
  simp only [hpy]
  exact (loopOver_congr_proj readEffects readEffects_append _ _
    (readPixelsRow_effects src st n) _ _).2

/-- Witness for C17: the reader `corruptExample4`, whose first packed byte 7
fails the assertion, makes the same loads and stores as with
`_pack_palette_size = 8`, where the byte passes it. -/
theorem C17_range_check_inert_witness :
    (decide (8 > 4), decide (8 > 2))
      = (decide (corruptExample4._pack_palette_size > 4),
         decide (corruptExample4._pack_palette_size > 2)) ∧
    unpackEffects (unpackPixels (withPackPaletteSize corruptExample4 8) 0).2
      = unpackEffects (unpackPixels corruptExample4 0).2 :=
  ⟨by decide, (C17_range_check_inert corruptSources corruptExample4 () 0 8 (by decide)).2.2.2⟩

/-- C17 (counterexample): the first packed byte of `corruptExample4` is 7, not
below `_pack_palette_size = 5`, and the palette index 15 taken from it is not
below `_palette_size = 5`; `unpackPixels` records the failed assertion, stores
`_palette[15]` into pixel 0 all the same and returns `GCIF_RE_OK`.  With a
decoder that yields the byte 200, `readPixels` reads it, records the failed
assertion and returns `GCIF_RE_OK`. -/
theorem C17_counterexample_no_error :
    ¬ (corruptExample4._image 0 % 256 < corruptExample4._pack_palette_size) ∧
    ¬ (packedByte corruptExample4 0 >>> 4 < corruptExample4._palette_size) ∧
    (unpackPixels corruptExample4 0).1 = GCIF_RE_OK ∧
    (unpackPixels corruptExample4 0).2.take 7 =
      [UnpackEv.enforce true, UnpackEv.enforce true, UnpackEv.enforce true,
       UnpackEv.read 0, UnpackEv.enforce false,
       UnpackEv.write 0 (corruptExample4._palette 15),
       UnpackEv.write 1 (corruptExample4._palette 0)] ∧
    ¬ (corruptSources.monoRead 0 0 % 256 < corruptExample4._pack_palette_size) ∧
    (readPixels corruptSources corruptExample4 ()).1 = GCIF_RE_OK ∧
    (readPixels corruptSources corruptExample4 ()).2.take 3 =
      [ReadPixEv.rowHeader 0, ReadPixEv.read 0 0, ReadPixEv.enforce false] := by
  refine ⟨by decide, by decide, rfl, by decide, by decide, rfl, by decide⟩

/-! ## `unpackPixels`: the choice of branch, and the 2 and 1 bits/pixel branches -/

/-- C20 (the code at the failing input): `unpackPixels` enters the
3-4 bits/pixel branch on `_pack_palette_size > 4`, the number of distinct
packed bytes, whereas `readSmallPalette` sets the packed height from
`_palette_size`, the number of colours.  In the branch the scanline loop runs
`_pack_y` times, for every reader: the stores go to the pixel indices
0 .. W·`_pack_y` − 1 and ⌈W/2⌉ bytes are loaded per scanline.  On
`packedExample2Many` (W = 2, H = 10, four colours, five distinct packed bytes)
`readSmallPalette` gives the packed size 1×5, the branch is entered with its
assertion `_pack_y == _size_y` false, only the pixel indices 0..9 are stored,
pixel (0,5) and the rest of scanlines 5..9 are never written, and the values
stored come from `_palette[b >> 4]` and `_palette[b & 15]`, mostly entries
outside the four colours, where the packing gives the values of
`pixel2bit`. -/
theorem C20_branch_on_pack_palette :
    (∀ (st : SmallPaletteReader) (xIndet : Nat), st._pack_palette_size > 4 →
      ((unpackPixels st xIndet).2.filterMap writeOf).map Prod.fst
        = List.range (st._size_x * st._pack_y) ∧
      (unpackPixels st xIndet).2.filterMap readOf
        = (List.range st._pack_y).flatMap (fun Y =>
            (List.range (ceilDiv st._size_x 2)).map (fun k => Y * ceilDiv st._size_x 2 + k))) ∧
    ((readSmallPalette listReader readerBefore2Many [3, 100, 101, 102, 103]).2.1._palette_size,
      (readSmallPalette listReader readerBefore2Many [3, 100, 101, 102, 103]).2.1._pack_x,
      (readSmallPalette listReader readerBefore2Many [3, 100, 101, 102, 103]).2.1._pack_y,
      (List.range 16).map
        (readSmallPalette listReader readerBefore2Many [3, 100, 101, 102, 103]).2.1._palette)
      = (packedExample2Many._palette_size, packedExample2Many._pack_x,
          packedExample2Many._pack_y, (List.range 16).map packedExample2Many._palette) ∧
    (decide (packedExample2Many._palette_size > 4),
      decide (packedExample2Many._pack_palette_size > 4)) = (false, true) ∧
    (unpackPixels packedExample2Many 0).1 = GCIF_RE_OK ∧
    (unpackPixels packedExample2Many 0).2.take 3
      = [UnpackEv.enforce true, UnpackEv.enforce false, UnpackEv.enforce true] ∧
    ((unpackPixels packedExample2Many 0).2.filterMap writeOf).map Prod.fst
      = [0, 1, 2, 3, 4, 5, 6, 7, 8, 9] ∧
    (((unpackPixels packedExample2Many 0).2.filterMap writeOf).map Prod.fst).count (0 + 5 * 2)
      = 0 ∧
    (List.range 20).map (unpackedRaster packedExample2Many 0)
      = [0, 0, 101, 0, 0, 0, 100, 100, 0, 0, 7, 7, 7, 7, 7, 7, 7, 7, 7, 7] ∧
    (List.range 20).map (fun i => pixel2bit packedExample2Many (i % 2) (i / 2))
      = [100, 101, 102, 103, 103, 102, 101, 100, 101, 101, 102, 102, 100, 100, 100, 100,
         103, 103, 103, 103] := by
  refine ⟨fun st xIndet hbranch =>
      ⟨(unpack34_rows st xIndet hbranch).2.1, (unpack34_rows st xIndet hbranch).2.2.2.1⟩,
    by decide, by decide, rfl, by decide, by decide, by decide, by decide, by decide⟩

/-- C18 (the code at the failing input): on `packedExample2` (W = 2, H = 6,
2 bits/pixel) `unpackPixels` returns `GCIF_RE_OK` and stores only to the pixel
indices 0..7: scanlines 4 and 5 are never written, and scanline 1 is written a
second time from the next packed byte, so pixel (0,1) ends as `_palette[3]`
where the packing gives `_palette[2]`. -/
theorem C18_stride_2bit :
    (decide (packedExample2._pack_palette_size > 4),
      decide (packedExample2._pack_palette_size > 2)) = (false, true) ∧
    (unpackPixels packedExample2 0).1 = GCIF_RE_OK ∧
    ((unpackPixels packedExample2 0).2.filterMap writeOf).map Prod.fst
      = [0, 1, 2, 3, 2, 3, 4, 5, 4, 5, 6, 7] ∧
    (List.range 12).map (unpackedRaster packedExample2 0)
      = [100, 101, 103, 102, 101, 101, 102, 102, 0, 0, 0, 0] ∧
    (List.range 12).map (fun i => pixel2bit packedExample2 (i % 2) (i / 2))
      = [100, 101, 102, 103, 103, 102, 101, 100, 101, 101, 102, 102] ∧
    unpackedRaster packedExample2 0 (0 + 1 * 2) ≠ pixel2bit packedExample2 0 1 := by
  refine ⟨by decide, rfl, by decide, by decide, by decide, by decide⟩

/-- C19 (the code at the failing inputs): on `packedExample1` (W = 4, H = 4,
1 bit/pixel) `unpackPixels` returns `GCIF_RE_OK` and stores only to the pixel
indices 0..11: scanline 3 is never written and scanline 1 is written a second
time from the next packed byte, so pixel (0,1) ends as `_palette[1]` where the
packing gives `_palette[0]`.  On `packedExample1Wide` (W = 5, H = 2) the byte
that closes the scanline pair is unpacked at the columns 4..7 of both
scanlines: the stores reach the indices 10, 11 and 12 past the 10 pixels of
the raster, and pixel (0,1) ends as `_palette[0]` where the packing gives
`_palette[1]`. -/
theorem C19_stride_1bit :
    (decide (packedExample1._pack_palette_size > 4),
      decide (packedExample1._pack_palette_size > 2)) = (false, false) ∧
    (unpackPixels packedExample1 0).1 = GCIF_RE_OK ∧
    ((unpackPixels packedExample1 0).2.filterMap writeOf).map Prod.fst
      = [0, 1, 2, 3, 4, 5, 6, 7, 4, 5, 6, 7, 8, 9, 10, 11] ∧
    (List.range 16).map (unpackedRaster packedExample1 0)
      = [101, 100, 101, 100, 101, 101, 100, 100, 100, 100, 101, 101, 0, 0, 0, 0] ∧
    (List.range 16).map (fun i => pixel1bit packedExample1 (i % 4) (i / 4))
      = [101, 100, 101, 100, 100, 101, 100, 101, 101, 101, 100, 100, 100, 100, 101, 101] ∧
    unpackedRaster packedExample1 0 (0 + 1 * 4) ≠ pixel1bit packedExample1 0 1 ∧
    ((unpackPixels packedExample1Wide 0).2.filterMap writeOf).map Prod.fst
      = [0, 1, 2, 3, 5, 6, 7, 8, 4, 5, 6, 7, 9, 10, 11, 12] ∧
    (List.range 10).map (fun i => pixel1bit packedExample1Wide (i % 5) (i / 5))
      = [101, 101, 101, 101, 101, 101, 101, 101, 101, 100] ∧
    (List.range 10).map (unpackedRaster packedExample1Wide 0)
      = [101, 101, 101, 101, 101, 100, 100, 100, 101, 100] := by
  refine ⟨by decide, rfl, by decide, by decide, by decide, by decide, by decide, by decide,
    by decide⟩

/-! ## `CF_C7` -/

/-- C21: for `CF_C7` and every `(R,G,B)` in `[0,255]³`, `convertYUVtoRGB`
applied to the output of `convertRGBtoYUV`, with `U` and `V` kept in their full
signed range (YUV899), returns `(R,G,B)`; the forward transform gives
`Y = B`, `U = B − ((R+G) >> 1)`, `V = R − G`, with `U` and `V` inside the signed
9-bit range. -/
theorem C21_roundtrip_CF_C7 (R G B : Int)
    (hR : 0 ≤ R ∧ R ≤ 255) (hG : 0 ≤ G ∧ G ≤ 255) (hB : 0 ≤ B ∧ B ≤ 255) :
    convertYUVtoRGB .CF_C7 (convertRGBtoYUV .CF_C7 R G B) = some (R, G, B) ∧
    convertRGBtoYUV .CF_C7 R G B = { y := B, u := B - (R + G) / 2, v := R - G } ∧
    -256 ≤ (convertRGBtoYUV .CF_C7 R G B).u ∧ (convertRGBtoYUV .CF_C7 R G B).u ≤ 255 ∧
    -256 ≤ (convertRGBtoYUV .CF_C7 R G B).v ∧ (convertRGBtoYUV .CF_C7 R G B).v ≤ 255 := by
  have hy : toU8 B = B := by unfold toU8; omega
  have hu : toS16 (B - (R + G) / 2) = B - (R + G) / 2 := by unfold toS16; omega
  have hv : toS16 (R - G) = R - G := by unfold toS16; omega
  have hfwd : convertRGBtoYUV .CF_C7 R G B = { y := B, u := B - (R + G) / 2, v := R - G } := by
    simp only [convertRGBtoYUV, hy, hu, hv]
  rw [hfwd]
  clear hfwd hy hu hv
  have hr : ((B - (B - (R + G) / 2)) * 2 + (R - G) + 1) / 2 = R := by omega
  refine ⟨?_, rfl, ?_, ?_, ?_, ?_⟩
  · simp only [convertYUVtoRGB, Option.map_some', Option.some.injEq, Prod.mk.injEq, hr]
    refine ⟨?_, ?_, ?_⟩ <;> unfold toU8 <;> omega
  all_goals (simp only []; omega)

/-- Witness for C21: `(R,G,B) = (255,0,128)`, where `V = 255` leaves the signed
8-bit range. -/
theorem C21_roundtrip_CF_C7_witness :
    convertYUVtoRGB .CF_C7 (convertRGBtoYUV .CF_C7 255 0 128) = some (255, 0, 128) ∧
    (convertRGBtoYUV .CF_C7 255 0 128).v = 255 :=
  ⟨(C21_roundtrip_CF_C7 255 0 128 (by decide) (by decide) (by decide)).1, by decide⟩

/-! ## `SF_A_BC` and `SF_B_AC` -/

/-- C28 (the code at the failing input): for `x > 0` and `y > 0`, `filterPixel`
with `SF_A_BC` computes `(A + (B − C)) >> 1` per channel and with `SF_B_AC`
`(B + (A − C)) >> 1`, the shift applying to the whole sum.  On `rasterABC` at
pixel `(1,1)` (`A = 100`, `B = 52`, `C = 50`) it predicts 51 for both filters,
where `A + (B − C)/2` is 101 and `B + (A − C)/2` is 77. -/
theorem C28_shift_whole_sum :
    (∀ (mem : Int → Int) (p x y width : Int), x > 0 → y > 0 →
      filterPixel mem p .SF_A_BC x y width
        = fpt3 (fun i => (rd mem (p - 4) i
            + (rd mem (p - width * 4) i - rd mem (p - width * 4 - 4) i)) / 2) ∧
      filterPixel mem p .SF_B_AC x y width
        = fpt3 (fun i => (rd mem (p - width * 4) i
            + (rd mem (p - 4) i - rd mem (p - width * 4 - 4) i)) / 2)) ∧
    filterPixel rasterABC (pixelOffset 1 1 8) .SF_A_BC 1 1 8 = (51, 51, 51) ∧
    filterPixel rasterABC (pixelOffset 1 1 8) .SF_B_AC 1 1 8 = (51, 51, 51) ∧
    predA_BC 100 52 50 = 101 ∧ predB_AC 100 52 50 = 77 := by
  refine ⟨?_, by decide, by decide, by decide, by decide⟩
  intro mem p x y width hx hy
  simp only [filterPixel, hx, hy, ↓reduceIte, and_self]

/-! ## `chaosStats` against `writeChaos` -/

/-- Two loops whose bodies leave the same state and whose outputs project to
the same list do so as a whole. -/
theorem loopOver_congr_proj2 {σ ε₁ ε₂ β : Type} (proj₁ : List ε₁ → List β)
    (proj₂ : List ε₂ → List β) (hnil : proj₁ [] = proj₂ [])
    (happ₁ : ∀ a b, proj₁ (a ++ b) = proj₁ a ++ proj₁ b)
    (happ₂ : ∀ a b, proj₂ (a ++ b) = proj₂ a ++ proj₂ b)
    (b1 : Nat → σ → σ × List ε₁) (b2 : Nat → σ → σ × List ε₂)
    (h : ∀ x s, (b1 x s).1 = (b2 x s).1 ∧ proj₁ (b1 x s).2 = proj₂ (b2 x s).2) :
    ∀ xs s, (loopOver b1 xs s).1 = (loopOver b2 xs s).1 ∧
      proj₁ (loopOver b1 xs s).2 = proj₂ (loopOver b2 xs s).2 := by
  intro xs
  induction xs with
  | nil => intro s; exact ⟨rfl, hnil⟩
  | cons a t ih =>
      intro s
      obtain ⟨h1, h2⟩ := h a s
      simp only [loopOver, happ₁, happ₂, h1, h2]
      exact ⟨(ih _).1, by rw [(ih _).2]⟩

theorem writeChaosPixel_eq_stats (e : CMEnv) (matrix : Nat → Int) (T : Int → Int)
    (y x : Nat) (s : ScanState) :
    (writeChaosPixel e matrix T y x s).1 = (chaosStatsPixel e matrix T y x s).1 ∧
    (writeChaosPixel e matrix T y x s).2.filterMap residualOf
      = (chaosStatsPixel e matrix T y x s).2 := by
  by_cases hxz : x &&& 7 = 0 ∧ y &&& 7 = 0 <;>
    by_cases hf : getFilter e matrix x y = e.UNUSED_FILTER <;>
    by_cases hv : e.visited x y = true <;> by_cases hm : e.hasRGB x y = true <;>
    simp [writeChaosPixel, chaosStatsPixel, hxz, hf, hv, hm, residualOf]

/-- C30: `chaosStats` and `writeChaos`, run on the same image, mask, LZ state
and filter matrix, go through the same loop states pixel by pixel, and the
residual calls `encoder[chaos].write(sym)` of `writeChaos`, taken as
(plane, chaos index, residual byte), are in order the calls
`encoder[chaos].add(sym)` that `chaosStats` made; both make four calls, planes
Y, U, V, A, for each encoded pixel in scan order. -/
theorem C30_stats_write_agree (e : CMEnv) (matrix : Nat → Int) :
    (∀ (T : Int → Int) (y x : Nat) (s : ScanState),
      (writeChaosPixel e matrix T y x s).1 = (chaosStatsPixel e matrix T y x s).1 ∧
      (writeChaosPixel e matrix T y x s).2.filterMap residualOf
        = (chaosStatsPixel e matrix T y x s).2) ∧
    (writeChaos e matrix (chaosStats e matrix).chaos_levels
        (chaosStats e matrix).chaos_table).filterMap residualOf
      = (chaosStats e matrix).adds ∧
    (chaosStats e matrix).adds.map (fun r => r.plane)
      = (encodedPixels e).flatMap (fun _ => [0, 1, 2, 3]) ∧
    ((writeChaos e matrix (chaosStats e matrix).chaos_levels
        (chaosStats e matrix).chaos_table).filterMap residualOf).map (fun r => r.plane)
      = (encodedPixels e).flatMap (fun _ => [0, 1, 2, 3]) := by
  have hrow : ∀ (T : Int → Int) (y : Nat) (s : ScanState),
      (loopOver (fun x s => writeChaosPixel e matrix T y x s) (List.range e.width)
          { s with last := COLOR_PLANES }).1
        = (loopOver (fun x s => chaosStatsPixel e matrix T y x s) (List.range e.width)
          { s with last := COLOR_PLANES }).1 ∧
      (loopOver (fun x s => writeChaosPixel e matrix T y x s) (List.range e.width)
          { s with last := COLOR_PLANES }).2.filterMap residualOf
        = id (loopOver (fun x s => chaosStatsPixel e matrix T y x s) (List.range e.width)
          { s with last := COLOR_PLANES }).2 := by
    intro T y s
    exact loopOver_congr_proj2 (List.filterMap residualOf) id rfl
      (fun a b => List.filterMap_append a b residualOf) (fun _ _ => rfl) _ _
      (fun x s => writeChaosPixel_eq_stats e matrix T y x s) _ _
  have hall : (writeChaos e matrix (chaosStats e matrix).chaos_levels
        (chaosStats e matrix).chaos_table).filterMap residualOf
      = (chaosStats e matrix).adds := by
    rw [writeChaos_residualOf]
    unfold writeChaosPixels chaosStats
    exact (loopOver_congr_proj2 (List.filterMap residualOf) id rfl
      (fun a b => List.filterMap_append a b residualOf) (fun _ _ => rfl) _ _
      (fun y s => hrow _ y s) _ _).2
  have hplanes := writeChaosPixels_planes e matrix (chaosStats e matrix).chaos_table
  rw [← writeChaos_residualOf e matrix (chaosStats e matrix).chaos_levels] at hplanes
  refine ⟨fun T y x s => writeChaosPixel_eq_stats e matrix T y x s, hall, ?_, hplanes⟩
  rw [← hall]
  exact hplanes

/-! ## The cells of `readPixels` -/

theorem msb_shift (w k : Nat) (hk : k < 32) :
    2 ^ 31 ≤ (w % 2 ^ 32 * 2 ^ k) % 2 ^ 32 ↔ (w % 2 ^ 32) / 2 ^ (31 - k) % 2 = 1 := by
  interval_cases k <;> simp only [Nat.reducePow, Nat.reduceSub] <;> omega

theorem shift_step (a k : Nat) :
    ((a * 2 ^ k) % 2 ^ 32 * 2) % 2 ^ 32 = (a * 2 ^ (k + 1)) % 2 ^ 32 := by
  rw [Nat.mod_mul_mod, Nat.mul_assoc, ← pow_succ]

/-- Loop rule with a choice: if each iteration keeps the invariant and emits
`F x c` for some `c`, the loop emits the concatenation of `F x (ch x)` for some
assignment `ch`. -/
theorem loopOver_range'_choice {σ ε γ : Type} (body : Nat → σ → σ × List ε)
    (Inv : Nat → σ → Prop) (F : Nat → γ → List ε) (N : Nat) (c0 : γ)
    (hstep : ∀ x s, x < N → Inv x s → Inv (x + 1) (body x s).1 ∧ ∃ c, (body x s).2 = F x c) :
    ∀ n a s, a + n ≤ N → Inv a s →
      Inv (a + n) (loopOver body (List.range' a n) s).1 ∧
      ∃ ch : Nat → γ, (loopOver body (List.range' a n) s).2
        = (List.range' a n).flatMap (fun x => F x (ch x)) := by
  intro n
  induction n with
  | zero =>
      intro a s _ hi
      exact ⟨by simpa [loopOver] using hi, ⟨fun _ => c0, rfl⟩⟩
  | succ n ih =>
      intro a s hle hi
      obtain ⟨h1, c, hc⟩ := hstep a s (by omega) hi
      obtain ⟨h3, ch, hch⟩ := ih (a + 1) (body a s).1 (by omega) h1
      refine ⟨?_, fun x => if x = a then c else ch x, ?_⟩
      · have : a + (n + 1) = a + 1 + n := by omega
        rw [this]
        simpa [List.range', loopOver] using h3
      · simp only [List.range', loopOver, List.flatMap_cons, hc, hch, ↓reduceIte]
        congr 1
        apply List.flatMap_congr
        intro x hx
        have : x ≠ a := by
          have := (List.mem_range'_1.mp hx).1
          omega
        simp only [this, ↓reduceIte]

/-- The events of one cell, in any loop state: `zero(x)` alone inside an LZ
skip; else, when the most significant bit of `mask` is set, the store of
`_mask_palette` and `zero(x)`; else one `read(x, y, ...)`. -/
theorem readPixelsCell_events {L : Type} (src : PixelSources L) (st : SmallPaletteReader)
    (y x : Nat) (s : ReadPixState L) :
    (readPixelsCell src st y x s).2 =
      if 0 < lzSkipAt src x s then [ReadPixEv.zero x]
      else if 2 ^ 31 ≤ maskWordAt src y s then
        [ReadPixEv.setCell s.p (st._mask_palette % 256), ReadPixEv.zero x]
      else
        [ReadPixEv.read x y,
         ReadPixEv.enforce (decide (src.monoRead x y % 256 < st._pack_palette_size))] := by
  unfold readPixelsCell lzSkipAt maskWordAt
  by_cases ht : x = s.trigger_x_lz <;> by_cases hm : s.mask_left ≤ 0 <;>
    simp only [ht, hm, ↓reduceIte, gt_iff_lt] <;> split_ifs <;> rfl

theorem readPixelsCell_state {L : Type} (src : PixelSources L) (st : SmallPaletteReader)
    (y x : Nat) (s : ReadPixState L) :
    (readPixelsCell src st y x s).1.p = s.p + 1 ∧
    (readPixelsCell src st y x s).1.mask = (maskWordAt src y s * 2) % 2 ^ 32 ∧
    (readPixelsCell src st y x s).1.mask_left
      = (if s.mask_left ≤ 0 then 31 else s.mask_left - 1) ∧
    (readPixelsCell src st y x s).1.mask_next
      = (if s.mask_left ≤ 0 then s.mask_next + 1 else s.mask_next) := by
  unfold readPixelsCell maskWordAt
  by_cases ht : x = s.trigger_x_lz <;> by_cases hm : s.mask_left ≤ 0 <;>
    simp only [ht, hm, ↓reduceIte, gt_iff_lt] <;> split_ifs <;> simp

theorem maskWordAt_inv {L : Type} (src : PixelSources L) (y x : Nat) (t : ReadPixState L)
    (h : MaskInv src y x t) :
    maskWordAt src y t = (src.nextScanline y (x / 32) % 2 ^ 32 * 2 ^ (x % 32)) % 2 ^ 32 := by
  obtain ⟨h1, h2, h3⟩ := h
  unfold maskWordAt
  by_cases hk : x % 32 = 0
  · rw [if_pos hk] at h1
    rw [if_pos (by omega), h3, hk, pow_zero, Nat.mul_one, Nat.mod_mod]
    congr 2
    omega
  · rw [if_neg hk] at h1
    rw [if_neg (by omega), h2 hk]

theorem maskInv_step {L : Type} (src : PixelSources L) (st : SmallPaletteReader)
    (y x : Nat) (t : ReadPixState L) (h : MaskInv src y x t) :
    MaskInv src y (x + 1) (readPixelsCell src st y x t).1 := by
  have hw := maskWordAt_inv src y x t h
  obtain ⟨h1, h2, h3⟩ := h
  obtain ⟨_, c2, c3, c4⟩ := readPixelsCell_state src st y x t
  refine ⟨?_, ?_, ?_⟩
  · rw [c3, h1]
    by_cases hk : x % 32 = 0
    · have : (x + 1) % 32 = 1 := by omega
      simp [hk, this]
    · rw [if_neg hk]
      by_cases hk1 : (x + 1) % 32 = 0
      · rw [if_pos hk1, if_neg (by omega)]; omega
      · rw [if_neg hk1, if_neg (by omega)]; omega
  · intro hk1
    rw [c2, hw, shift_step]
    have e1 : (x + 1) / 32 = x / 32 := by omega
    have e2 : (x + 1) % 32 = x % 32 + 1 := by omega
    rw [e1, e2]
  · rw [c4, h1, h3]
    by_cases hk : x % 32 = 0
    · rw [if_pos hk, if_pos (le_refl _)]; omega
    · rw [if_neg hk, if_neg (by omega)]; omega

theorem readPixelsRow_cells {L : Type} (src : PixelSources L) (st : SmallPaletteReader)
    (y : Nat) (s : ReadPixState L) (hp : s.p = y * st._pack_x) :
    (readPixelsRow src st y s).1.p = (y + 1) * st._pack_x ∧
    ∃ skip : Nat → Bool, (readPixelsRow src st y s).2
      = ReadPixEv.rowHeader y
          :: (List.range st._pack_x).flatMap (fun x => cellEvents src st (skip x) y x) := by
  have hloop := fun s2 h2 => loopOver_range'_choice (readPixelsCell src st y)
    (fun x (t : ReadPixState L) => t.p = y * st._pack_x + x ∧ MaskInv src y x t)
    (fun x (c : Bool) => cellEvents src st c y x) st._pack_x false
    (by
      intro x t _ hinv
      obtain ⟨h1, h2⟩ := hinv
      refine ⟨⟨?_, maskInv_step src st y x t h2⟩, decide (0 < lzSkipAt src x t), ?_⟩
      · rw [(readPixelsCell_state src st y x t).1, h1]; omega
      · rw [readPixelsCell_events, maskWordAt_inv src y x t h2, h1]
        have hb := msb_shift (src.nextScanline y (x / 32)) (x % 32) (Nat.mod_lt _ (by decide))
        unfold cellEvents maskBitAt
        by_cases hs : 0 < lzSkipAt src x t
        · simp only [hs, ↓reduceIte, decide_True]
        · by_cases hmb : 2 ^ 31 ≤ src.nextScanline y (x / 32) % 2 ^ 32 * 2 ^ (x % 32) % 2 ^ 32
          · simp only [hs, hmb, hb.mp hmb, ↓reduceIte, decide_False, decide_True,
              Bool.false_eq_true, Nat.add_comm x (y * st._pack_x)]
          · have hnb : ¬ (src.nextScanline y (x / 32) % 2 ^ 32 / 2 ^ (31 - x % 32) % 2 = 1) :=
              fun h => hmb (hb.mpr h)
            simp only [hs, hmb, hnb, ↓reduceIte, decide_False, Bool.false_eq_true])
    st._pack_x 0 s2 (by omega) h2
  unfold readPixelsRow
  simp only
  by_cases hy : y = src.getTriggerY s.lz
  · rw [if_pos hy]
    obtain ⟨⟨h1, _⟩, skip, hsk⟩ := hloop
      { s with lz := src.triggerY s.lz,
               trigger_x_lz := src.getTriggerX (src.triggerY s.lz) % 65536,
               lz_skip := 0, mask_next := 0, mask_left := 0 }
      ⟨by simpa using hp, by simp [MaskInv]⟩
    rw [← List.range_eq_range'] at h1 hsk
    refine ⟨by rw [h1]; ring, skip, by rw [hsk]⟩
  · rw [if_neg hy]
    obtain ⟨⟨h1, _⟩, skip, hsk⟩ := hloop
      { s with lz_skip := 0, mask_next := 0, mask_left := 0 }
      ⟨by simpa using hp, by simp [MaskInv]⟩
    rw [← List.range_eq_range'] at h1 hsk
    refine ⟨by rw [h1]; ring, skip, by rw [hsk]⟩

/-- C29: in `readPixels`, whatever the loop state, the events of cell `(x,y)`
are: `zero(x)` alone and no read when the cell is inside an active LZ skip
(`lz_skip > 0` once the LZ trigger of the column is taken); else, when the mask
bit under test is set, the store of `_mask_palette` into the cell followed by
`zero(x)` and no read; else exactly one `read(x, y, ...)` and no `zero`.  The
LZ test comes first.  Over the whole raster: after `readRowHeader(y)` each row
handles its cells `x = 0 .. _pack_x − 1` in order, each in one of these three
ways, the mask bit of cell `(x,y)` being bit `31 − (x mod 32)` of word
`x div 32` of the mask row and the cell's index `x + y·_pack_x`. -/
theorem C29_readPixels_cells {L : Type} (src : PixelSources L) (st : SmallPaletteReader)
    (lz : L) :
    (∀ (y x : Nat) (s : ReadPixState L),
      (readPixelsCell src st y x s).2 =
        if 0 < lzSkipAt src x s then [ReadPixEv.zero x]
        else if 2 ^ 31 ≤ maskWordAt src y s then
          [ReadPixEv.setCell s.p (st._mask_palette % 256), ReadPixEv.zero x]
        else
          [ReadPixEv.read x y,
           ReadPixEv.enforce (decide (src.monoRead x y % 256 < st._pack_palette_size))]) ∧
    (∃ skip : Nat → Nat → Bool, (readPixels src st lz).2
      = (List.range st._pack_y).flatMap (fun y =>
          ReadPixEv.rowHeader y
            :: (List.range st._pack_x).flatMap (fun x => cellEvents src st (skip y x) y x))) := by
  refine ⟨fun y x s => readPixelsCell_events src st y x s, ?_⟩
  have hloop := loopOver_range'_choice (readPixelsRow src st)
    (fun y (t : ReadPixState L) => t.p = y * st._pack_x)
    (fun y (c : Nat → Bool) =>
      ReadPixEv.rowHeader y
        :: (List.range st._pack_x).flatMap (fun x => cellEvents src st (c x) y x))
    st._pack_y (fun _ => false)
    (fun y t _ hinv => readPixelsRow_cells src st y t hinv)
    st._pack_y 0
    { p := 0, trigger_x_lz := src.getTriggerX lz % 65536, lz := lz, lz_skip := 0,
      mask_next := 0, mask_left := 0, mask := 0 }
    (by omega) (by simp)
  rw [← List.range_eq_range'] at hloop
  obtain ⟨_, skip, hsk⟩ := hloop
  exact ⟨skip, hsk⟩

/-! ## `EntropyEstimator::entropy` -/

namespace EntropyEstimator

end EntropyEstimator

/-- C26 (the code at the failing input): the local histogram of `entropy` is
indexed by the loop counter: for a candidate of `count` symbols it holds 1 at
the indices `0 .. count − 1` and 0 elsewhere, whatever the symbols are.  On the
candidate `5, 5, 5` the entry of symbol 5 is 0, not its 3 occurrences, so
the instance count used for it on a fresh estimator is 0 and the call
returns `3 · 24 = 72` bits. -/
theorem C26_local_histogram :
    (EntropyEstimator.localHist 256 [5, 5, 5].length).map (fun h => (List.range 8).map h)
      = some [1, 1, 1, 0, 0, 0, 0, 0] ∧
    List.count 5 [5, 5, 5] = 3 ∧
    EntropyEstimator.entropy 256 EntropyEstimator.init [5, 5, 5] = some 72 ∧
    EntropyEstimator.symbolCost 3 3 = 1 := by
  refine ⟨by decide, by decide, by decide, by decide⟩

/-! ## `collectFreqs` and `normalizeFreqs` -/

theorem scalePass_eq (num_syms : Nat) (hist : Nat → Nat) : scalePass num_syms hist = hist := by
  unfold scalePass
  induction List.range num_syms with
  | nil => rfl
  | cons a t ih => rw [List.foldl_cons]; exact ih

/-- The scaling loop ends within `fuel` rounds when `max_freq < 2^(fuel+16)`,
and leaves the histogram untouched. -/
theorem scaleLoop_eq (num_syms : Nat) (hist : Nat → Nat) :
    ∀ (fuel max_freq : Nat), max_freq < 2 ^ (fuel + 16) →
      scaleLoop fuel num_syms hist max_freq = some hist := by
  intro fuel
  induction fuel with
  | zero =>
      intro mf h
      unfold scaleLoop MAX_FREQ
      rw [if_neg (by simp at h; omega)]
  | succ n ih =>
      intro mf h
      unfold scaleLoop
      split
      · rw [scalePass_eq]
        apply ih
        rw [Nat.shiftRight_eq_div_pow, Nat.pow_one]
        have : 2 ^ (n + 1 + 16) = 2 * 2 ^ (n + 16) := by ring
        omega
      · rfl

theorem collectHist_fold (l : List Nat) :
    ∀ (h : Nat → Nat) (m k : Nat), (∀ b ∈ l, b < 256) → (∀ s, h s ≤ k) → m ≤ k →
      (∀ s, (l.foldl collectStep (h, m)).1 s
        = h s + l.count s) ∧
      (l.foldl collectStep (h, m)).2
        ≤ k + l.length := by
  induction l with
  | nil => intro h m k _ _ hm; exact ⟨fun s => by simp, by simpa using hm⟩
  | cons a t ih =>
      intro h m k hb hh hm
      have ha : a % 256 = a := Nat.mod_eq_of_lt (hb a (List.mem_cons_self a t))
      rw [List.foldl_cons]
      simp only [collectStep, ha]
      obtain ⟨h1, h2⟩ := ih (store h a (h a + 1)) (if m < h a + 1 then h a + 1 else m) (k + 1)
        (fun b hbt => hb b (List.mem_cons_of_mem a hbt))
        (by intro s; unfold store; have := hh s; have := hh a; split <;> omega)
        (by have := hh a; split <;> omega)
      refine ⟨?_, by rw [List.length_cons]; omega⟩
      intro s
      rw [h1 s, List.count_cons]
      unfold store
      by_cases hs : s = a
      · subst hs; simp; omega
      · have hs' : ¬ (a == s) = true := by simpa using fun h => hs h.symm
        simp [hs, hs']

theorem collectFreqs_eq (lz : List Nat) (hb : ∀ b ∈ lz, b < 256) (hlen : lz.length < 2 ^ 31) :
    collectFreqs lz = some (fun s => lz.count s % 2 ^ 16) := by
  obtain ⟨h1, h2⟩ := collectHist_fold lz (fun _ => 0) 0 0 hb (fun _ => le_refl _) (le_refl _)
  unfold collectFreqs
  have hm : (collectHist lz).2 < 2 ^ (32 + 16) := by
    unfold collectHist
    have : (2 : Nat) ^ 31 < 2 ^ (32 + 16) := by decide
    omega
  simp only [scaleLoop_eq 256 _ 32 _ hm, Option.map_some', Option.some.injEq]
  funext s
  unfold collectHist
  rw [h1 s, Nat.zero_add]

/-- C25 (the code at the failing input): `collectFreqs` returns, for every
byte `s`, the count of `s` in the input reduced modulo `2^16`, and
`normalizeFreqs` returns every histogram entry reduced modulo `2^16`: the
scaling loop leaves the histogram as it is.  So 65536 copies of the byte 7 give
symbol 7 the frequency 0 in `collectFreqs`, and a histogram entry of 65536
becomes the frequency 0 in `normalizeFreqs` (called, as `finalize` does, with
`max_freq = 0`), although the symbol is used. -/
theorem C25_frequency_zero_for_used_symbol :
    (∀ (lz : List Nat), (∀ b ∈ lz, b < 256) → lz.length < 2 ^ 31 →
      collectFreqs lz = some (fun s => lz.count s % 2 ^ 16)) ∧
    (∀ (max_freq num_syms : Nat) (hist : Nat → Nat), max_freq < 2 ^ 32 →
      normalizeFreqs max_freq num_syms hist = some (fun s => hist s % 2 ^ 16)) ∧
    List.count 7 (List.replicate 65536 7) = 65536 ∧
    (collectFreqs (List.replicate 65536 7)).map (fun freqs => freqs 7) = some 0 ∧
    (normalizeFreqs 0 256 (fun s => if s = 7 then 65536 else 0)).map (fun freqs => freqs 7)
      = some 0 := by
  have hnorm : ∀ (max_freq num_syms : Nat) (hist : Nat → Nat), max_freq < 2 ^ 32 →
      normalizeFreqs max_freq num_syms hist = some (fun s => hist s % 2 ^ 16) := by
    intro mf ns hist hmf
    unfold normalizeFreqs
    rw [scaleLoop_eq ns hist 32 mf (lt_of_lt_of_le hmf (by decide))]
    rfl
  refine ⟨collectFreqs_eq, hnorm, List.count_replicate_self _ _, ?_, ?_⟩
  · rw [collectFreqs_eq _ (fun b hb => by rw [List.eq_of_mem_replicate hb]; decide)
      (by rw [List.length_replicate]; decide)]
    simp only [Option.map_some', List.count_replicate_self]
    rfl
  · rw [hnorm _ _ _ (by decide)]
    rfl

/-! ## `FilterScorer::getTop` -/

/-- C23 (the code at the failing inputs): `getTop` keeps the pivot index fixed
at `k` while the range `left .. right` shrinks around it.  On the scores
`1, 3, 2` with `k = 1` it returns the list `2, 1, 3`: entry 0 scores 2, entry 1
scores 1.  On the scores `0, 1, 2, 3, 6, 5, 4, 7` with `k = 4` the first four
entries score `0, 1, 2, 4` and entry 4 scores 3.  With `k = _count` the pivot
index lies outside `_list`. -/
theorem C23_getTop_not_lowest :
    (FilterScorer.getTop (FilterScorer.ofScores [1, 3, 2]) 1).map
        (fun l => (List.range 3).map (fun i => (l i).score)) = some [2, 1, 3] ∧
    (FilterScorer.getTop (FilterScorer.ofScores [0, 1, 2, 3, 6, 5, 4, 7]) 4).map
        (fun l => (List.range 8).map (fun i => (l i).score)) = some [0, 1, 2, 4, 3, 5, 6, 7] ∧
    (FilterScorer.getTop (FilterScorer.ofScores [1, 3, 2]) 3).isNone = true ∧
    FilterScorer.inList (FilterScorer.ofScores [1, 3, 2]) 3 = false := by
  refine ⟨by decide, by decide, by decide, by decide⟩

/-! ## `decideFilters` -/

namespace FilterScorer

theorem reset_count (fs : FilterScorer) : fs.reset._count = fs._count := rfl

theorem reset_list (fs : FilterScorer) (j : Nat) :
    fs.reset._list j = if j < fs._count then { score := 0, index := j } else fs._list j := by
  unfold reset
  simp only
  generalize fs._count = n
  induction n with
  | zero => simp
  | succ n ih =>
      rw [List.range_succ, List.foldl_append, List.foldl_cons, List.foldl_nil]
      by_cases hj : j = n
      · subst hj; simp
      · simp only [hj, ↓reduceIte, ih]
        by_cases hlt : j < n
        · rw [if_pos hlt, if_pos (by omega)]
        · rw [if_neg hlt, if_neg (by omega)]

theorem add_count (fs : FilterScorer) (i : Nat) (err : Int) : (fs.add i err)._count = fs._count :=
  rfl

theorem add_list (fs : FilterScorer) (i : Nat) (err : Int) (j : Nat) :
    (fs.add i err)._list j
      = if j = i then { score := (fs._list j).score + err, index := (fs._list j).index }
        else fs._list j := rfl

/-- The position `getLowest` returns is the first one of least score. -/
theorem getLowest_spec (fs : FilterScorer) (h : 0 < fs._count) :
    ∃ pos, fs.getLowest = some pos ∧
      IsLeastMin (fun j => (fs._list j).score) fs._count pos := by
  have key : ∀ n,
      ((List.range' 1 n).foldl
        (fun (s : Nat × Int) ii =>
          let score := (fs._list ii).score
          if s.2 > score then (ii, score) else s)
        (0, (fs._list 0).score)).2
        = (fs._list ((List.range' 1 n).foldl
            (fun (s : Nat × Int) ii =>
              let score := (fs._list ii).score
              if s.2 > score then (ii, score) else s)
            (0, (fs._list 0).score)).1).score ∧
      IsLeastMin (fun j => (fs._list j).score) (n + 1)
        ((List.range' 1 n).foldl
          (fun (s : Nat × Int) ii =>
            let score := (fs._list ii).score
            if s.2 > score then (ii, score) else s)
          (0, (fs._list 0).score)).1 := by
    intro n
    induction n with
    | zero =>
        refine ⟨rfl, Nat.zero_lt_one, ?_, ?_⟩
        · intro j hj
          have : j = 0 := by omega
          subst this
          exact le_refl _
        · intro j hj
          exact absurd hj (Nat.not_lt_zero j)
    | succ n ih =>
        rw [List.range'_concat, List.foldl_append, List.foldl_cons, List.foldl_nil]
        generalize (List.range' 1 n).foldl
          (fun (s : Nat × Int) ii =>
            let score := (fs._list ii).score
            if s.2 > score then (ii, score) else s)
          (0, (fs._list 0).score) = r at ih ⊢
        obtain ⟨h1, h2, h3, h4⟩ := ih
        simp only [Nat.one_mul]
        by_cases hc : r.2 > (fs._list (1 + n)).score
        · simp only [hc, ↓reduceIte]
          refine ⟨trivial, by omega, ?_, ?_⟩
          · intro j hj
            by_cases hjn : j = 1 + n
            · subst hjn; exact le_refl _
            · have := h3 j (by omega)
              rw [h1] at hc
              beta_reduce at this ⊢
              omega
          · intro j hj
            have := h3 j (by omega)
            rw [h1] at hc
            beta_reduce at this ⊢
            omega
        · simp only [hc, ↓reduceIte]
          refine ⟨h1, by omega, ?_, h4⟩
          intro j hj
          by_cases hjn : j = 1 + n
          · subst hjn
            rw [h1] at hc
            beta_reduce
            omega
          · exact h3 j (by omega)
  unfold getLowest
  rw [if_neg (by omega)]
  refine ⟨_, rfl, ?_⟩
  have := (key (fs._count - 1)).2
  rwa [Nat.sub_add_cancel h] at this

end FilterScorer

theorem scoreInner (SF ii : Nat) (hii : ii < SF) (Efn : Nat → Int) :
    ∀ (n : Nat) (fs : FilterScorer),
      ((List.range n).foldl (fun sc (jj : Nat) => sc.add (ii + jj * SF) (Efn jj)) fs)._count
        = fs._count ∧
      ∀ j, (((List.range n).foldl
              (fun sc (jj : Nat) => sc.add (ii + jj * SF) (Efn jj)) fs)._list j).index
            = (fs._list j).index ∧
        (((List.range n).foldl
              (fun sc (jj : Nat) => sc.add (ii + jj * SF) (Efn jj)) fs)._list j).score
            = (fs._list j).score + (if j % SF = ii ∧ j / SF < n then Efn (j / SF) else 0) := by
  intro n
  induction n with
  | zero => intro fs; simp
  | succ n ih =>
      intro fs
      rw [List.range_succ, List.foldl_append, List.foldl_cons, List.foldl_nil]
      obtain ⟨h1, h2⟩ := ih fs
      refine ⟨by rw [FilterScorer.add_count, h1], fun j => ?_⟩
      obtain ⟨h3, h4⟩ := h2 j
      rw [FilterScorer.add_list]
      by_cases hj : j = ii + n * SF
      · have hm : j % SF = ii := by rw [hj, Nat.add_mul_mod_self_right, Nat.mod_eq_of_lt hii]
        have hd : j / SF = n := by
          rw [hj, Nat.add_mul_div_right _ _ (by omega), Nat.div_eq_of_lt hii, Nat.zero_add]
        rw [if_pos hj]
        simp only [h3, h4, hm, hd, true_and, Nat.lt_irrefl, ↓reduceIte, Nat.lt_succ_self]
        omega
      · rw [if_neg hj]
        refine ⟨h3, ?_⟩
        rw [h4]
        by_cases hc : j % SF = ii ∧ j / SF < n
        · rw [if_pos hc, if_pos ⟨hc.1, by omega⟩]
        · rw [if_neg hc, if_neg]
          rintro ⟨hm, hd⟩
          have hd' : j / SF = n := by
            by_contra hne
            exact hc ⟨hm, by omega⟩
          apply hj
          have := Nat.mod_add_div j SF
          rw [hm, hd', Nat.mul_comm] at this
          exact this.symm

theorem scoreOuter (SF CF : Nat) (Err : Nat → Nat → Int) :
    ∀ (m : Nat), m ≤ SF → ∀ (fs : FilterScorer),
      ((List.range m).foldl
        (fun sc (ii : Nat) =>
          (List.range CF).foldl (fun sc (jj : Nat) => sc.add (ii + jj * SF) (Err ii jj)) sc)
        fs)._count = fs._count ∧
      ∀ j, (((List.range m).foldl
              (fun sc (ii : Nat) =>
                (List.range CF).foldl (fun sc (jj : Nat) => sc.add (ii + jj * SF) (Err ii jj)) sc)
              fs)._list j).index = (fs._list j).index ∧
        (((List.range m).foldl
              (fun sc (ii : Nat) =>
                (List.range CF).foldl (fun sc (jj : Nat) => sc.add (ii + jj * SF) (Err ii jj)) sc)
              fs)._list j).score
          = (fs._list j).score
            + (if j % SF < m ∧ j / SF < CF then Err (j % SF) (j / SF) else 0) := by
  intro m
  induction m with
  | zero => intro _ fs; simp
  | succ m ih =>
      intro hm fs
      rw [List.range_succ, List.foldl_append, List.foldl_cons, List.foldl_nil]
      obtain ⟨h1, h2⟩ := ih (by omega) fs
      obtain ⟨g1, g2⟩ := scoreInner SF m (by omega) (Err m) CF
        ((List.range m).foldl
          (fun sc (ii : Nat) =>
            (List.range CF).foldl (fun sc (jj : Nat) => sc.add (ii + jj * SF) (Err ii jj)) sc)
          fs)
      refine ⟨by rw [g1, h1], fun j => ?_⟩
      obtain ⟨h3, h4⟩ := h2 j
      obtain ⟨g3, g4⟩ := g2 j
      refine ⟨by rw [g3, h3], ?_⟩
      rw [g4, h4]
      rcases Nat.lt_trichotomy (j % SF) m with hlt | heq | hgt
      · simp only [hlt, show j % SF < m + 1 by omega, show ¬ j % SF = m by omega, true_and,
          false_and, ↓reduceIte]
        split <;> omega
      · simp only [heq, Nat.lt_irrefl, Nat.lt_succ_self, true_and, false_and, ↓reduceIte]
        split <;> omega
      · simp only [show ¬ j % SF < m by omega, show ¬ j % SF < m + 1 by omega,
          show ¬ j % SF = m by omega, false_and, ↓reduceIte]
        omega

/-- One pixel adds to the score of every pair `j` below `SF_COUNT * CF_COUNT`
the error of that pair at the pixel. -/
theorem scorePixel_list (e : CMEnv) (SF CF : Nat) (hSF : 0 < SF) (px py : Nat)
    (fs : FilterScorer) :
    (scorePixel e SF CF px py fs)._count = fs._count ∧
    ∀ j, ((scorePixel e SF CF px py fs)._list j).index = (fs._list j).index ∧
      ((scorePixel e SF CF px py fs)._list j).score
        = (fs._list j).score + (if j < SF * CF then pairError e SF j (px, py) else 0) := by
  obtain ⟨h1, h2⟩ := scoreOuter SF CF
    (fun ii jj => scoreYUV (e.RGB2YUV_FILTERS jj
      (toU8 (e.rgba ((px + py * e.width) * 4)
          - (e.SPATIAL_FILTERS ii e.rgba ((px + py * e.width) * 4) px py e.width).1),
       toU8 (e.rgba ((px + py * e.width) * 4 + 1)
          - (e.SPATIAL_FILTERS ii e.rgba ((px + py * e.width) * 4) px py e.width).2.1),
       toU8 (e.rgba ((px + py * e.width) * 4 + 2)
          - (e.SPATIAL_FILTERS ii e.rgba ((px + py * e.width) * 4) px py e.width).2.2))))
    SF (le_refl _) fs
  refine ⟨h1, fun j => ?_⟩
  obtain ⟨h3, h4⟩ := h2 j
  refine ⟨h3, ?_⟩
  have hiff : (j % SF < SF ∧ j / SF < CF) ↔ j < SF * CF := by
    rw [Nat.div_lt_iff_lt_mul hSF, Nat.mul_comm]
    exact ⟨fun h => h.2, fun h => ⟨Nat.mod_lt _ hSF, h⟩⟩
  unfold scorePixel
  simp only
  rw [h4]
  by_cases hc : j < SF * CF
  · rw [if_pos hc, if_pos (hiff.mpr hc)]
    rfl
  · rw [if_neg hc, if_neg (fun h => hc (hiff.mp h))]

theorem foldl_nested_map {σ α : Type} (F : σ → α → σ) (g : Nat → Nat → α) (xs ys : List Nat)
    (m : σ) :
    ys.foldl (fun m y => xs.foldl (fun m x => F m (g x y)) m) m
      = (ys.flatMap fun y => xs.map fun x => g x y).foldl F m := by
  induction ys generalizing m with
  | nil => rfl
  | cons y ys ih =>
      rw [List.foldl_cons, ih, List.flatMap_cons, List.foldl_append, List.foldl_map]

theorem scorePixels_list (e : CMEnv) (SF CF : Nat) (hSF : 0 < SF) (l : List (Nat × Nat)) :
    ∀ (fs : FilterScorer),
      (l.foldl (fun sc (pxy : Nat × Nat) =>
          if e.hasRGB pxy.1 pxy.2 then sc
          else if e.visited pxy.1 pxy.2 then sc
          else scorePixel e SF CF pxy.1 pxy.2 sc) fs)._count = fs._count ∧
      ∀ j, ((l.foldl (fun sc (pxy : Nat × Nat) =>
          if e.hasRGB pxy.1 pxy.2 then sc
          else if e.visited pxy.1 pxy.2 then sc
          else scorePixel e SF CF pxy.1 pxy.2 sc) fs)._list j).index = (fs._list j).index ∧
        ((l.foldl (fun sc (pxy : Nat × Nat) =>
          if e.hasRGB pxy.1 pxy.2 then sc
          else if e.visited pxy.1 pxy.2 then sc
          else scorePixel e SF CF pxy.1 pxy.2 sc) fs)._list j).score
          = (fs._list j).score
            + (if j < SF * CF then ((l.filter (isEncoded e)).map (pairError e SF j)).sum
               else 0) := by
  induction l with
  | nil => intro fs; simp
  | cons a t ih =>
      intro fs
      rw [List.foldl_cons]
      by_cases hm : e.hasRGB a.1 a.2 = true
      · have henc : isEncoded e a = false := by simp [isEncoded, hm]
        simp only [hm, ↓reduceIte, List.filter_cons, henc, Bool.false_eq_true]
        exact ih fs
      · by_cases hv : e.visited a.1 a.2 = true
        · have henc : isEncoded e a = false := by simp [isEncoded, hv]
          simp only [hm, hv, ↓reduceIte, List.filter_cons, henc, Bool.false_eq_true]
          exact ih fs
        · have henc : isEncoded e a = true := by simp [isEncoded, hm, hv]
          simp only [hm, hv, ↓reduceIte, List.filter_cons, henc, Bool.false_eq_true,
            List.map_cons, List.sum_cons]
          obtain ⟨h1, h2⟩ := ih (scorePixel e SF CF a.1 a.2 fs)
          obtain ⟨p1, p2⟩ := scorePixel_list e SF CF hSF a.1 a.2 fs
          refine ⟨by rw [h1, p1], fun j => ?_⟩
          obtain ⟨h3, h4⟩ := h2 j
          obtain ⟨p3, p4⟩ := p2 j
          refine ⟨by rw [h3, p3], ?_⟩
          rw [h4, p4, show (a.1, a.2) = a from rfl]
          split <;> omega

/-- After `reset` and the scoring loops of a zone, entry `j` of the list holds
the summed score of pair `j` over the zone's encoded pixels, with `index = j`. -/
theorem scoreZone_list (e : CMEnv) (SF CF : Nat) (hSF : 0 < SF) (x y : Nat)
    (fs : FilterScorer) (hc : fs._count = SF * CF) :
    (scoreZone e SF CF x y fs.reset)._count = SF * CF ∧
    ∀ j, j < SF * CF →
      (scoreZone e SF CF x y fs.reset)._list j
        = { score := zoneScore e SF x y j, index := j } := by
  have hflat : scoreZone e SF CF x y fs.reset
      = ((List.range 8).flatMap fun yy => (List.range 8).map fun xx => (x + xx, y + yy)).foldl
          (fun sc (pxy : Nat × Nat) =>
            if e.hasRGB pxy.1 pxy.2 then sc
            else if e.visited pxy.1 pxy.2 then sc
            else scorePixel e SF CF pxy.1 pxy.2 sc) fs.reset := by
    unfold scoreZone
    exact foldl_nested_map
      (fun sc (pxy : Nat × Nat) =>
        if e.hasRGB pxy.1 pxy.2 then sc
        else if e.visited pxy.1 pxy.2 then sc
        else scorePixel e SF CF pxy.1 pxy.2 sc)
      (fun xx yy => (x + xx, y + yy)) (List.range 8) (List.range 8) fs.reset
  obtain ⟨h1, h2⟩ := scorePixels_list e SF CF hSF
    ((List.range 8).flatMap fun yy => (List.range 8).map fun xx => (x + xx, y + yy)) fs.reset
  rw [hflat]
  refine ⟨by rw [h1, FilterScorer.reset_count, hc], fun j hj => ?_⟩
  obtain ⟨h3, h4⟩ := h2 j
  have hr := FilterScorer.reset_list fs j
  rw [if_pos (by omega)] at hr
  rw [hr] at h3 h4
  rw [if_pos hj] at h4
  simp only [Int.zero_add] at h3 h4
  have hz : zoneScore e SF x y j
      = ((((List.range 8).flatMap fun yy => (List.range 8).map fun xx => (x + xx, y + yy)).filter
          (isEncoded e)).map (pairError e SF j)).sum := rfl
  rw [hz, ← h4]
  cases hs : (List.foldl
      (fun sc (pxy : Nat × Nat) =>
        if e.hasRGB pxy.1 pxy.2 then sc
        else if e.visited pxy.1 pxy.2 then sc
        else scorePixel e SF CF pxy.1 pxy.2 sc) fs.reset
      ((List.range 8).flatMap fun yy => (List.range 8).map fun xx => (x + xx, y + yy)))._list j
  rw [hs] at h3
  simp only at h3
  rw [h3]

theorem roundHalfEven_bounds (x : ℚ) :
    x - 1 / 2 ≤ (roundHalfEven x : ℚ) ∧ (roundHalfEven x : ℚ) ≤ x + 1 / 2 := by
  have h1 : ((⌊x⌋ : ℤ) : ℚ) ≤ x := Int.floor_le x
  have h2 : x < ((⌊x⌋ : ℤ) : ℚ) + 1 := Int.lt_floor_add_one x
  unfold roundHalfEven
  simp only
  split_ifs <;> push_cast <;> constructor <;> linarith

theorem roundDouble_binade0 (q : ℚ) (h1 : 1 ≤ q) (h2 : q < 2) :
    roundDouble q = (roundHalfEven (q * 2 ^ 52) : ℚ) / 2 ^ 52 := by
  have hq0 : q ≠ 0 := by linarith
  have habs : |q| = q := abs_of_pos (by linarith)
  have hfl : ⌊q⌋₊ = 1 := by
    rw [Nat.floor_eq_iff (by linarith)]
    constructor <;> norm_num <;> linarith
  have hlog : Int.log 2 q = 0 := by
    rw [Int.log_of_one_le_right 2 h1, hfl]
    simp
  unfold roundDouble
  rw [if_neg hq0]
  simp only [habs, hlog, if_neg (not_lt.mpr (by linarith : (0 : ℚ) ≤ q))]
  have hz : (2 : ℚ) ^ ((0 : ℤ) - 52) = 1 / 2 ^ 52 := by norm_num [zpow_neg]
  rw [hz]
  field_simp

theorem roundDouble_ge_two (q : ℚ) (h2 : 2 ≤ q) : 2 ≤ roundDouble q := by
  have hq0 : q ≠ 0 := by linarith
  have hpos : 0 < q := by linarith
  have habs : |q| = q := abs_of_pos hpos
  have hle := Int.zpow_log_le_self (show 1 < 2 by decide) hpos
  have he : 1 ≤ Int.log 2 q := by
    rw [← Int.zpow_le_iff_le_log (by decide) hpos]
    simpa using h2
  unfold roundDouble
  rw [if_neg hq0]
  simp only [habs, if_neg (not_lt.mpr hpos.le)]
  generalize Int.log 2 q = e at hle he
  have hulp : (0 : ℚ) < 2 ^ (e - 52) := zpow_pos (by norm_num) _
  have hdiv : (2 : ℚ) ^ (52 : ℤ) ≤ q / 2 ^ (e - 52) := by
    rw [le_div_iff₀ hulp, ← zpow_add₀ (by norm_num)]
    simpa using hle
  have hb := (roundHalfEven_bounds (q / 2 ^ (e - 52))).1
  have hm : (2 : ℤ) ^ 52 ≤ roundHalfEven (q / 2 ^ (e - 52)) := by
    have : ((2 : ℤ) ^ 52 - 1 : ℤ) < roundHalfEven (q / 2 ^ (e - 52)) := by
      have h3 : (((2 : ℤ) ^ 52 - 1 : ℤ) : ℚ) < (roundHalfEven (q / 2 ^ (e - 52)) : ℚ) := by
        push_cast
        have : (2 : ℚ) ^ (52 : ℤ) = 2 ^ 52 := by norm_num
        linarith
      exact_mod_cast h3
    omega
  have hm' : ((2 : ℚ) ^ (52 : ℤ)) ≤ (roundHalfEven (q / 2 ^ (e - 52)) : ℚ) := by
    have : (((2 : ℤ) ^ 52 : ℤ) : ℚ) ≤ (roundHalfEven (q / 2 ^ (e - 52)) : ℚ) := by exact_mod_cast hm
    have e2 : (((2 : ℤ) ^ 52 : ℤ) : ℚ) = (2 : ℚ) ^ (52 : ℤ) := by norm_num
    rwa [e2] at this
  calc (2 : ℚ) ≤ 2 ^ e := by
        have : (2 : ℚ) ^ (1 : ℤ) ≤ 2 ^ e := zpow_le_zpow_right₀ (by norm_num) he
        simpa using this
    _ = 2 ^ (52 : ℤ) * 2 ^ (e - 52) := by rw [← zpow_add₀ (by norm_num)]; simp
    _ ≤ 1 * (roundHalfEven (q / 2 ^ (e - 52)) : ℚ) * 2 ^ (e - 52) := by
        rw [one_mul]
        exact mul_le_mul_of_nonneg_right hm' hulp.le

theorem roundDouble_lit : roundDouble (6 / 5) = 5404319552844595 / 2 ^ 52 := by
  rw [roundDouble_binade0 _ (by norm_num) (by norm_num)]
  have hf : ⌊(6 / 5 : ℚ) * 2 ^ 52⌋ = 5404319552844595 := by
    rw [Int.floor_eq_iff]
    constructor <;> norm_num
  have : roundHalfEven ((6 / 5 : ℚ) * 2 ^ 52) = 5404319552844595 := by
    unfold roundHalfEven
    simp only [hf]
    rw [if_pos (by norm_num)]
  rw [this]
  norm_num

/-- For `int`s `0 < b < a < 2^31`, the `double` quotient is below the literal `1.2` exactly
when `5a < 6b`. -/
theorem ratio_lt_iff (a b : ℤ) (hb : 0 < b) (hba : b < a) (ha : a < 2 ^ 31) :
    roundDouble ((a : ℚ) / b) < roundDouble (6 / 5) ↔ 5 * a < 6 * b := by
  have hbq : (0 : ℚ) < b := by exact_mod_cast hb
  have hq1 : (1 : ℚ) ≤ (a : ℚ) / b := by
    rw [one_le_div hbq]; exact_mod_cast hba.le
  rw [roundDouble_lit]
  constructor
  · intro h
    by_contra hn
    have hge : (6 : ℚ) / 5 ≤ (a : ℚ) / b := by
      rw [div_le_div_iff₀ (by norm_num) hbq]
      have : (6 : ℤ) * b ≤ 5 * a := by omega
      have : ((6 * b : ℤ) : ℚ) ≤ ((5 * a : ℤ) : ℚ) := by exact_mod_cast this
      push_cast at this
      linarith
    by_cases h2 : (a : ℚ) / b < 2
    · rw [roundDouble_binade0 _ hq1 h2] at h
      have hb1 := (roundHalfEven_bounds ((a : ℚ) / b * 2 ^ 52)).1
      have hm : (5404319552844595 : ℤ) ≤ roundHalfEven ((a : ℚ) / b * 2 ^ 52) := by
        have : ((5404319552844594 : ℤ) : ℚ) < (roundHalfEven ((a : ℚ) / b * 2 ^ 52) : ℚ) := by
          push_cast
          have : (6 : ℚ) / 5 * 2 ^ 52 ≤ (a : ℚ) / b * 2 ^ 52 :=
            mul_le_mul_of_nonneg_right hge (by norm_num)
          norm_num at this ⊢
          linarith
        have : (5404319552844594 : ℤ) < roundHalfEven ((a : ℚ) / b * 2 ^ 52) := by
          exact_mod_cast this
        omega
      have hm' : ((5404319552844595 : ℤ) : ℚ) ≤ (roundHalfEven ((a : ℚ) / b * 2 ^ 52) : ℚ) := by
        exact_mod_cast hm
      rw [div_lt_div_iff_of_pos_right (by norm_num)] at h
      push_cast at hm'
      linarith
    · have := roundDouble_ge_two _ (not_lt.mp h2)
      have h3 : (5404319552844595 : ℚ) / 2 ^ 52 < 2 := by norm_num
      linarith
  · intro h
    have hlt : (a : ℚ) / b ≤ 6 / 5 - 1 / (5 * b) := by
      have h5 : (5 : ℤ) * a + 1 ≤ 6 * b := by omega
      have h5q : ((5 * a + 1 : ℤ) : ℚ) ≤ ((6 * b : ℤ) : ℚ) := by exact_mod_cast h5
      push_cast at h5q
      have e1 : (6 : ℚ) / 5 - 1 / (5 * b) = (6 * b - 1) / (5 * b) := by
        field_simp
        ring
      rw [e1, div_le_div_iff₀ hbq (by positivity)]
      nlinarith [mul_nonneg hbq.le (sub_nonneg.mpr h5q)]
    have hb31 : (b : ℚ) < 2 ^ 31 := by
      have : b < 2 ^ 31 := by omega
      exact_mod_cast this
    have hinv : (1 : ℚ) / (5 * 2 ^ 31) ≤ 1 / (5 * b) := by
      apply one_div_le_one_div_of_le (by positivity)
      linarith
    have h2 : (a : ℚ) / b < 2 := by
      have : (0 : ℚ) < 1 / (5 * b) := by positivity
      linarith
    rw [roundDouble_binade0 _ hq1 h2, div_lt_div_iff_of_pos_right (by norm_num)]
    have hb2 := (roundHalfEven_bounds ((a : ℚ) / b * 2 ^ 52)).2
    have hmul : (a : ℚ) / b * 2 ^ 52 ≤ (6 / 5 - 1 / (5 * 2 ^ 31)) * 2 ^ 52 :=
      mul_le_mul_of_nonneg_right (by linarith) (by norm_num)
    norm_num at hmul ⊢
    linarith

/-- The loop "find worst default filter" returns the count and the index of
the first default predictor of least count. -/
theorem findLowest_spec (SF_COUNT : Nat) (bestHist : Nat → Int) (hSF : 0 < SF_COUNT)
    (hmax : ∀ i, i < SF_COUNT → bestHist i ≤ 0x7fffffff) :
    (findLowest SF_COUNT bestHist).1 = bestHist (findLowest SF_COUNT bestHist).2 ∧
      IsLeastMin bestHist SF_COUNT (findLowest SF_COUNT bestHist).2 := by
  have key : ∀ n, n ≤ SF_COUNT →
      ∀ r, r = (List.range n).foldl
        (fun (s : Int × Nat) ii => if bestHist ii < s.1 then (bestHist ii, ii) else s)
        (0x7fffffff, 0) →
      (∀ j, j < n → r.1 ≤ bestHist j) ∧
        ((r.1 = 0x7fffffff ∧ r.2 = 0) ∨
          (r.2 < n ∧ r.1 = bestHist r.2 ∧ ∀ j, j < r.2 → r.1 < bestHist j)) := by
    intro n
    induction n with
    | zero =>
        intro _ r hr
        subst hr
        refine ⟨fun j hj => absurd hj (Nat.not_lt_zero j), Or.inl ⟨rfl, rfl⟩⟩
    | succ n ih =>
        intro hn r hr
        rw [List.range_succ, List.foldl_append, List.foldl_cons, List.foldl_nil] at hr
        obtain ⟨h1, h2⟩ := ih (by omega) _ rfl
        generalize (List.range n).foldl
          (fun (s : Int × Nat) ii => if bestHist ii < s.1 then (bestHist ii, ii) else s)
          (0x7fffffff, 0) = r0 at hr h1 h2
        by_cases hc : bestHist n < r0.1
        · rw [if_pos hc] at hr
          subst hr
          refine ⟨?_, Or.inr ⟨Nat.lt_succ_self n, rfl, ?_⟩⟩
          · intro j hj
            by_cases hjn : j = n
            · subst hjn; exact le_refl _
            · have := h1 j (by omega)
              show bestHist n ≤ bestHist j
              omega
          · intro j hj
            have := h1 j hj
            show bestHist n < bestHist j
            omega
        · rw [if_neg hc] at hr
          subst hr
          refine ⟨?_, ?_⟩
          · intro j hj
            by_cases hjn : j = n
            · subst hjn; omega
            · exact h1 j (by omega)
          · rcases h2 with h2 | ⟨a, b, c⟩
            · exact Or.inl h2
            · exact Or.inr ⟨by omega, b, c⟩
  obtain ⟨h1, h2⟩ := key SF_COUNT (le_refl _) (findLowest SF_COUNT bestHist) rfl
  generalize findLowest SF_COUNT bestHist = r at h1 h2
  rcases h2 with ⟨a, b⟩ | ⟨a, b, c⟩
  · have h0 := h1 0 hSF
    have h0' := hmax 0 hSF
    have e0 : r.1 = bestHist r.2 := by rw [b]; omega
    refine ⟨e0, ?_, ?_, ?_⟩
    · rw [b]; exact hSF
    · intro j hj
      rw [← e0]
      exact h1 j hj
    · intro j hj
      rw [b] at hj
      exact absurd hj (Nat.not_lt_zero j)
  · refine ⟨b, a, ?_, ?_⟩
    · intro j hj
      rw [← b]
      exact h1 j hj
    · intro j hj
      rw [← b]
      exact c j hj

/-- The loop "find best custom filter" returns the count and the index of the
first tapped predictor of greatest count. -/
theorem findBest_spec (SF_COUNT TAPPED_COUNT : Nat) (bestHist : Nat → Int)
    (hT : 0 < TAPPED_COUNT)
    (hmin : ∀ i, i < TAPPED_COUNT → 0 ≤ bestHist (i + SF_COUNT)) :
    ∃ hi : Nat, (findBest SF_COUNT TAPPED_COUNT bestHist).2 = (hi : Int) ∧
      (findBest SF_COUNT TAPPED_COUNT bestHist).1 = bestHist (hi + SF_COUNT) ∧
      IsFirstMax (fun k => bestHist (k + SF_COUNT)) TAPPED_COUNT hi := by
  have key : ∀ n, n ≤ TAPPED_COUNT →
      ∀ r, r = (List.range n).foldl
        (fun (s : Int × Int) ii =>
          let score := bestHist (ii + SF_COUNT)
          if score > s.1 then (score, (ii : Int)) else s)
        (-1, -1) →
      (n = 0 ∧ r.1 = -1) ∨
        (∃ hi : Nat, r.2 = (hi : Int) ∧ r.1 = bestHist (hi + SF_COUNT) ∧
          IsFirstMax (fun k => bestHist (k + SF_COUNT)) n hi) := by
    intro n
    induction n with
    | zero =>
        intro _ r hr
        subst hr
        exact Or.inl ⟨rfl, rfl⟩
    | succ n ih =>
        intro hn r hr
        rw [List.range_succ, List.foldl_append, List.foldl_cons, List.foldl_nil] at hr
        have h2 := ih (by omega) _ rfl
        generalize (List.range n).foldl
          (fun (s : Int × Int) ii =>
            let score := bestHist (ii + SF_COUNT)
            if score > s.1 then (score, (ii : Int)) else s)
          (-1, -1) = r0 at hr h2
        simp only [] at hr
        have hn0 := hmin n (by omega)
        right
        by_cases hc : bestHist (n + SF_COUNT) > r0.1
        · rw [if_pos hc] at hr
          subst hr
          refine ⟨n, rfl, rfl, Nat.lt_succ_self n, ?_, ?_⟩
          · intro j hj
            by_cases hjn : j = n
            · subst hjn; exact le_refl _
            · rcases h2 with ⟨a, _⟩ | ⟨k, _, b, _, c, _⟩
              · omega
              · have := c j (by omega)
                beta_reduce at this ⊢
                omega
          · intro j hj
            rcases h2 with ⟨a, _⟩ | ⟨k, _, b, _, c, _⟩
            · omega
            · have := c j hj
              beta_reduce at this ⊢
              omega
        · rw [if_neg hc] at hr
          subst hr
          rcases h2 with ⟨a, b⟩ | ⟨k, a, b, c, d, f⟩
          · omega
          · refine ⟨k, a, b, by omega, ?_, f⟩
            intro j hj
            by_cases hjn : j = n
            · subst hjn
              beta_reduce
              omega
            · exact d j (by omega)
  rcases key TAPPED_COUNT (le_refl _) (findBest SF_COUNT TAPPED_COUNT bestHist) rfl with
    ⟨a, _⟩ | h
  · omega
  · exact h

/-- The test `ratio < 1.2` of `designFilters` on a tapped count above the
  default count: it holds exactly when `5·tapped < 6·default`. -/
theorem ratioBelow_iff (t d : Int) (hd : 0 ≤ d) (hdt : d < t) (ht : t ≤ 0x7fffffff) :
    ratioBelow (ratioOf t d) = true ↔ 5 * t < 6 * d := by
  unfold ratioOf
  by_cases h0 : d = 0
  · subst h0
    rw [if_pos rfl, if_pos hdt]
    simp only [ratioBelow]
    constructor
    · intro h; exact absurd h (by decide)
    · intro h; omega
  · rw [if_neg h0]
    simp only [ratioBelow, decide_eq_true_eq]
    exact ratio_lt_iff t d (by omega) hdt (by omega)

/-- C24: one iteration of the replacement loop of `designFilters`, on
preference counts between 0 and `0x7fffffff` with at least one default and one
tapped predictor. With `li` the first default predictor of least count and `hi`
the first tapped predictor of greatest count, the iteration replaces `li` by
`hi` (and installs the two grave markers) exactly when the tapped count is
strictly greater than the default count and `5·tapped ≥ 6·default`; otherwise
the loop stops and makes no further replacement. The counts stay in range, so
the same holds in the next iteration. -/
theorem C24_replacement_rule (SF_COUNT TAPPED_COUNT : Nat) (bestHist : Nat → Int)
    (hSF : 0 < SF_COUNT) (hT : 0 < TAPPED_COUNT)
    (hrange : ∀ i, i < SF_COUNT + TAPPED_COUNT → 0 ≤ bestHist i ∧ bestHist i ≤ 0x7fffffff) :
    ∃ li hi, IsLeastMin bestHist SF_COUNT li ∧
      IsFirstMax (fun k => bestHist (k + SF_COUNT)) TAPPED_COUNT hi ∧
      replaceStep SF_COUNT TAPPED_COUNT bestHist =
        (if bestHist li < bestHist (hi + SF_COUNT) ∧
            6 * bestHist li ≤ 5 * bestHist (hi + SF_COUNT) then
          some ((li, (hi : Int)),
            setByte (setByte bestHist li 0x7fffffff) (hi + SF_COUNT) 0)
        else none) ∧
      (∀ n, replaceLoop SF_COUNT TAPPED_COUNT (n + 1) bestHist =
        (if bestHist li < bestHist (hi + SF_COUNT) ∧
            6 * bestHist li ≤ 5 * bestHist (hi + SF_COUNT) then
          (li, (hi : Int)) :: replaceLoop SF_COUNT TAPPED_COUNT n
            (setByte (setByte bestHist li 0x7fffffff) (hi + SF_COUNT) 0)
        else [])) ∧
      (∀ i, i < SF_COUNT + TAPPED_COUNT →
        0 ≤ setByte (setByte bestHist li 0x7fffffff) (hi + SF_COUNT) 0 i ∧
          setByte (setByte bestHist li 0x7fffffff) (hi + SF_COUNT) 0 i ≤ 0x7fffffff) := by
  obtain ⟨l1, l2⟩ := findLowest_spec SF_COUNT bestHist hSF
    (fun i hi => (hrange i (by omega)).2)
  obtain ⟨hi, b1, b2, b3⟩ := findBest_spec SF_COUNT TAPPED_COUNT bestHist hT
    (fun i hi => (hrange (i + SF_COUNT) (by omega)).1)
  have hstep : replaceStep SF_COUNT TAPPED_COUNT bestHist =
      (if bestHist (findLowest SF_COUNT bestHist).2 < bestHist (hi + SF_COUNT) ∧
          6 * bestHist (findLowest SF_COUNT bestHist).2 ≤ 5 * bestHist (hi + SF_COUNT) then
        some (((findLowest SF_COUNT bestHist).2, (hi : Int)),
          setByte (setByte bestHist (findLowest SF_COUNT bestHist).2 0x7fffffff)
            (hi + SF_COUNT) 0)
      else none) := by
    unfold replaceStep
    simp only []
    have hd := hrange (findLowest SF_COUNT bestHist).2 (by have := l2.1; omega)
    have ht := hrange (hi + SF_COUNT) (by have := b3.1; omega)
    rw [b1, b2, l1]
    by_cases hle : bestHist (hi + SF_COUNT) ≤ bestHist (findLowest SF_COUNT bestHist).2
    · rw [if_pos hle, if_neg (fun h => absurd h.1 (not_lt.mpr hle))]
    · rw [if_neg hle]
      have hiff := ratioBelow_iff (bestHist (hi + SF_COUNT))
        (bestHist (findLowest SF_COUNT bestHist).2) hd.1 (not_le.mp hle) ht.2
      by_cases hr : ratioBelow (ratioOf (bestHist (hi + SF_COUNT))
          (bestHist (findLowest SF_COUNT bestHist).2)) = true
      · rw [if_pos hr, if_neg]
        have := hiff.mp hr
        intro h
        omega
      · rw [if_neg hr, if_pos]
        · have e : ((hi : Int) + (SF_COUNT : Int)).toNat = hi + SF_COUNT := by omega
          rw [e]
        · have : ¬ (5 * bestHist (hi + SF_COUNT)
              < 6 * bestHist (findLowest SF_COUNT bestHist).2) := fun h => hr (hiff.mpr h)
          constructor <;> omega
  refine ⟨(findLowest SF_COUNT bestHist).2, hi, l2, b3, hstep, ?_, ?_⟩
  · intro n
    show (match replaceStep SF_COUNT TAPPED_COUNT bestHist with
      | none => []
      | some (r, bestHist1) => r :: replaceLoop SF_COUNT TAPPED_COUNT n bestHist1) = _
    rw [hstep]
    split_ifs <;> rfl
  · intro i hi2
    have := hrange i hi2
    unfold setByte
    split_ifs <;> omega

/-- Witness for C24: two default predictors with counts 10 and 5, two tapped
ones with counts 6 and 3. -/
theorem C24_replacement_rule_witness :
    ∃ li hi, IsLeastMin bestHistExample 2 li ∧
      IsFirstMax (fun k => bestHistExample (k + 2)) 2 hi ∧
      replaceStep 2 2 bestHistExample =
        (if bestHistExample li < bestHistExample (hi + 2) ∧
            6 * bestHistExample li ≤ 5 * bestHistExample (hi + 2) then
          some ((li, (hi : Int)),
            setByte (setByte bestHistExample li 0x7fffffff) (hi + 2) 0)
        else none) ∧
      (∀ n, replaceLoop 2 2 (n + 1) bestHistExample =
        (if bestHistExample li < bestHistExample (hi + 2) ∧
            6 * bestHistExample li ≤ 5 * bestHistExample (hi + 2) then
          (li, (hi : Int)) :: replaceLoop 2 2 n
            (setByte (setByte bestHistExample li 0x7fffffff) (hi + 2) 0)
        else [])) ∧
      (∀ i, i < 2 + 2 →
        0 ≤ setByte (setByte bestHistExample li 0x7fffffff) (hi + 2) 0 i ∧
          setByte (setByte bestHistExample li 0x7fffffff) (hi + 2) 0 i ≤ 0x7fffffff) :=
  C24_replacement_rule 2 2 bestHistExample (by decide) (by decide)
    (by
      intro i hi
      have h : i = 0 ∨ i = 1 ∨ i = 2 ∨ i = 3 := by omega
      rcases h with h | h | h | h <;> subst h <;> decide)

/-! ## C31, C32: table lookups and the chaos row buffer -/

/-- Invariant rule for a counted loop whose outputs all satisfy `P`. -/
theorem loopOver_forall {σ ε : Type} (body : Nat → σ → σ × List ε) (Inv : Nat → σ → Prop)
    (P : ε → Prop) (N : Nat)
    (hstep : ∀ x s, x < N → Inv x s → Inv (x + 1) (body x s).1 ∧ ∀ ev ∈ (body x s).2, P ev) :
    ∀ n a s, a + n ≤ N → Inv a s →
      Inv (a + n) (loopOver body (List.range' a n) s).1 ∧
      ∀ ev ∈ (loopOver body (List.range' a n) s).2, P ev := by
  intro n
  induction n with
  | zero =>
      intro a s _ hi
      refine ⟨by simpa [loopOver] using hi, ?_⟩
      intro ev hev
      simp [loopOver] at hev
  | succ n ih =>
      intro a s hle hi
      obtain ⟨h1, h2⟩ := hstep a s (by omega) hi
      obtain ⟨h3, h4⟩ := ih (a + 1) (body a s).1 (by omega) h1
      refine ⟨?_, ?_⟩
      · have : a + (n + 1) = a + 1 + n := by omega
        rw [this]
        simpa [List.range', loopOver] using h3
      · intro ev hev
        simp only [List.range', loopOver, List.mem_append] at hev
        rcases hev with hev | hev
        · exact h2 ev hev
        · exact h4 ev hev

/-- Invariant rule for the two nested scanline loops: an invariant of the
loop state that holds at pixel `(0,0)`, is kept by every pixel step and
carries over from the end of a row to the start of the next makes every
observation satisfy `P`. -/
theorem scanObserve_forall {β : Type} (e : CMEnv) (step : Nat → Nat → ScanState → ScanState)
    (obs : Nat → Nat → ScanState → List β) (Inv : Nat → Nat → ScanState → Prop)
    (P : β → Prop)
    (hstep : ∀ y x s, y < e.height → x < e.width → Inv y x s →
      Inv y (x + 1) (step y x s) ∧ ∀ b ∈ obs y x s, P b)
    (hrow : ∀ y s, Inv y e.width s → Inv (y + 1) 0 { s with last := COLOR_PLANES })
    (s0 : ScanState) (h0 : Inv 0 0 { s0 with last := COLOR_PLANES }) :
    ∀ b ∈ (loopOver
        (fun y s =>
          loopOver (fun x s => (step y x s, obs y x s)) (List.range e.width)
            { s with last := COLOR_PLANES })
        (List.range e.height) s0).2, P b := by
  have hr := loopOver_forall
    (fun y s =>
      loopOver (fun x s => (step y x s, obs y x s)) (List.range e.width)
        { s with last := COLOR_PLANES })
    (fun y (s : ScanState) => Inv y 0 { s with last := COLOR_PLANES }) P e.height
    (fun y s hy hi => by
      have := loopOver_forall (fun x s => (step y x s, obs y x s)) (fun x s => Inv y x s) P
        e.width (fun x s hx hi => hstep y x s hy hx hi) e.width 0
        { s with last := COLOR_PLANES } (by omega) hi
      rw [← List.range_eq_range'] at this
      refine ⟨hrow y _ (by simpa using this.1), this.2⟩)
    e.height 0 s0 (by omega) h0
  rw [← List.range_eq_range'] at hr
  exact hr.2

theorem isByte_toU8 (v : Int) : IsByte (toU8 v) := by
  unfold IsByte toU8
  omega

theorem isByte_zero : IsByte 0 := by
  unfold IsByte
  omega

/-- The pixel body of `chaosStats` stores bytes into the row buffer. -/
theorem chaosStatsPixel_bytes (e : CMEnv) (matrix : Nat → Int) (T : Int → Int) (y x : Nat)
    (s : ScanState) (hyuv : yuvBytes e) (hs : ∀ k, IsByte (s.chaos k)) :
    ∀ k, IsByte ((chaosStatsPixel e matrix T y x s).1.chaos k) := by
  intro k
  have hy := hyuv (toU8 (getFilter e matrix x y))
    (toU8 (e.rgba s.p - (e.SPATIAL_FILTERS (toU8 (getFilter e matrix x y >>> 8)) e.rgba s.p x y
        e.width).1),
     toU8 (e.rgba (s.p + 1) - (e.SPATIAL_FILTERS (toU8 (getFilter e matrix x y >>> 8)) e.rgba
        s.p x y e.width).2.1),
     toU8 (e.rgba (s.p + 2) - (e.SPATIAL_FILTERS (toU8 (getFilter e matrix x y >>> 8)) e.rgba
        s.p x y e.width).2.2))
    (isByte_toU8 _) (isByte_toU8 _) (isByte_toU8 _)
  by_cases henc : (!e.visited x y && !e.hasRGB x y) = true
  · simp only [chaosStatsPixel, henc, ↓reduceIte]
    dsimp only [setByte]
    split_ifs <;>
      first
        | exact isByte_toU8 _
        | exact hy.2.2
        | exact hy.2.1
        | exact hy.1
        | exact hs k
  · simp only [chaosStatsPixel, henc, Bool.false_eq_true, ↓reduceIte]
    dsimp only [setByte]
    split_ifs <;>
      first
        | exact isByte_zero
        | exact hs k

/-- The index of a lookup on a buffer of bytes lies in `[0, 256]`. -/
theorem chaosLookup_index (T : Int → Int) (y x : Nat) (s : ScanState) (c : Nat)
    (hs : ∀ k, IsByte (s.chaos k)) :
    (chaosLookup T y x s c).index
        = chaosScore (chaosLookup T y x s c).left + chaosScore (chaosLookup T y x s c).above ∧
      0 ≤ (chaosLookup T y x s c).index ∧ (chaosLookup T y x s c).index ≤ 256 := by
  have h1 := hs (s.last + c - 4)
  have h2 := hs (s.last + c)
  unfold IsByte at h1 h2
  refine ⟨rfl, ?_, ?_⟩ <;> simp only [chaosLookup, chaosScore] <;> split_ifs <;> omega

/-- The table `chaosStats` selects maps `[0, 256]` below the level count it
selects, when `CHAOS_TABLE_8` stays below 8 and `CHAOS_TABLE_1` is 0 there. -/
theorem chaosLevels_table (e : CMEnv)
    (h8 : ∀ i, 0 ≤ i → i ≤ 256 → 0 ≤ e.CHAOS_TABLE_8 i ∧ e.CHAOS_TABLE_8 i < 8)
    (h1 : ∀ i, 0 ≤ i → i ≤ 256 → e.CHAOS_TABLE_1 i = 0) :
    (chaosLevels e).1 ≤ 8 ∧
    ∀ i, 0 ≤ i → i ≤ 256 →
      0 ≤ toU8 (chaosTableOf e (chaosLevels e).2 i) ∧
        toU8 (chaosTableOf e (chaosLevels e).2 i) < (chaosLevels e).1 := by
  unfold chaosLevels
  by_cases hc : chaosCount e ≥ e.CHAOS_THRESH
  · rw [if_pos hc]
    refine ⟨by decide, ?_⟩
    intro i hi0 hi
    have := h8 i hi0 hi
    simp only [chaosTableOf, toU8, CHAOS_LEVELS_MAX]
    omega
  · rw [if_neg hc]
    refine ⟨by decide, ?_⟩
    intro i hi0 hi
    have := h1 i hi0 hi
    simp only [chaosTableOf, toU8, this]
    omega

/-- The lookups recorded along `writeChaos` are, as (plane, chaos index), its
residual writes. -/
theorem writeChaosObserve_lookups (e : CMEnv) (matrix : Nat → Int) (tbl : ChaosTableId) :
    (writeChaosObserve e matrix tbl (chaosLookups e (chaosTableOf e tbl))).map
        ChaosLookup.planeChaos
      = ((writeChaosPixels e matrix tbl).filterMap residualOf).map PlaneSym.planeChaos := by
  unfold writeChaosObserve writeChaosPixels
  simp only []
  refine (loopOver_congr_proj2 (List.map ChaosLookup.planeChaos)
    (fun l => (l.filterMap residualOf).map PlaneSym.planeChaos) rfl
    (fun a b => List.map_append _ a b)
    (fun a b => by simp only [List.filterMap_append, List.map_append]) _ _ ?_ _ _).2
  intro y s
  refine loopOver_congr_proj2 (List.map ChaosLookup.planeChaos)
    (fun l => (l.filterMap residualOf).map PlaneSym.planeChaos) rfl
    (fun a b => List.map_append _ a b)
    (fun a b => by simp only [List.filterMap_append, List.map_append]) _ _ ?_ _ _
  intro x s
  refine ⟨rfl, ?_⟩
  by_cases hxz : x &&& 7 = 0 ∧ y &&& 7 = 0 <;>
    by_cases hf : getFilter e matrix x y = e.UNUSED_FILTER <;>
    by_cases hv : e.visited x y = true <;> by_cases hm : e.hasRGB x y = true <;>
    simp [writeChaosPixel, chaosLookups, chaosLookup, hxz, hf, hv, hm, residualOf,
      ChaosLookup.planeChaos, PlaneSym.planeChaos]

/-- The lookups recorded along `chaosStats` are, as (plane, chaos index), its
`add` calls. -/
theorem chaosStatsObserve_lookups (e : CMEnv) (matrix : Nat → Int) :
    (chaosStatsObserve e matrix
        (chaosLookups e (chaosTableOf e (chaosStats e matrix).chaos_table))).map
        ChaosLookup.planeChaos
      = (chaosStats e matrix).adds.map PlaneSym.planeChaos := by
  unfold chaosStatsObserve chaosStats
  simp only []
  refine (loopOver_congr_proj2 (List.map ChaosLookup.planeChaos)
    (List.map PlaneSym.planeChaos) rfl
    (fun a b => List.map_append _ a b) (fun a b => List.map_append _ a b) _ _ ?_ _ _).2
  intro y s
  refine loopOver_congr_proj2 (List.map ChaosLookup.planeChaos)
    (List.map PlaneSym.planeChaos) rfl
    (fun a b => List.map_append _ a b) (fun a b => List.map_append _ a b) _ _ ?_ _ _
  intro x s
  refine ⟨rfl, ?_⟩
  by_cases hv : e.visited x y = true <;> by_cases hm : e.hasRGB x y = true <;>
    simp [chaosStatsPixel, chaosLookups, chaosLookup, hv, hm,
      ChaosLookup.planeChaos, PlaneSym.planeChaos]

/-- Every lookup of a scanline pass that stores bytes (pixel step `step`) has
its index in `[0, 256]` and finds a chaos index below the level count. -/
theorem scanLookups_range (e : CMEnv) (step : Nat → Nat → ScanState → ScanState)
    (hstep : ∀ y x s, (∀ k, IsByte (s.chaos k)) → ∀ k, IsByte ((step y x s).chaos k))
    (h8 : ∀ i, 0 ≤ i → i ≤ 256 → 0 ≤ e.CHAOS_TABLE_8 i ∧ e.CHAOS_TABLE_8 i < 8)
    (h1 : ∀ i, 0 ≤ i → i ≤ 256 → e.CHAOS_TABLE_1 i = 0) :
    ∀ lk ∈ (loopOver
        (fun y s =>
          loopOver
            (fun x s => (step y x s, chaosLookups e (chaosTableOf e (chaosLevels e).2) y x s))
            (List.range e.width) { s with last := COLOR_PLANES })
        (List.range e.height) { chaos := fun _ => 0, last := COLOR_PLANES, p := 0 }).2,
      lk.index = chaosScore lk.left + chaosScore lk.above ∧ 0 ≤ lk.index ∧ lk.index ≤ 256 ∧
        0 ≤ lk.chaos ∧ lk.chaos < (chaosLevels e).1 := by
  refine scanObserve_forall e step _ (fun _ _ s => ∀ k, IsByte (s.chaos k)) _ ?_
    (fun _ _ h => h) _ (fun _ => isByte_zero)
  intro y x s _ _ hs
  refine ⟨hstep y x s hs, ?_⟩
  intro lk hlk
  have key : ∀ c, (chaosLookup (chaosTableOf e (chaosLevels e).2) y x s c).index
        = chaosScore (chaosLookup (chaosTableOf e (chaosLevels e).2) y x s c).left
          + chaosScore (chaosLookup (chaosTableOf e (chaosLevels e).2) y x s c).above ∧
      0 ≤ (chaosLookup (chaosTableOf e (chaosLevels e).2) y x s c).index ∧
      (chaosLookup (chaosTableOf e (chaosLevels e).2) y x s c).index ≤ 256 ∧
      0 ≤ (chaosLookup (chaosTableOf e (chaosLevels e).2) y x s c).chaos ∧
      (chaosLookup (chaosTableOf e (chaosLevels e).2) y x s c).chaos < (chaosLevels e).1 := by
    intro c
    obtain ⟨a1, a2, a3⟩ := chaosLookup_index (chaosTableOf e (chaosLevels e).2) y x s c hs
    have := (chaosLevels_table e h8 h1).2 _ a2 a3
    exact ⟨a1, a2, a3, this⟩
  unfold chaosLookups at hlk
  split at hlk
  · simp only [List.mem_cons, List.mem_singleton, List.not_mem_nil, or_false] at hlk
    rcases hlk with h | h | h | h <;> rw [h] <;> exact key _
  · cases hlk

/-- C31: in `chaosStats` and in `writeChaos` (run with the level count and the
table that `chaosStats` selected), every table lookup uses the index
`chaosScore(left) + chaosScore(above)`, which lies in `[0, 256]` and so inside
a 512-entry table, and finds a chaos index `< _chaos_levels ≤ 8`; the chaos
indices found are those of the `add` and `write` calls on the encoder arrays.
The colour filters store bytes; `CHAOS_TABLE_8` holds values below 8 and
`CHAOS_TABLE_1` zeros on `[0, 256]`, as the table `CHAOS_TABLE` of
`ImageFilterWriter.cpp` does on all its 512 entries. -/
theorem C31_chaos_lookups_in_range (e : CMEnv) (matrix : Nat → Int) (hyuv : yuvBytes e)
    (h8 : ∀ i, 0 ≤ i → i ≤ 256 → 0 ≤ e.CHAOS_TABLE_8 i ∧ e.CHAOS_TABLE_8 i < 8)
    (h1 : ∀ i, 0 ≤ i → i ≤ 256 → e.CHAOS_TABLE_1 i = 0) :
    (∀ lk ∈ chaosStatsObserve e matrix
        (chaosLookups e (chaosTableOf e (chaosStats e matrix).chaos_table)),
      lk.index = chaosScore lk.left + chaosScore lk.above ∧ 0 ≤ lk.index ∧ lk.index ≤ 256 ∧
        0 ≤ lk.chaos ∧ lk.chaos < (chaosStats e matrix).chaos_levels) ∧
    (∀ lk ∈ writeChaosObserve e matrix (chaosStats e matrix).chaos_table
        (chaosLookups e (chaosTableOf e (chaosStats e matrix).chaos_table)),
      lk.index = chaosScore lk.left + chaosScore lk.above ∧ 0 ≤ lk.index ∧ lk.index ≤ 256 ∧
        0 ≤ lk.chaos ∧ lk.chaos < (chaosStats e matrix).chaos_levels) ∧
    (chaosStats e matrix).chaos_levels ≤ 8 ∧
    (∀ r ∈ (chaosStats e matrix).adds,
      0 ≤ r.chaos ∧ r.chaos < (chaosStats e matrix).chaos_levels) ∧
    (∀ r ∈ (writeChaos e matrix (chaosStats e matrix).chaos_levels
        (chaosStats e matrix).chaos_table).filterMap residualOf,
      0 ≤ r.chaos ∧ r.chaos < (chaosStats e matrix).chaos_levels) ∧
    (∀ sum, sum < 512 → CHAOS_TABLE sum < 8) := by
  have hS := scanLookups_range e (fun y x s => (chaosStatsPixel e matrix
    (chaosTableOf e (chaosLevels e).2) y x s).1)
    (fun y x s hs => chaosStatsPixel_bytes e matrix _ y x s hyuv hs) h8 h1
  have hW := scanLookups_range e (fun y x s => (writeChaosPixel e matrix
    (chaosTableOf e (chaosLevels e).2) y x s).1)
    (fun y x s hs => by
      beta_reduce
      rw [(writeChaosPixel_eq_stats e matrix _ y x s).1]
      exact chaosStatsPixel_bytes e matrix _ y x s hyuv hs) h8 h1
  have hS' : ∀ lk ∈ chaosStatsObserve e matrix
        (chaosLookups e (chaosTableOf e (chaosStats e matrix).chaos_table)),
      lk.index = chaosScore lk.left + chaosScore lk.above ∧ 0 ≤ lk.index ∧ lk.index ≤ 256 ∧
        0 ≤ lk.chaos ∧ lk.chaos < (chaosStats e matrix).chaos_levels := hS
  have hW' : ∀ lk ∈ writeChaosObserve e matrix (chaosStats e matrix).chaos_table
        (chaosLookups e (chaosTableOf e (chaosStats e matrix).chaos_table)),
      lk.index = chaosScore lk.left + chaosScore lk.above ∧ 0 ≤ lk.index ∧ lk.index ≤ 256 ∧
        0 ≤ lk.chaos ∧ lk.chaos < (chaosStats e matrix).chaos_levels := hW
  refine ⟨hS', hW', (chaosLevels_table e h8 h1).1, ?_, ?_, ?_⟩
  · intro r hr
    have hm : r.planeChaos ∈ (chaosStats e matrix).adds.map PlaneSym.planeChaos :=
      List.mem_map_of_mem _ hr
    rw [← chaosStatsObserve_lookups] at hm
    obtain ⟨lk, hlk, heq⟩ := List.mem_map.mp hm
    have := hS' lk hlk
    have hc : lk.chaos = r.chaos := congrArg Prod.snd heq
    rw [← hc]
    exact ⟨this.2.2.2.1, this.2.2.2.2⟩
  · intro r hr
    have hr' : r ∈ (writeChaosPixels e matrix (chaosStats e matrix).chaos_table).filterMap
        residualOf := by
      rw [writeChaos_residualOf] at hr
      exact hr
    have hm : r.planeChaos ∈ ((writeChaosPixels e matrix
        (chaosStats e matrix).chaos_table).filterMap residualOf).map PlaneSym.planeChaos :=
      List.mem_map_of_mem _ hr'
    rw [← writeChaosObserve_lookups] at hm
    obtain ⟨lk, hlk, heq⟩ := List.mem_map.mp hm
    have := hW' lk hlk
    have hc : lk.chaos = r.chaos := congrArg Prod.snd heq
    rw [← hc]
    exact ⟨this.2.2.2.1, this.2.2.2.2⟩
  · intro sum hsum
    rw [CHAOS_TABLE_steps sum hsum]
    split_ifs <;> omega

/-- Witness for C31: the 8×8 writer `envAlpha`, whose colour filter is the
identity and whose `CHAOS_TABLE_8` is the table of `ImageFilterWriter.cpp`. -/
theorem C31_chaos_lookups_in_range_witness :
    (∀ lk ∈ chaosStatsObserve envAlpha (fun _ => 0)
        (chaosLookups envAlpha
          (chaosTableOf envAlpha (chaosStats envAlpha (fun _ => 0)).chaos_table)),
      lk.index = chaosScore lk.left + chaosScore lk.above ∧ 0 ≤ lk.index ∧ lk.index ≤ 256 ∧
        0 ≤ lk.chaos ∧ lk.chaos < (chaosStats envAlpha (fun _ => 0)).chaos_levels) ∧
    (∀ lk ∈ writeChaosObserve envAlpha (fun _ => 0)
        (chaosStats envAlpha (fun _ => 0)).chaos_table
        (chaosLookups envAlpha
          (chaosTableOf envAlpha (chaosStats envAlpha (fun _ => 0)).chaos_table)),
      lk.index = chaosScore lk.left + chaosScore lk.above ∧ 0 ≤ lk.index ∧ lk.index ≤ 256 ∧
        0 ≤ lk.chaos ∧ lk.chaos < (chaosStats envAlpha (fun _ => 0)).chaos_levels) ∧
    (chaosStats envAlpha (fun _ => 0)).chaos_levels ≤ 8 ∧
    (∀ r ∈ (chaosStats envAlpha (fun _ => 0)).adds,
      0 ≤ r.chaos ∧ r.chaos < (chaosStats envAlpha (fun _ => 0)).chaos_levels) ∧
    (∀ r ∈ (writeChaos envAlpha (fun _ => 0) (chaosStats envAlpha (fun _ => 0)).chaos_levels
        (chaosStats envAlpha (fun _ => 0)).chaos_table).filterMap residualOf,
      0 ≤ r.chaos ∧ r.chaos < (chaosStats envAlpha (fun _ => 0)).chaos_levels) ∧
    (∀ sum, sum < 512 → CHAOS_TABLE sum < 8) :=
  C31_chaos_lookups_in_range envAlpha (fun _ => 0) (fun _ _ a b c => ⟨a, b, c⟩)
    (fun i h0 h256 => by
      have hlt : i.toNat < 512 := by omega
      have := CHAOS_TABLE_steps i.toNat hlt
      show (0 : Int) ≤ (CHAOS_TABLE i.toNat : Int) ∧ (CHAOS_TABLE i.toNat : Int) < 8
      rw [this]
      split_ifs <;> simp)
    (fun _ _ _ => rfl)

/-- The pixel body of `chaosStats` stores only into the four entries at the
cursor. -/
theorem chaosStatsPixel_frame (e : CMEnv) (matrix : Nat → Int) (T : Int → Int) (y x : Nat)
    (s : ScanState) (k : Nat) (hk : k < s.last ∨ s.last + 4 ≤ k) :
    (chaosStatsPixel e matrix T y x s).1.chaos k = s.chaos k := by
  have h0 : ¬ k = s.last + 0 := by omega
  have h1 : ¬ k = s.last + 1 := by omega
  have h2 : ¬ k = s.last + 2 := by omega
  have h3 : ¬ k = s.last + 3 := by omega
  by_cases henc : (!e.visited x y && !e.hasRGB x y) = true
  · simp only [chaosStatsPixel, henc, ↓reduceIte]
    dsimp only [setByte]
    rw [if_neg h3, if_neg h2, if_neg h1, if_neg h0]
  · simp only [chaosStatsPixel, henc, Bool.false_eq_true, ↓reduceIte]
    dsimp only [setByte]
    rw [if_neg h3, if_neg h2, if_neg h1, if_neg h0]

/-- C32: in `writeChaos` every access to the chaos row buffer (the reads
`last[c − 4]`, `last[c]` and the stores `last[c]` of every pixel) has its index
in `[0, (width+1)·4)`, the size `_chaos_size` that `init` allocates; the left
residual used at a pixel with `x = 0` is 0 in every row, the above residual
used at a pixel of row `y = 0` is 0, and at pixel `(0,0)` every plane forms the
table index 0 and so has chaos index `CHAOS_TABLE[0]`. -/
theorem C32_chaos_row_buffer (e : CMEnv) (matrix : Nat → Int) (tbl : ChaosTableId) :
    (∀ i ∈ writeChaosObserve e matrix tbl (chaosAccesses e),
      0 ≤ i ∧ i < ((e.width : Int) + 1) * 4) ∧
    (∀ width height d, (ImageCMWriter_init width height).2 = some d →
      d._chaos_size = (width + 1) * 4) ∧
    (∀ lk ∈ writeChaosObserve e matrix tbl (chaosLookups e (chaosTableOf e tbl)),
      (lk.x = 0 → lk.left = 0) ∧ (lk.y = 0 → lk.above = 0) ∧
      (lk.x = 0 → lk.y = 0 → lk.index = 0 ∧ lk.chaos = toU8 (chaosTableOf e tbl 0))) := by
  refine ⟨?_, ?_, ?_⟩
  · unfold writeChaosObserve
    simp only []
    refine scanObserve_forall e
      (fun y x s => (writeChaosPixel e matrix (chaosTableOf e tbl) y x s).1) _
      (fun _ x s => s.last = 4 + 4 * x) _ ?_ (fun _ _ _ => rfl) _ rfl
    intro y x s _ hx hs
    refine ⟨?_, ?_⟩
    · show s.last + COLOR_PLANES = _
      unfold COLOR_PLANES
      omega
    · intro i hi
      unfold chaosAccesses at hi
      simp only [List.mem_append, List.mem_cons, List.mem_singleton, List.not_mem_nil,
        or_false] at hi
      have hx' : (x : Int) < (e.width : Int) := by exact_mod_cast hx
      have hs' : (s.last : Int) = 4 + 4 * (x : Int) := by exact_mod_cast hs
      rcases hi with hi | hi
      · split at hi
        · simp only [List.mem_cons, List.mem_singleton, List.not_mem_nil, or_false] at hi
          rcases hi with h | h | h | h | h | h | h | h <;> omega
        · cases hi
      · rcases hi with h | h | h | h <;> omega
  · intro width height d hd
    unfold ImageCMWriter_init at hd
    split_ifs at hd
    cases hd
    rfl
  · unfold writeChaosObserve
    simp only []
    refine scanObserve_forall e
      (fun y x s => (writeChaosPixel e matrix (chaosTableOf e tbl) y x s).1) _
      (fun y x s => s.last = 4 + 4 * x ∧ (∀ k, k < 4 → s.chaos k = 0) ∧
        (y = 0 → ∀ k, 4 + 4 * x ≤ k → s.chaos k = 0)) _ ?_
      (fun y s h => ⟨rfl, h.2.1, fun h0 => absurd h0 (Nat.succ_ne_zero y)⟩) _
      ⟨rfl, fun _ _ => rfl, fun _ _ _ => rfl⟩
    intro y x s _ _ hs
    obtain ⟨hl, hleft, habove⟩ := hs
    refine ⟨⟨?_, ?_, ?_⟩, ?_⟩
    · show s.last + COLOR_PLANES = _
      unfold COLOR_PLANES
      omega
    · intro k hk
      beta_reduce
      rw [(writeChaosPixel_eq_stats e matrix _ y x s).1,
        chaosStatsPixel_frame e matrix _ y x s k (by omega)]
      exact hleft k hk
    · intro hy k hk
      beta_reduce
      rw [(writeChaosPixel_eq_stats e matrix _ y x s).1,
        chaosStatsPixel_frame e matrix _ y x s k (by omega)]
      exact habove hy k (by omega)
    · intro lk hlk
      have key : ∀ c, c < 4 →
          ((chaosLookup (chaosTableOf e tbl) y x s c).x = 0 →
            (chaosLookup (chaosTableOf e tbl) y x s c).left = 0) ∧
          ((chaosLookup (chaosTableOf e tbl) y x s c).y = 0 →
            (chaosLookup (chaosTableOf e tbl) y x s c).above = 0) ∧
          ((chaosLookup (chaosTableOf e tbl) y x s c).x = 0 →
            (chaosLookup (chaosTableOf e tbl) y x s c).y = 0 →
            (chaosLookup (chaosTableOf e tbl) y x s c).index = 0 ∧
            (chaosLookup (chaosTableOf e tbl) y x s c).chaos
              = toU8 (chaosTableOf e tbl 0)) := by
        intro c hc
        have hL : x = 0 → s.chaos (s.last + c - 4) = 0 := fun hx =>
          hleft _ (by omega)
        have hA : y = 0 → s.chaos (s.last + c) = 0 := fun hy =>
          habove hy _ (by omega)
        refine ⟨hL, hA, ?_⟩
        intro hx hy
        have e1 : (chaosLookup (chaosTableOf e tbl) y x s c).index = 0 := by
          show chaosScore (s.chaos (s.last + c - 4)) + chaosScore (s.chaos (s.last + c)) = 0
          rw [hL hx, hA hy]
          decide
        refine ⟨e1, ?_⟩
        show toU8 (chaosTableOf e tbl (chaosLookup (chaosTableOf e tbl) y x s c).index) = _
        rw [e1]
      unfold chaosLookups at hlk
      split at hlk
      · simp only [List.mem_cons, List.mem_singleton, List.not_mem_nil, or_false] at hlk
        rcases hlk with h | h | h | h <;> rw [h] <;> exact key _ (by omega)
      · cases hlk

/-! ## C33: no encoded pixel in an unused zone -/

/-- The pair `decideZone` returns is a pair of the filter tables. -/
theorem decideZone_pair {E : Type} (e : CMEnv) (SF CF : Nat) (hSF : 0 < SF) (hCF : 0 < CF)
    (level : Int) (ep : EntropyPick E) (x y : Nat) (fs : FilterScorer) (ee : E)
    (hc : fs._count = SF * CF) (hpick : pickInRange ep SF CF) :
    ∃ r, decideZone e SF CF level ep x y fs ee = some r ∧ r.2.2._count = SF * CF ∧
      r.1.1 < SF ∧ r.1.2 < CF := by
  obtain ⟨z1, z2⟩ := scoreZone_list e SF CF hSF x y fs hc
  have hpos : 0 < (scoreZone e SF CF x y fs.reset)._count := by
    rw [z1]; exact Nat.mul_pos hSF hCF
  obtain ⟨pos, hp1, hp2⟩ := FilterScorer.getLowest_spec _ hpos
  rw [z1] at hp2
  have hlt : pos < SF * CF := hp2.1
  have hdiv : pos / SF < CF := by
    rw [Nat.div_lt_iff_lt_mul hSF, Nat.mul_comm]
    exact hlt
  unfold decideZone
  simp only [hp1, z2 pos hlt]
  by_cases h0 : level = 0
  · rw [if_pos h0]
    exact ⟨_, rfl, z1, Nat.mod_lt _ hSF, hdiv⟩
  · rw [if_neg h0]
    by_cases h4 : zoneScore e SF x y pos ≤ 4
    · rw [if_pos h4]
      exact ⟨_, rfl, z1, Nat.mod_lt _ hSF, hdiv⟩
    · rw [if_neg h4]
      exact ⟨_, rfl, z1, (hpick _ _ _ _).1, (hpick _ _ _ _).2⟩

/-- The zone loops of `decideFilters` return and turn no entry of the matrix
into `UNUSED_FILTER`. -/
theorem decideFold_keeps {E : Type} (e : CMEnv) (SF CF : Nat) (hSF : 0 < SF) (hCF : 0 < CF)
    (level : Int) (ep : EntropyPick E) (hpick : pickInRange ep SF CF)
    (hword : wordsUsed e SF CF) :
    ∀ (ks : List (Nat × Nat)) (st : DecideState E), st.scores._count = SF * CF →
      ∃ st', ks.foldl (decideStep e SF CF level ep) (some st) = some st' ∧
        ∀ j, st.matrix j ≠ e.UNUSED_FILTER → st'.matrix j ≠ e.UNUSED_FILTER := by
  intro ks
  induction ks with
  | nil => intro st _; exact ⟨st, rfl, fun _ h => h⟩
  | cons a t ih =>
      intro st hc
      have hstep : ∃ st1, decideStep e SF CF level ep (some st) a = some st1 ∧
          st1.scores._count = SF * CF ∧
          ∀ j, st.matrix j ≠ e.UNUSED_FILTER → st1.matrix j ≠ e.UNUSED_FILTER := by
        unfold decideStep
        rw [Option.some_bind]
        by_cases hu : getFilter e st.matrix a.1 a.2 = e.UNUSED_FILTER
        · rw [if_pos hu]
          exact ⟨st, rfl, hc, fun _ h => h⟩
        · rw [if_neg hu]
          obtain ⟨r, hr, hrc, hr1, hr2⟩ :=
            decideZone_pair e SF CF hSF hCF level ep a.1 a.2 st.scores st.ee hc hpick
          rw [hr, Option.map_some']
          refine ⟨_, rfl, hrc, ?_⟩
          intro j hj
          show setFilter e st.matrix a.1 a.2 _ j ≠ _
          unfold setFilter
          split_ifs
          · exact hword _ _ hr1 hr2
          · exact hj
      obtain ⟨st1, h1, h2, h3⟩ := hstep
      obtain ⟨st2, h4, h5⟩ := ih st1 h2
      rw [List.foldl_cons, h1]
      exact ⟨st2, h4, fun j hj => h5 j (h3 j hj)⟩

/-- After `maskFilters`, the zone of an encoded pixel is not marked
`UNUSED_FILTER`, provided the rectangles of `findExtent` are LZ-visited. -/
theorem maskFilters_encoded (e : CMEnv) (m0 : Nat → Int) (hw : e.width = 8 * e.w)
    (hne : e.UNUSED_FILTER ≠ e.TODO_FILTER) (hext : extentVisited e) (x y : Nat)
    (hx : x < e.width) (hy : y < e.height) (henc : isEncoded e (x, y) = true) :
    (maskFilters e m0) ((x >>> FILTER_ZONE_SIZE_SHIFT) + (y >>> FILTER_ZONE_SIZE_SHIFT) * e.w)
      ≠ e.UNUSED_FILTER := by
  have hsh : ∀ k : Nat, k >>> 3 = k / 8 := by
    intro k; rw [Nat.shiftRight_eq_div_pow]
  have hget := maskFilters_get e m0 (x / 8) (y / 8) hw (by omega) (by omega)
  unfold getFilter at hget
  simp only [FILTER_ZONE_SIZE_SHIFT, hsh] at hget ⊢
  have e1 : 8 * (x / 8) / 8 = x / 8 := by omega
  have e2 : 8 * (y / 8) / 8 = y / 8 := by omega
  rw [e1, e2] at hget
  rw [hget]
  have hoff : ¬ maskFiltersOn e (8 * (x / 8)) (8 * (y / 8)) = true := by
    rw [maskFiltersOn_iff]
    have hxy : 8 * (x / 8) + x % 8 = x := by omega
    have hyy : 8 * (y / 8) + y % 8 = y := by omega
    simp only [isEncoded, Bool.and_eq_true, Bool.not_eq_true'] at henc
    rintro (hm | ⟨w, h, hfe, hw8, hh8⟩)
    · have := hm (x % 8) (y % 8) (Nat.mod_lt _ (by omega)) (Nat.mod_lt _ (by omega))
      rw [hxy, hyy, henc.2] at this
      cases this
    · have := hext _ _ w h hfe (x % 8) (y % 8) (by omega) (by omega)
      rw [hxy, hyy, henc.1] at this
      cases this
  rw [if_neg hoff]
  exact hne.symm

/-- C33: after `maskFilters` and `decideFilters`, no pixel that `writeChaos`
encodes lies in a zone marked `UNUSED_FILTER`, so the assertion
`filter != UNUSED_FILTER` of `writeChaos` holds every time it is evaluated,
provided every pixel of a rectangle reported by `findExtent` is LZ-visited.
The grid is the one `init` sets up (`width = 8·_w`), the two sentinels differ,
and no filter word of a pair `sf < SF_COUNT`, `cf < CF_COUNT` is
`UNUSED_FILTER`. -/
theorem C33_encoded_zone_used {E : Type} (e : CMEnv) (SF_COUNT CF_COUNT : Nat)
    (compressLevel : Int) (ep : EntropyPick E) (matrix0 : Nat → Int) (list0 : Nat → Score)
    (ee0 : E) (hSF : 0 < SF_COUNT) (hCF : 0 < CF_COUNT) (hw : e.width = 8 * e.w)
    (hne : e.UNUSED_FILTER ≠ e.TODO_FILTER) (hext : extentVisited e)
    (hpick : pickInRange ep SF_COUNT CF_COUNT) (hword : wordsUsed e SF_COUNT CF_COUNT) :
    ∃ st, decideFilters e SF_COUNT CF_COUNT compressLevel ep (maskFilters e matrix0) list0 ee0
        = some st ∧
      (∀ x y, x < e.width → y < e.height → isEncoded e (x, y) = true →
        getFilter e st.matrix x y ≠ e.UNUSED_FILTER) ∧
      (∀ tbl, ∀ ok ∈ writeChaosObserve e st.matrix tbl (writeChaosEnforce e st.matrix),
        ok = true) := by
  obtain ⟨st, hst, hkeep⟩ := decideFold_keeps e SF_COUNT CF_COUNT hSF hCF compressLevel ep
    hpick hword
    ((zoneStarts e.height).flatMap fun y => (zoneStarts e.width).map fun x => (x, y))
    { matrix := maskFilters e matrix0,
      scores := { _list := list0, _count := SF_COUNT * CF_COUNT }, ee := ee0 } rfl
  have hall : ∀ x y, x < e.width → y < e.height → isEncoded e (x, y) = true →
      getFilter e st.matrix x y ≠ e.UNUSED_FILTER := by
    intro x y hx hy henc
    exact hkeep _ (maskFilters_encoded e matrix0 hw hne hext x y hx hy henc)
  refine ⟨st, ?_, hall, ?_⟩
  · unfold decideFilters
    rw [foldl_nested_pairs (decideStep e SF_COUNT CF_COUNT compressLevel ep)]
    exact hst
  · intro tbl
    unfold writeChaosObserve
    simp only []
    refine scanObserve_forall e
      (fun y x s => (writeChaosPixel e st.matrix (chaosTableOf e tbl) y x s).1) _
      (fun _ _ _ => True) _ ?_ (fun _ _ _ => trivial) _ trivial
    intro y x s hy hx _
    refine ⟨trivial, ?_⟩
    intro ok hok
    unfold writeChaosEnforce at hok
    split at hok
    · rename_i henc
      simp only [List.mem_singleton] at hok
      rw [hok]
      exact decide_eq_true (hall x y hx hy henc)
    · cases hok

/-- Witness for C33: the two-zone writer `envTwoZones` (left zone wholly
mask-covered, right zone with the unmasked pixel `(8,0)`), two spatial and two
colour filters, sentinels `0xffff` and `0`. -/
theorem C33_encoded_zone_used_witness :
    ∃ st, decideFilters envTwoZones 2 2 0 entropyPickZero (maskFilters envTwoZones fun _ => 7)
        (fun _ => { score := 0, index := 0 }) () = some st ∧
      (∀ x y, x < envTwoZones.width → y < envTwoZones.height →
        isEncoded envTwoZones (x, y) = true →
        getFilter envTwoZones st.matrix x y ≠ envTwoZones.UNUSED_FILTER) ∧
      (∀ tbl, ∀ ok ∈ writeChaosObserve envTwoZones st.matrix tbl
          (writeChaosEnforce envTwoZones st.matrix), ok = true) :=
  C33_encoded_zone_used envTwoZones 2 2 0 entropyPickZero (fun _ => 7)
    (fun _ => { score := 0, index := 0 }) () (by decide) (by decide) (by decide) (by decide)
    (fun _ _ _ _ h => by cases h)
    (fun _ _ _ _ => ⟨Nat.zero_lt_two, Nat.zero_lt_two⟩)
    (fun sf cf h1 h2 => by
      interval_cases sf <;> interval_cases cf <;> decide)

/-! ## C34: the histograms of the estimator of `ImageFilterWriter.cpp` -/

theorem commit_global (est : ImageFilterWriter_EntropyEstimator) (s : Nat) :
    est.commit._global s
      = if s < est._num_syms then (est._global s + est._best s) % 2 ^ 32 else est._global s := by
  unfold ImageFilterWriter_EntropyEstimator.commit
  simp only
  generalize est._num_syms = n
  induction n with
  | zero => simp
  | succ n ih =>
      rw [List.range_succ, List.foldl_append, List.foldl_cons, List.foldl_nil]
      by_cases hs : s = n
      · subst hs
        rw [if_pos rfl, ih, if_neg (Nat.lt_irrefl s), if_pos (Nat.lt_succ_self s)]
      · rw [if_neg hs, ih]
        by_cases h1 : s < n
        · have h2 : s < n + 1 := Nat.lt_succ_of_lt h1
          rw [if_pos h1, if_pos h2]
        · have h2 : ¬ s < n + 1 := fun h =>
            (Nat.lt_succ_iff_lt_or_eq.mp h).elim h1 hs
          rw [if_neg h1, if_neg h2]

theorem sum_indicator (n : Nat) (v : Int) (hv : 0 ≤ v) :
    ((List.range n).map (fun s : Nat => if v = (s : Int) then 1 else 0)).sum
      = if v < (n : Int) then 1 else 0 := by
  induction n with
  | zero =>
      have : ¬ v < 0 := by omega
      simp [this]
  | succ n ih =>
      rw [List.range_succ, List.map_append, List.sum_append, ih]
      simp only [List.map_cons, List.map_nil, List.sum_cons, List.sum_nil, Nat.add_zero]
      by_cases h1 : v < (n : Int)
      · have h2 : ¬ v = (n : Int) := by omega
        have h3 : v < ((n + 1 : Nat) : Int) := by omega
        rw [if_pos h1, if_neg h2, if_pos h3]
      · by_cases h2 : v = (n : Int)
        · have h3 : v < ((n + 1 : Nat) : Int) := by omega
          rw [if_neg h1, if_pos h2, if_pos h3]
        · have h3 : ¬ v < ((n + 1 : Nat) : Int) := by omega
          rw [if_neg h1, if_neg h2, if_neg h3]

/-- The counts of the values `0 .. n − 1` in a list of such values add up to
its length. -/
theorem sum_count_range (n : Nat) (l : List Int) (hl : ∀ v ∈ l, 0 ≤ v ∧ v < (n : Int)) :
    ((List.range n).map (fun s : Nat => l.count (s : Int))).sum = l.length := by
  induction l with
  | nil => simp
  | cons a t ih =>
      have ha := hl a (List.mem_cons_self a t)
      have hsplit : ((List.range n).map (fun s : Nat => (a :: t).count (s : Int))).sum
          = ((List.range n).map (fun s : Nat => t.count (s : Int))).sum
            + ((List.range n).map (fun s : Nat => if a = (s : Int) then 1 else 0)).sum := by
        simp only [List.count_cons, beq_iff_eq]
        exact List.sum_map_add
      rw [hsplit, ih (fun v hv => hl v (List.mem_cons_of_mem a hv)), sum_indicator n a ha.1,
        if_pos ha.2, List.length_cons]

/-- One allowed call returns and keeps the estimator in step with the log. -/
theorem estimatorStep_inv (n : Nat) (op : EstimatorOp) (log : PushLog)
    (est : ImageFilterWriter_EntropyEstimator) (hinv : EstimatorInv n log est)
    (hop : opAllowed n log op = true) :
    ∃ est1, estimatorStep (some est) op = some est1 ∧ EstimatorInv n (log.step op) est1 ∧
      (log.step op).committed.length ≤ log.committed.length + 255 := by
  obtain ⟨hn, hloc, hbest, hglob, htot, hmem⟩ := hinv
  cases op with
  | setup =>
      refine ⟨est.setup, rfl, ⟨hn, ?_, hbest, hglob, htot, hmem⟩, Nat.le_add_right _ _⟩
      intro _
      refine ⟨fun s _ => rfl, rfl, Nat.zero_le _, ?_⟩
      intro v hv
      cases hv
  | push v =>
      simp only [opAllowed, Bool.and_eq_true, decide_eq_true_eq, Bool.or_eq_true,
        Bool.not_eq_true'] at hop
      obtain ⟨hv, hcount⟩ := hop
      have hstep : estimatorStep (some est) (EstimatorOp.push v) = est.push v := rfl
      have hpush : est.push v = some
          { _num_syms := est._num_syms
            _global := est._global
            _globalTotal := est._globalTotal
            _best := est._best
            _bestTotal := est._bestTotal
            _local := fun i => if i = v.toNat then (est._local i + 1) % 256 else est._local i
            _localTotal := (est._localTotal + 1) % 2 ^ 32 } := by
        unfold ImageFilterWriter_EntropyEstimator.push
        rw [if_pos (by rw [hn]; exact hv)]
      rw [hstep, hpush]
      refine ⟨_, rfl, ⟨hn, ?_, hbest, hglob, htot, hmem⟩, Nat.le_add_right _ _⟩
      intro hseen
      have hseen' : log.setupSeen = true := hseen
      obtain ⟨l1, l2, l3, l4⟩ := hloc hseen'
      have hlen : log.sinceSetup.length < 255 := by
        rcases hcount with h | h
        · rw [hseen'] at h
          cases h
        · exact h
      refine ⟨?_, ?_, ?_, ?_⟩
      · intro s hs
        show (if s = v.toNat then (est._local s + 1) % 256 else est._local s)
          = (v :: log.sinceSetup).count (s : Int)
        rw [List.count_cons, l1 s hs]
        have hc := List.count_le_length (s : Int) log.sinceSetup
        by_cases hsv : s = v.toNat
        · have : (v == (s : Int)) = true := by
            rw [beq_iff_eq]; omega
          rw [if_pos hsv, this, if_pos rfl]
          omega
        · have : ¬ (v == (s : Int)) = true := by
            rw [beq_iff_eq]; omega
          rw [if_neg hsv, if_neg this]
          rfl
      · show (est._localTotal + 1) % 2 ^ 32 = (v :: log.sinceSetup).length
        rw [l2, List.length_cons]
        omega
      · show (v :: log.sinceSetup).length ≤ 255
        rw [List.length_cons]
        omega
      · intro w hw
        rcases List.mem_cons.mp hw with h | h
        · rw [h]; exact hv
        · exact l4 w h
  | save =>
      have hseen : log.setupSeen = true := hop
      obtain ⟨l1, l2, l3, l4⟩ := hloc hseen
      refine ⟨est.save, rfl, ⟨hn, hloc, ?_, hglob, htot, hmem⟩, Nat.le_add_right _ _⟩
      intro _
      refine ⟨?_, l2, l3, l4⟩
      intro s hs
      show (if s < est._num_syms then est._local s else est._best s) = _
      rw [if_pos (by omega)]
      exact l1 s hs
  | commit =>
      have hseen : log.saveSeen = true := hop
      obtain ⟨b1, b2, b3, b4⟩ := hbest hseen
      refine ⟨est.commit, rfl, ⟨hn, hloc, hbest, ?_, ?_, ?_⟩, ?_⟩
      · intro s hs
        rw [commit_global, if_pos (by omega), hglob s hs, b1 s hs]
        show _ = (log.saved ++ log.committed).count (s : Int) % 2 ^ 32
        rw [List.count_append]
        omega
      · show (est._globalTotal + est._bestTotal) % 2 ^ 32
          = (log.saved ++ log.committed).length % 2 ^ 32
        rw [htot, b2, List.length_append]
        omega
      · intro v hv
        rcases List.mem_append.mp hv with h | h
        · exact b4 v h
        · exact hmem v h
      · show (log.saved ++ log.committed).length ≤ _
        rw [List.length_append]
        omega

/-- An allowed sequence of calls returns and keeps the estimator in step with
the log. -/
theorem estimatorRun_inv (n : Nat) :
    ∀ (ops : List EstimatorOp) (log : PushLog) (est : ImageFilterWriter_EntropyEstimator),
      EstimatorInv n log est → allowedSequence n log ops = true →
      ∃ est1, ops.foldl estimatorStep (some est) = some est1 ∧
        EstimatorInv n (ops.foldl PushLog.step log) est1 ∧
        (ops.foldl PushLog.step log).committed.length
          ≤ log.committed.length + 255 * ops.length := by
  intro ops
  induction ops with
  | nil =>
      intro log est hinv _
      exact ⟨est, rfl, hinv, Nat.le_add_right _ _⟩
  | cons op t ih =>
      intro log est hinv hall
      simp only [allowedSequence, Bool.and_eq_true] at hall
      obtain ⟨est1, h1, h2, h3⟩ := estimatorStep_inv n op log est hinv hall.1
      obtain ⟨est2, h4, h5, h6⟩ := ih (log.step op) est1 h2 hall.2
      rw [List.foldl_cons, List.foldl_cons, h1]
      refine ⟨est2, h4, h5, ?_⟩
      rw [List.length_cons]
      omega

theorem allowedSequence_initial (n : Nat) :
    ∀ (a b : List EstimatorOp) (log : PushLog), allowedSequence n log (a ++ b) = true →
      allowedSequence n log a = true := by
  intro a
  induction a with
  | nil => intro _ _ _; rfl
  | cons op t ih =>
      intro b log h
      simp only [List.cons_append, allowedSequence, Bool.and_eq_true] at h ⊢
      exact ⟨h.1, ih b _ h.2⟩

/-- After an allowed sequence of fewer than `2^24` calls, `_global` holds the
counts of the committed pushes and `_globalTotal` their number, the sum of
`_global[0..n)`. -/
theorem estimator_counts (est0 : ImageFilterWriter_EntropyEstimator) (n : Nat)
    (bestMem localMem : Nat → Nat) (ops : List EstimatorOp)
    (hallowed : allowedSequence n PushLog.start ops = true) (hlen : ops.length < 2 ^ 24) :
    ∃ est, estimatorRun ops (est0.clear n bestMem localMem) = some est ∧
      est._globalTotal = globalSum est n ∧
      est._globalTotal = (pushLog ops).committed.length ∧
      ∀ s, s < n → est._global s = (pushLog ops).committed.count (s : Int) := by
  have h0 : EstimatorInv n PushLog.start (est0.clear n bestMem localMem) := by
    refine ⟨rfl, ?_, ?_, fun _ _ => rfl, rfl, ?_⟩
    · intro h; cases h
    · intro h; cases h
    · intro v hv; cases hv
  obtain ⟨est, h1, ⟨_, _, _, hglob, htot, hmem⟩, hbound⟩ :=
    estimatorRun_inv n ops PushLog.start _ h0 hallowed
  unfold pushLog
  generalize ops.foldl PushLog.step PushLog.start = log at hglob htot hmem hbound ⊢
  have hsmall : log.committed.length < 2 ^ 32 := by
    have : log.committed.length ≤ 0 + 255 * ops.length := hbound
    omega
  have hg : ∀ s, s < n → est._global s = log.committed.count (s : Int) := by
    intro s hs
    have := hglob s hs
    have hc := List.count_le_length (s : Int) log.committed
    have e : log.committed.count (s : Int) % 2 ^ 32
        = log.committed.count (s : Int) := Nat.mod_eq_of_lt (by omega)
    rw [← e]
    exact this
  have ht : est._globalTotal = log.committed.length := by
    rw [htot]
    exact Nat.mod_eq_of_lt hsmall
  refine ⟨est, h1, ?_, ht, hg⟩
  rw [ht, ← sum_count_range n _ hmem]
  unfold globalSum
  congr 1
  apply List.map_congr_left
  intro s hs
  exact (hg s (List.mem_range.mp hs)).symm

/-- C34, as stated, fails: the sequence `save, commit` after `clear(2)` meets
the claim's conditions (no push at all, and the `commit` follows a `save`),
but `save` copies the bytes that `new` left in `_local`; with `_local[0] = 1`
the `commit` raises `_global[0]` to 1, where no push was recorded, and
`_globalTotal` stays 0, where the sum of `_global[0..2)` is 1. -/
theorem C34_counterexample_save_before_setup :
    claimedSequence PushLog.start [EstimatorOp.save, EstimatorOp.commit] = true ∧
    (estimatorRun [EstimatorOp.save, EstimatorOp.commit]
        (estimatorFresh.clear 2 (fun _ => 0) (fun i => if i = 0 then 1 else 0))).map
        (globalView 2) = some (0, [1, 0]) ∧
    (estimatorRun [EstimatorOp.save, EstimatorOp.commit]
        (estimatorFresh.clear 2 (fun _ => 0) (fun i => if i = 0 then 1 else 0))).map
        (fun est => globalSum est 2) = some 1 ∧
    (pushLog [EstimatorOp.save]).saved = [] := by
  refine ⟨by decide, by decide, by decide, by decide⟩

/-- C34, amended: starting from `clear(n)`, under any sequence of fewer than
`2^24` calls of `setup`, `push`, `save` and `commit` in which every pushed
symbol lies in `[0, n)`, every `save` follows a `setup`, at most 255 pushes
occur between two setups and every `commit` follows a `save`, the calls
return, `_globalTotal` equals the sum of `_global[0..n)`, each `_global[s]`
is the number of committed pushes of `s`, and a final `commit` increases each
`_global[s]` by exactly the number of pushes of `s` recorded at the last
`save` and `_globalTotal` by their total. -/
theorem C34_estimator_counts (est0 : ImageFilterWriter_EntropyEstimator) (n : Nat)
    (bestMem localMem : Nat → Nat) (ops : List EstimatorOp)
    (hallowed : allowedSequence n PushLog.start ops = true) (hlen : ops.length < 2 ^ 24) :
    ∃ est, estimatorRun ops (est0.clear n bestMem localMem) = some est ∧
      est._globalTotal = globalSum est n ∧
      (∀ s, s < n → est._global s = (pushLog ops).committed.count (s : Int)) ∧
      (∀ pre, ops = pre ++ [EstimatorOp.commit] →
        ∃ est1, estimatorRun pre (est0.clear n bestMem localMem) = some est1 ∧
          (∀ s, s < n →
            est._global s = est1._global s + (pushLog pre).saved.count (s : Int)) ∧
          est._globalTotal = est1._globalTotal + (pushLog pre).saved.length) := by
  obtain ⟨est, h1, h2, h3, h4⟩ := estimator_counts est0 n bestMem localMem ops hallowed hlen
  refine ⟨est, h1, h2, h4, ?_⟩
  intro pre hpre
  subst hpre
  have hlen' : pre.length < 2 ^ 24 := by
    rw [List.length_append] at hlen
    omega
  obtain ⟨est1, p1, _, p3, p4⟩ := estimator_counts est0 n bestMem localMem pre
    (allowedSequence_initial n pre _ _ hallowed) hlen'
  have hlog : (pushLog (pre ++ [EstimatorOp.commit])).committed
      = (pushLog pre).saved ++ (pushLog pre).committed := by
    unfold pushLog
    rw [List.foldl_append]
    rfl
  refine ⟨est1, p1, ?_, ?_⟩
  · intro s hs
    rw [h4 s hs, p4 s hs, hlog, List.count_append]
    omega
  · rw [h3, p3, hlog, List.length_append]
    omega

/-- Witness for C34: two symbols, indeterminate bytes 7 and 9 in `_best` and
`_local`, and two rounds of `setup`, pushes, `save`, `commit`, the second
committed twice. -/
theorem C34_estimator_counts_witness :
    ∃ est, estimatorRun
        [EstimatorOp.setup, EstimatorOp.push 1, EstimatorOp.push 0, EstimatorOp.push 1,
         EstimatorOp.save, EstimatorOp.commit, EstimatorOp.setup, EstimatorOp.push 0,
         EstimatorOp.save, EstimatorOp.commit, EstimatorOp.commit]
        (estimatorFresh.clear 2 (fun _ => 7) (fun _ => 9)) = some est ∧
      est._globalTotal = globalSum est 2 ∧
      (∀ s, s < 2 → est._global s = (pushLog
        [EstimatorOp.setup, EstimatorOp.push 1, EstimatorOp.push 0, EstimatorOp.push 1,
         EstimatorOp.save, EstimatorOp.commit, EstimatorOp.setup, EstimatorOp.push 0,
         EstimatorOp.save, EstimatorOp.commit, EstimatorOp.commit]).committed.count (s : Int)) ∧
      (∀ pre,
        [EstimatorOp.setup, EstimatorOp.push 1, EstimatorOp.push 0, EstimatorOp.push 1,
         EstimatorOp.save, EstimatorOp.commit, EstimatorOp.setup, EstimatorOp.push 0,
         EstimatorOp.save, EstimatorOp.commit, EstimatorOp.commit]
          = pre ++ [EstimatorOp.commit] →
        ∃ est1, estimatorRun pre (estimatorFresh.clear 2 (fun _ => 7) (fun _ => 9))
            = some est1 ∧
          (∀ s, s < 2 →
            est._global s = est1._global s + (pushLog pre).saved.count (s : Int)) ∧
          est._globalTotal = est1._globalTotal + (pushLog pre).saved.length) :=
  C34_estimator_counts estimatorFresh 2 (fun _ => 7) (fun _ => 9)
    [EstimatorOp.setup, EstimatorOp.push 1, EstimatorOp.push 0, EstimatorOp.push 1,
     EstimatorOp.save, EstimatorOp.commit, EstimatorOp.setup, EstimatorOp.push 0,
     EstimatorOp.save, EstimatorOp.commit, EstimatorOp.commit]
    (by decide) (by decide)

end GCIF
